import Mathlib

/-!
# rcheevos condition / leaderboard engine and the RetroArch address resolver: a shallow embedding

Sources embedded here:

* `deps/rcheevos/include/rcheevos.h`  (constants and node structures)
* `deps/rcheevos/src/rcheevos/condition.c`  (`rc_parse_condition`, `rc_test_condition`)
* `deps/rcheevos/src/rcheevos/lboard.c`  (`rc_parse_lboard_internal`, `rc_lboard_size`,
  `rc_parse_lboard`, `rc_evaluate_lboard`)
* `cheevos-new/fixup.c`  (`cheevos_cmpaddr`, `cheevos_var_reduce`,
  `cheevos_var_highest_bit`, `cheevos_fixup_init`, `cheevos_fixup_find`,
  `cheevos_patch_address`)
* `cheevos-new/cheevos.c`  (`cheevos_peek`)

Conventions.

* C `unsigned` is a `Nat` kept below `2^32` by an explicit `% UINT_MOD` wherever the
  C arithmetic can wrap; C `int` and `char` are `Int`.
* A C string is a `List Char`; reading at the end of the list yields the NUL
  terminator (`cur`).
* Nullable pointers to nodes are `Option`s, pointer chains are `List`s.
* Functions that the translation units call but that live elsewhere
  (`rc_parse_operand`, `rc_evaluate_operand`, `rc_test_trigger`, ...) are fields of
  `rc_env`; every theorem quantifies over all of them.
* A pointer into host memory is a `Nat`, 0 for the null pointer.  What `fixup.c`
  reads from the frontend (the descriptor table, the answers of `core_get_memory`,
  the width of `size_t`) is a `cheevos_host`; the array of the fixup cache is the
  `List` of its entries in use.
-/

namespace RC

/-! ## Constants of `rcheevos.h` -/

def UINT_MOD : Nat := 2 ^ 32

def RC_OK : Int := 0
def RC_INVALID_LUA_OPERAND : Int := -1
def RC_INVALID_MEMORY_OPERAND : Int := -2
def RC_INVALID_CONST_OPERAND : Int := -3
def RC_INVALID_FP_OPERAND : Int := -4
def RC_INVALID_CONDITION_TYPE : Int := -5
def RC_INVALID_OPERATOR : Int := -6
def RC_INVALID_REQUIRED_HITS : Int := -7
def RC_DUPLICATED_START : Int := -8
def RC_DUPLICATED_CANCEL : Int := -9
def RC_DUPLICATED_SUBMIT : Int := -10
def RC_DUPLICATED_VALUE : Int := -11
def RC_DUPLICATED_PROGRESS : Int := -12
def RC_MISSING_START : Int := -13
def RC_MISSING_CANCEL : Int := -14
def RC_MISSING_SUBMIT : Int := -15
def RC_MISSING_VALUE : Int := -16
def RC_INVALID_LBOARD_FIELD : Int := -17

def RC_CONDITION_STANDARD : Int := 0
def RC_CONDITION_PAUSE_IF : Int := 1
def RC_CONDITION_RESET_IF : Int := 2
def RC_CONDITION_ADD_SOURCE : Int := 3
def RC_CONDITION_SUB_SOURCE : Int := 4
def RC_CONDITION_ADD_HITS : Int := 5

def RC_CONDITION_EQ : Int := 0
def RC_CONDITION_LT : Int := 1
def RC_CONDITION_LE : Int := 2
def RC_CONDITION_GT : Int := 3
def RC_CONDITION_GE : Int := 4
def RC_CONDITION_NE : Int := 5

def RC_LBOARD_INACTIVE : Int := 0
def RC_LBOARD_ACTIVE : Int := 1
def RC_LBOARD_STARTED : Int := 2
def RC_LBOARD_CANCELED : Int := 3
def RC_LBOARD_TRIGGERED : Int := 4

/-! ## Node structures of `rcheevos.h` -/

/-- The callback `rc_peek_t` together with its user data: address and byte count
in, value out. -/
abbrev rc_peek_t := Nat → Nat → Nat

/-- The struct `rc_operand_t`; the members of its union are kept side by side and
the floating point member is left out. -/
structure rc_operand_t where
  value : Nat
  previous : Nat
  size : Int
  is_bcd : Int
  function_ref : Int
  type : Int
deriving DecidableEq, Repr

/-- The struct `rc_condition_t`; the `next` link is the tail of the list that
holds the condition. -/
structure rc_condition_t where
  operand1 : rc_operand_t
  operand2 : rc_operand_t
  required_hits : Nat
  current_hits : Nat
  pause : Int
  type : Int
  oper : Int
deriving DecidableEq, Repr

/-- The struct `rc_condset_t`; the `next` link is the tail of the list that holds
the set. -/
structure rc_condset_t where
  conditions : List rc_condition_t
  has_pause : Int
deriving DecidableEq, Repr

/-- The struct `rc_trigger_t`: `requirement` is a nullable pointer, `alternative`
the chain of alternative sets (the empty list is the null pointer). -/
structure rc_trigger_t where
  requirement : Option rc_condset_t
  alternative : List rc_condset_t
deriving DecidableEq, Repr

/-- The struct `rc_term_t`. -/
structure rc_term_t where
  operand1 : rc_operand_t
  operand2 : rc_operand_t
  invert : Nat
deriving DecidableEq, Repr

/-- The struct `rc_expression_t`. -/
structure rc_expression_t where
  terms : List rc_term_t
deriving DecidableEq, Repr

/-- The struct `rc_value_t`. -/
structure rc_value_t where
  expressions : List rc_expression_t
deriving DecidableEq, Repr

/-- The struct `rc_lboard_t`; `progress` is a nullable pointer. -/
structure rc_lboard_t where
  start : rc_trigger_t
  submit : rc_trigger_t
  cancel : rc_trigger_t
  value : rc_value_t
  progress : Option rc_value_t
  started : Int
  submitted : Int
deriving DecidableEq, Repr

/-! ## What the translation units take from elsewhere -/

/-- The functions and layout constants that `condition.c` and `lboard.c` use but do
not define.  A parser reports the number of characters by which it advances the
text pointer; an evaluator returns its result (a C `unsigned` or `int`) together
with the node as it leaves it (hit counts and delta values change under
evaluation). -/
structure rc_env where
  /-- The value of `sizeof(rc_condition_t)`. -/
  sizeof_condition : Int
  /-- The value of `RC_ALIGNOF(rc_condition_t)`. -/
  alignof_condition : Int
  /-- The value of `sizeof(rc_lboard_t)`. -/
  sizeof_lboard : Int
  /-- The value of `RC_ALIGNOF(rc_lboard_t)`. -/
  alignof_lboard : Int
  /-- The value of `sizeof(rc_value_t)`. -/
  sizeof_value : Int
  /-- The value of `RC_ALIGNOF(rc_value_t)`. -/
  alignof_value : Int
  /-- The value of `ULONG_MAX` on the platform. -/
  ulong_max : Nat
  /-- The allocator `rc_alloc(pointer, offset, size, alignment, scratch)` behind the
  macro `RC_ALLOC`: the pointer returned and the new `*offset`. -/
  rc_alloc : Nat → Int → Int → Int → Nat → Nat × Int
  /-- The parser `rc_parse_operand(self, memaddr, is_trigger, L, funcs_ndx)`: the
  return code, the operand written, the characters consumed. -/
  rc_parse_operand : List Char → Int → Nat → Int → Int × rc_operand_t × Nat
  /-- The evaluator `rc_evaluate_operand(self, peek, ud, L)`. -/
  rc_evaluate_operand : rc_operand_t → rc_peek_t → Nat → Nat × rc_operand_t
  /-- The parser `rc_parse_trigger_internal(self, ret, buffer, scratch, memaddr, L,
  funcs_ndx)`: the trigger written, the new `*ret`, the characters consumed. -/
  rc_parse_trigger_internal : Int → Nat → Nat → List Char → Nat → Int → rc_trigger_t × Int × Nat
  /-- The parser `rc_parse_value_internal(self, ret, buffer, scratch, memaddr, L,
  funcs_ndx)`: the value written, the new `*ret`, the characters consumed. -/
  rc_parse_value_internal : Int → Nat → Nat → List Char → Nat → Int → rc_value_t × Int × Nat
  /-- The evaluator `rc_test_trigger(trigger, peek, ud, L)`. -/
  rc_test_trigger : rc_trigger_t → rc_peek_t → Nat → Int × rc_trigger_t
  /-- The evaluator `rc_evaluate_value(value, peek, ud, L)`. -/
  rc_evaluate_value : rc_value_t → rc_peek_t → Nat → Nat × rc_value_t
  /-- The procedure `rc_reset_trigger(self)`. -/
  rc_reset_trigger : rc_trigger_t → rc_trigger_t

/-! ## `condition.c`: `rc_test_condition` -/

/-- The C truth value of a comparison. -/
def c_bool (p : Bool) : Int := if p then 1 else 0

/-- The function `rc_test_condition` of `condition.c`: the result and the
condition with its operands as the two evaluations leave them. -/
def rc_test_condition (env : rc_env) (self : rc_condition_t) (add_buffer : Nat)
    (peek : rc_peek_t) (L : Nat) : Int × rc_condition_t :=
  let e1 := env.rc_evaluate_operand self.operand1 peek L
  let value1 := (e1.1 + add_buffer) % UINT_MOD
  let e2 := env.rc_evaluate_operand self.operand2 peek L
  let value2 := e2.1
  let self1 := { self with operand1 := e1.2, operand2 := e2.2 }
  if self.oper = RC_CONDITION_EQ then (c_bool (value1 == value2), self1)
  else if self.oper = RC_CONDITION_NE then (c_bool (value1 != value2), self1)
  else if self.oper = RC_CONDITION_LT then (c_bool (decide (value1 < value2)), self1)
  else if self.oper = RC_CONDITION_LE then (c_bool (decide (value1 ≤ value2)), self1)
  else if self.oper = RC_CONDITION_GT then (c_bool (decide (value1 > value2)), self1)
  else if self.oper = RC_CONDITION_GE then (c_bool (decide (value1 ≥ value2)), self1)
  else (1, self1)

/-! ## Text pointers and `strtoul` -/

/-- The character under a text pointer; at the end of the text it is the NUL
terminator. -/
def cur (s : List Char) : Char := s.headD '\x00'

/-- The character `s[i]` of a text, NUL from the end of the text on. -/
def at_ (s : List Char) (i : Nat) : Char := s.getD i '\x00'

/-- The C library predicate `isspace` in the C locale. -/
def isspace (c : Char) : Bool :=
  c = ' ' || c = '\t' || c = '\n' || c = '\x0b' || c = '\x0c' || c = '\r'

/-- The digit loop of `strtoul` in base 10: the value read so far and the number
of digits read. -/
def strtoul_digits (acc n : Nat) : List Char → Nat × Nat
  | [] => (acc, n)
  | c :: cs =>
    if c.isDigit then strtoul_digits (acc * 10 + (c.toNat - 48)) (n + 1) cs else (acc, n)

/-- The C library function `strtoul(nptr, &end, 10)`: the value returned and
`end - nptr`.  White space is skipped, one sign is accepted, a value above
`ULONG_MAX` is replaced by `ULONG_MAX`, a negated value wraps, and without a
digit nothing is consumed. -/
def strtoul (ulong_max : Nat) (nptr : List Char) : Nat × Nat :=
  let ws := (nptr.takeWhile isspace).length
  let s := nptr.drop ws
  let neg := cur s = '-'
  let sg := if cur s = '-' ∨ cur s = '+' then 1 else 0
  let d := strtoul_digits 0 0 (s.drop sg)
  if d.2 = 0 then (0, 0)
  else if d.1 > ulong_max then (ulong_max, ws + sg + d.2)
  else if neg then ((ulong_max + 1 - d.1) % (ulong_max + 1), ws + sg + d.2)
  else (d.1, ws + sg + d.2)

/-! ## `condition.c`: `rc_parse_condition` -/

/-- What `rc_parse_condition` leaves behind: the condition behind the returned
pointer (`none` for a null pointer), `*ret` and `*memaddr`. -/
structure rc_condition_parse where
  self : Option rc_condition_t
  ret : Int
  memaddr : List Char
deriving DecidableEq, Repr

/-- The function `rc_parse_condition` from line 82 on (the required hits),
entered with `aux` right after operand2. -/
def rc_parse_condition_hits (env : rc_env) (self : rc_condition_t) (ret : Int)
    (memaddr aux : List Char) : rc_condition_parse :=
  if cur aux = '(' then
    let aux := aux.tail
    let r := strtoul env.ulong_max aux
    let self := { self with required_hits := r.1 % UINT_MOD }
    let endp := aux.drop r.2
    if r.2 = 0 ∨ cur endp ≠ ')' then
      { self := none, ret := RC_INVALID_REQUIRED_HITS, memaddr := memaddr }
    else
      { self := some self, ret := ret, memaddr := endp.tail }
  else if cur aux = '.' then
    let aux := aux.tail
    let r := strtoul env.ulong_max aux
    let self := { self with required_hits := r.1 % UINT_MOD }
    let endp := aux.drop r.2
    if r.2 = 0 ∨ cur endp ≠ '.' then
      { self := none, ret := RC_INVALID_REQUIRED_HITS, memaddr := memaddr }
    else
      { self := some self, ret := ret, memaddr := endp.tail }
  else
    { self := some { self with required_hits := 0 }, ret := ret, memaddr := aux }

/-- The function `rc_parse_condition` from line 75 on (operand2 and the required
hits), entered with `aux` right after the operator. -/
def rc_parse_condition_operand2 (env : rc_env) (self : rc_condition_t) (ret : Int)
    (memaddr aux : List Char) (L : Nat) (funcs_ndx : Int) : rc_condition_parse :=
  let p := env.rc_parse_operand aux 1 L funcs_ndx
  let self := { self with operand2 := p.2.1 }
  let aux := aux.drop p.2.2
  let ret2 := p.1
  if ret2 < 0 then { self := none, ret := ret2, memaddr := memaddr }
  else rc_parse_condition_hits env self ret memaddr aux

/-- The function `rc_parse_condition` from line 37 on (the operator, operand2 and
the required hits), entered with `aux` right after operand1. -/
def rc_parse_condition_operator (env : rc_env) (self : rc_condition_t) (ret : Int)
    (memaddr aux : List Char) (L : Nat) (funcs_ndx : Int) : rc_condition_parse :=
  let c := cur aux
  let aux := aux.tail
  if c = '=' then
    let self := { self with oper := RC_CONDITION_EQ }
    let aux := if cur aux = '=' then aux.tail else aux
    rc_parse_condition_operand2 env self ret memaddr aux L funcs_ndx
  else if c = '!' then
    let c2 := cur aux
    let aux := aux.tail
    if c2 ≠ '=' then { self := none, ret := RC_INVALID_OPERATOR, memaddr := memaddr }
    else
      rc_parse_condition_operand2 env { self with oper := RC_CONDITION_NE } ret memaddr aux L
        funcs_ndx
  else if c = '<' then
    let self := { self with oper := RC_CONDITION_LT }
    if cur aux = '=' then
      rc_parse_condition_operand2 env { self with oper := RC_CONDITION_LE } ret memaddr aux.tail L
        funcs_ndx
    else rc_parse_condition_operand2 env self ret memaddr aux L funcs_ndx
  else if c = '>' then
    let self := { self with oper := RC_CONDITION_GT }
    if cur aux = '=' then
      rc_parse_condition_operand2 env { self with oper := RC_CONDITION_GE } ret memaddr aux.tail L
        funcs_ndx
    else rc_parse_condition_operand2 env self ret memaddr aux L funcs_ndx
  else { self := none, ret := RC_INVALID_OPERATOR, memaddr := memaddr }

/-- The function `rc_parse_condition` from line 30 on (operand1 and all that
follows), entered with `aux` right after the condition type. -/
def rc_parse_condition_operand1 (env : rc_env) (self : rc_condition_t) (ret : Int)
    (memaddr aux : List Char) (L : Nat) (funcs_ndx : Int) : rc_condition_parse :=
  let p := env.rc_parse_operand aux 1 L funcs_ndx
  let self := { self with operand1 := p.2.1 }
  let aux := aux.drop p.2.2
  let ret2 := p.1
  if ret2 < 0 then { self := none, ret := ret2, memaddr := memaddr }
  else rc_parse_condition_operator env self ret memaddr aux L funcs_ndx

/-- The function `rc_parse_condition` of `condition.c`.  `slot` is what the
allocated node holds before the parser writes to it. -/
def rc_parse_condition (env : rc_env) (slot : rc_condition_t) (ret : Int)
    (buffer scratch : Nat) (memaddr : List Char) (L : Nat) (funcs_ndx : Int) :
    rc_condition_parse :=
  let aux := memaddr
  let ret := (env.rc_alloc buffer ret env.sizeof_condition env.alignof_condition scratch).2
  let self := { slot with current_hits := 0 }
  if cur aux ≠ '\x00' ∧ at_ aux 1 = ':' then
    if cur aux = 'p' ∨ cur aux = 'P' then
      rc_parse_condition_operand1 env { self with type := RC_CONDITION_PAUSE_IF } ret memaddr
        (aux.drop 2) L funcs_ndx
    else if cur aux = 'r' ∨ cur aux = 'R' then
      rc_parse_condition_operand1 env { self with type := RC_CONDITION_RESET_IF } ret memaddr
        (aux.drop 2) L funcs_ndx
    else if cur aux = 'a' ∨ cur aux = 'A' then
      rc_parse_condition_operand1 env { self with type := RC_CONDITION_ADD_SOURCE } ret memaddr
        (aux.drop 2) L funcs_ndx
    else if cur aux = 'b' ∨ cur aux = 'B' then
      rc_parse_condition_operand1 env { self with type := RC_CONDITION_SUB_SOURCE } ret memaddr
        (aux.drop 2) L funcs_ndx
    else if cur aux = 'c' ∨ cur aux = 'C' then
      rc_parse_condition_operand1 env { self with type := RC_CONDITION_ADD_HITS } ret memaddr
        (aux.drop 2) L funcs_ndx
    else { self := none, ret := RC_INVALID_CONDITION_TYPE, memaddr := memaddr }
  else
    rc_parse_condition_operand1 env { self with type := RC_CONDITION_STANDARD } ret memaddr aux L
      funcs_ndx

/-! ## `lboard.c`: `rc_evaluate_lboard` and `rc_reset_lboard` -/

/-- What one call of `rc_evaluate_lboard` produces: the returned action, the
number stored through `value`, and the leaderboard as the call leaves it. -/
structure rc_lboard_eval where
  action : Int
  value : Nat
  self : rc_lboard_t
deriving DecidableEq, Repr

/-- The function `rc_evaluate_lboard` of `lboard.c`. -/
def rc_evaluate_lboard (env : rc_env) (self : rc_lboard_t) (peek : rc_peek_t) (L : Nat) :
    rc_lboard_eval :=
  let action : Int := -1
  let t1 := env.rc_test_trigger self.start peek L
  let start_ok := t1.1
  let t2 := env.rc_test_trigger self.cancel peek L
  let cancel_ok := t2.1
  let t3 := env.rc_test_trigger self.submit peek L
  let submit_ok := t3.1
  let self := { self with start := t1.2, cancel := t2.2, submit := t3.2 }
  let (self, action) :=
    if self.submitted ≠ 0 then
      if start_ok = 0 then ({ self with submitted := 0 }, action) else (self, action)
    else if self.started = 0 then
      if start_ok ≠ 0 ∧ cancel_ok = 0 then
        if submit_ok ≠ 0 then
          ({ self with submitted := 1 }, RC_LBOARD_TRIGGERED)
        else if self.start.requirement ≠ none ∨ self.start.alternative ≠ [] then
          ({ self with started := 1 }, RC_LBOARD_STARTED)
        else (self, action)
      else (self, action)
    else
      if cancel_ok ≠ 0 then
        ({ self with started := 0, submitted := 1 }, RC_LBOARD_CANCELED)
      else if submit_ok ≠ 0 then
        ({ self with started := 0, submitted := 1 }, RC_LBOARD_TRIGGERED)
      else (self, action)
  let action :=
    if action = -1 then (if self.started ≠ 0 then RC_LBOARD_ACTIVE else RC_LBOARD_INACTIVE)
    else action
  if action = RC_LBOARD_ACTIVE ∨ action = RC_LBOARD_STARTED then
    match self.progress with
    | some progress =>
      let v := env.rc_evaluate_value progress peek L
      { action := action, value := v.1, self := { self with progress := some v.2 } }
    | none =>
      let v := env.rc_evaluate_value self.value peek L
      { action := action, value := v.1, self := { self with value := v.2 } }
  else if action = RC_LBOARD_TRIGGERED then
    let v := env.rc_evaluate_value self.value peek L
    { action := action, value := v.1, self := { self with value := v.2 } }
  else
    { action := action, value := 0, self := self }

/-- The procedure `rc_reset_lboard` of `lboard.c`. -/
def rc_reset_lboard (env : rc_env) (self : rc_lboard_t) : rc_lboard_t :=
  let self := { self with started := 0, submitted := 0 }
  let self := { self with start := env.rc_reset_trigger self.start }
  let self := { self with submit := env.rc_reset_trigger self.submit }
  { self with cancel := env.rc_reset_trigger self.cancel }

/-- The leaderboard after a run of `rc_evaluate_lboard` calls; every call has its
own memory and Lua state. -/
def rc_lboard_after (env : rc_env) : rc_lboard_t → List (rc_peek_t × Nat) → rc_lboard_t
  | self, [] => self
  | self, f :: frames => rc_lboard_after env (rc_evaluate_lboard env self f.1 f.2).self frames

/-- The actions returned by a run of `rc_evaluate_lboard` calls. -/
def rc_lboard_actions (env : rc_env) : rc_lboard_t → List (rc_peek_t × Nat) → List Int
  | _, [] => []
  | self, f :: frames =>
    (rc_evaluate_lboard env self f.1 f.2).action ::
      rc_lboard_actions env (rc_evaluate_lboard env self f.1 f.2).self frames

/-- In every call of a run of `rc_evaluate_lboard` the start trigger tests true. -/
def rc_lboard_start_holds (env : rc_env) : rc_lboard_t → List (rc_peek_t × Nat) → Bool
  | _, [] => true
  | self, f :: frames =>
    decide ((env.rc_test_trigger self.start f.1 f.2).1 ≠ 0) &&
      rc_lboard_start_holds env (rc_evaluate_lboard env self f.1 f.2).self frames

/-- In every call of a run of `rc_evaluate_lboard` the cancel trigger and the
submit trigger test false. -/
def rc_lboard_quiet (env : rc_env) : rc_lboard_t → List (rc_peek_t × Nat) → Bool
  | _, [] => true
  | self, f :: frames =>
    decide ((env.rc_test_trigger self.cancel f.1 f.2).1 = 0) &&
      decide ((env.rc_test_trigger self.submit f.1 f.2).1 = 0) &&
      rc_lboard_quiet env (rc_evaluate_lboard env self f.1 f.2).self frames

/-- The leaderboards that calls of `rc_evaluate_lboard` and `rc_reset_lboard` can
produce from a freshly parsed or reset one (both flags zero). -/
inductive rc_lboard_reachable (env : rc_env) : rc_lboard_t → Prop
  | fresh (self : rc_lboard_t) (h1 : self.started = 0) (h2 : self.submitted = 0) :
      rc_lboard_reachable env self
  | evaluate (self : rc_lboard_t) (peek : rc_peek_t) (L : Nat)
      (h : rc_lboard_reachable env self) :
      rc_lboard_reachable env (rc_evaluate_lboard env self peek L).self
  | reset (self : rc_lboard_t) (h : rc_lboard_reachable env self) :
      rc_lboard_reachable env (rc_reset_lboard env self)

/-- Testing a trigger leaves a trigger without requirement and without
alternative as such: the test changes hit counts, not the shape of the trigger. -/
def rc_test_trigger_keeps_bare (env : rc_env) : Prop :=
  ∀ (t : rc_trigger_t) (peek : rc_peek_t) (L : Nat),
    t.requirement = none → t.alternative = [] →
    (env.rc_test_trigger t peek L).2.requirement = none ∧
    (env.rc_test_trigger t peek L).2.alternative = []

/-! ## `lboard.c`: `rc_parse_lboard_internal`, `rc_lboard_size`, `rc_parse_lboard` -/

def RC_LBOARD_START : Nat := 1
def RC_LBOARD_CANCEL : Nat := 2
def RC_LBOARD_SUBMIT : Nat := 4
def RC_LBOARD_VALUE : Nat := 8
def RC_LBOARD_PROGRESS : Nat := 16
def RC_LBOARD_COMPLETE : Nat :=
  RC_LBOARD_START ||| RC_LBOARD_CANCEL ||| RC_LBOARD_SUBMIT ||| RC_LBOARD_VALUE

/-- The five field tags that `rc_parse_lboard_internal` tests for. -/
inductive lboard_tag where
  | STA
  | CAN
  | SUB
  | VAL
  | PRO
deriving DecidableEq, Repr

/-- The bit of `found` that stands for a tag. -/
def lboard_tag.flag : lboard_tag → Nat
  | .STA => RC_LBOARD_START
  | .CAN => RC_LBOARD_CANCEL
  | .SUB => RC_LBOARD_SUBMIT
  | .VAL => RC_LBOARD_VALUE
  | .PRO => RC_LBOARD_PROGRESS

/-- What `rc_parse_lboard_internal` works on: the leaderboard behind `self`, the
address stored in `self->progress` (0 for the null pointer) whose target is
`self.progress`, and `*ret`. -/
structure rc_lboard_parse where
  self : rc_lboard_t
  progress_ptr : Nat
  ret : Int
deriving DecidableEq, Repr

/-- One round of the loop of `rc_parse_lboard_internal` up to line 105: the five
tag branches.  An error is the state with which the function returns; otherwise
the state, `found` and `memaddr` with which line 107 is reached. -/
def rc_parse_lboard_field (env : rc_env) (buffer scratch : Nat) (L : Nat) (funcs_ndx : Int)
    (st : rc_lboard_parse) (found : Nat) (memaddr : List Char) :
    Except rc_lboard_parse (rc_lboard_parse × Nat × List Char) :=
  if (at_ memaddr 0 = 's' ∨ at_ memaddr 0 = 'S') ∧ (at_ memaddr 1 = 't' ∨ at_ memaddr 1 = 'T') ∧
      (at_ memaddr 2 = 'a' ∨ at_ memaddr 2 = 'A') ∧ at_ memaddr 3 = ':' then
    if found &&& RC_LBOARD_START ≠ 0 then .error { st with ret := RC_DUPLICATED_START }
    else
      let found := found ||| RC_LBOARD_START
      let memaddr := memaddr.drop 4
      let p := env.rc_parse_trigger_internal st.ret buffer scratch memaddr L funcs_ndx
      let st := { st with self := { st.self with start := p.1 }, ret := p.2.1 }
      let memaddr := memaddr.drop p.2.2
      if st.ret < 0 then .error st else .ok (st, found, memaddr)
  else if (at_ memaddr 0 = 'c' ∨ at_ memaddr 0 = 'C') ∧
      (at_ memaddr 1 = 'a' ∨ at_ memaddr 1 = 'A') ∧
      (at_ memaddr 2 = 'n' ∨ at_ memaddr 2 = 'N') ∧ at_ memaddr 3 = ':' then
    if found &&& RC_LBOARD_CANCEL ≠ 0 then .error { st with ret := RC_DUPLICATED_CANCEL }
    else
      let found := found ||| RC_LBOARD_CANCEL
      let memaddr := memaddr.drop 4
      let p := env.rc_parse_trigger_internal st.ret buffer scratch memaddr L funcs_ndx
      let st := { st with self := { st.self with cancel := p.1 }, ret := p.2.1 }
      let memaddr := memaddr.drop p.2.2
      if st.ret < 0 then .error st else .ok (st, found, memaddr)
  else if (at_ memaddr 0 = 's' ∨ at_ memaddr 0 = 'S') ∧
      (at_ memaddr 1 = 'u' ∨ at_ memaddr 1 = 'U') ∧
      (at_ memaddr 2 = 'b' ∨ at_ memaddr 2 = 'B') ∧ at_ memaddr 3 = ':' then
    if found &&& RC_LBOARD_SUBMIT ≠ 0 then .error { st with ret := RC_DUPLICATED_SUBMIT }
    else
      let found := found ||| RC_LBOARD_SUBMIT
      let memaddr := memaddr.drop 4
      let p := env.rc_parse_trigger_internal st.ret buffer scratch memaddr L funcs_ndx
      let st := { st with self := { st.self with submit := p.1 }, ret := p.2.1 }
      let memaddr := memaddr.drop p.2.2
      if st.ret < 0 then .error st else .ok (st, found, memaddr)
  else if (at_ memaddr 0 = 'v' ∨ at_ memaddr 0 = 'V') ∧
      (at_ memaddr 1 = 'a' ∨ at_ memaddr 1 = 'A') ∧
      (at_ memaddr 2 = 'l' ∨ at_ memaddr 2 = 'L') ∧ at_ memaddr 3 = ':' then
    if found &&& RC_LBOARD_VALUE ≠ 0 then .error { st with ret := RC_DUPLICATED_VALUE }
    else
      let found := found ||| RC_LBOARD_VALUE
      let memaddr := memaddr.drop 4
      let p := env.rc_parse_value_internal st.ret buffer scratch memaddr L funcs_ndx
      let st := { st with self := { st.self with value := p.1 }, ret := p.2.1 }
      let memaddr := memaddr.drop p.2.2
      if st.ret < 0 then .error st else .ok (st, found, memaddr)
  else if (at_ memaddr 0 = 'p' ∨ at_ memaddr 0 = 'P') ∧
      (at_ memaddr 1 = 'r' ∨ at_ memaddr 1 = 'R') ∧
      (at_ memaddr 2 = 'o' ∨ at_ memaddr 2 = 'O') ∧ at_ memaddr 3 = ':' then
    if found &&& RC_LBOARD_PROGRESS ≠ 0 then .error { st with ret := RC_DUPLICATED_PROGRESS }
    else
      let found := found ||| RC_LBOARD_PROGRESS
      let memaddr := memaddr.drop 4
      let a := env.rc_alloc buffer st.ret env.sizeof_value env.alignof_value scratch
      let p := env.rc_parse_value_internal a.2 buffer scratch memaddr L funcs_ndx
      let st := { self := { st.self with progress := some p.1 }, progress_ptr := a.1,
                  ret := p.2.1 }
      let memaddr := memaddr.drop p.2.2
      if st.ret < 0 then .error st else .ok (st, found, memaddr)
  else .error { st with ret := RC_INVALID_LBOARD_FIELD }

/-- The five tag tests of `rc_parse_lboard_internal` (lines 20 to 86) on their
own: the tag recognised at the start of a text, `none` when line 103 is reached. -/
def rc_lboard_tag_at (memaddr : List Char) : Option lboard_tag :=
  if (at_ memaddr 0 = 's' ∨ at_ memaddr 0 = 'S') ∧ (at_ memaddr 1 = 't' ∨ at_ memaddr 1 = 'T') ∧
      (at_ memaddr 2 = 'a' ∨ at_ memaddr 2 = 'A') ∧ at_ memaddr 3 = ':' then some .STA
  else if (at_ memaddr 0 = 'c' ∨ at_ memaddr 0 = 'C') ∧
      (at_ memaddr 1 = 'a' ∨ at_ memaddr 1 = 'A') ∧
      (at_ memaddr 2 = 'n' ∨ at_ memaddr 2 = 'N') ∧ at_ memaddr 3 = ':' then some .CAN
  else if (at_ memaddr 0 = 's' ∨ at_ memaddr 0 = 'S') ∧
      (at_ memaddr 1 = 'u' ∨ at_ memaddr 1 = 'U') ∧
      (at_ memaddr 2 = 'b' ∨ at_ memaddr 2 = 'B') ∧ at_ memaddr 3 = ':' then some .SUB
  else if (at_ memaddr 0 = 'v' ∨ at_ memaddr 0 = 'V') ∧
      (at_ memaddr 1 = 'a' ∨ at_ memaddr 1 = 'A') ∧
      (at_ memaddr 2 = 'l' ∨ at_ memaddr 2 = 'L') ∧ at_ memaddr 3 = ':' then some .VAL
  else if (at_ memaddr 0 = 'p' ∨ at_ memaddr 0 = 'P') ∧
      (at_ memaddr 1 = 'r' ∨ at_ memaddr 1 = 'R') ∧
      (at_ memaddr 2 = 'o' ∨ at_ memaddr 2 = 'O') ∧ at_ memaddr 3 = ':' then some .PRO
  else none

/-- The bodies of the five tag branches of `rc_parse_lboard_internal` on their
own: the duplicate check, the sub-parser, the error check.  The theorem
`rc_parse_lboard_field_eq` shows that `rc_parse_lboard_field` is the recognition
of a tag followed by its branch. -/
def rc_parse_lboard_branch (env : rc_env) (buffer scratch : Nat) (L : Nat) (funcs_ndx : Int)
    (st : rc_lboard_parse) (found : Nat) (memaddr : List Char) :
    Option lboard_tag → Except rc_lboard_parse (rc_lboard_parse × Nat × List Char)
  | some .STA =>
    if found &&& RC_LBOARD_START ≠ 0 then .error { st with ret := RC_DUPLICATED_START }
    else
      let p := env.rc_parse_trigger_internal st.ret buffer scratch (memaddr.drop 4) L funcs_ndx
      if p.2.1 < 0 then .error { st with self := { st.self with start := p.1 }, ret := p.2.1 }
      else .ok ({ st with self := { st.self with start := p.1 }, ret := p.2.1 },
        found ||| RC_LBOARD_START, (memaddr.drop 4).drop p.2.2)
  | some .CAN =>
    if found &&& RC_LBOARD_CANCEL ≠ 0 then .error { st with ret := RC_DUPLICATED_CANCEL }
    else
      let p := env.rc_parse_trigger_internal st.ret buffer scratch (memaddr.drop 4) L funcs_ndx
      if p.2.1 < 0 then .error { st with self := { st.self with cancel := p.1 }, ret := p.2.1 }
      else .ok ({ st with self := { st.self with cancel := p.1 }, ret := p.2.1 },
        found ||| RC_LBOARD_CANCEL, (memaddr.drop 4).drop p.2.2)
  | some .SUB =>
    if found &&& RC_LBOARD_SUBMIT ≠ 0 then .error { st with ret := RC_DUPLICATED_SUBMIT }
    else
      let p := env.rc_parse_trigger_internal st.ret buffer scratch (memaddr.drop 4) L funcs_ndx
      if p.2.1 < 0 then .error { st with self := { st.self with submit := p.1 }, ret := p.2.1 }
      else .ok ({ st with self := { st.self with submit := p.1 }, ret := p.2.1 },
        found ||| RC_LBOARD_SUBMIT, (memaddr.drop 4).drop p.2.2)
  | some .VAL =>
    if found &&& RC_LBOARD_VALUE ≠ 0 then .error { st with ret := RC_DUPLICATED_VALUE }
    else
      let p := env.rc_parse_value_internal st.ret buffer scratch (memaddr.drop 4) L funcs_ndx
      if p.2.1 < 0 then .error { st with self := { st.self with value := p.1 }, ret := p.2.1 }
      else .ok ({ st with self := { st.self with value := p.1 }, ret := p.2.1 },
        found ||| RC_LBOARD_VALUE, (memaddr.drop 4).drop p.2.2)
  | some .PRO =>
    if found &&& RC_LBOARD_PROGRESS ≠ 0 then .error { st with ret := RC_DUPLICATED_PROGRESS }
    else
      let a := env.rc_alloc buffer st.ret env.sizeof_value env.alignof_value scratch
      let p := env.rc_parse_value_internal a.2 buffer scratch (memaddr.drop 4) L funcs_ndx
      if p.2.1 < 0 then
        .error { self := { st.self with progress := some p.1 }, progress_ptr := a.1,
                 ret := p.2.1 }
      else
        .ok ({ self := { st.self with progress := some p.1 }, progress_ptr := a.1,
               ret := p.2.1 }, found ||| RC_LBOARD_PROGRESS, (memaddr.drop 4).drop p.2.2)
  | none => .error { st with ret := RC_INVALID_LBOARD_FIELD }

/-- The function `rc_parse_lboard_internal` from line 114 on: the check for
missing fields and the initialisation of the two flags. -/
def rc_parse_lboard_finish (st : rc_lboard_parse) (found : Nat) : rc_lboard_parse :=
  if found &&& RC_LBOARD_COMPLETE ≠ RC_LBOARD_COMPLETE then
    if found &&& RC_LBOARD_START = 0 then { st with ret := RC_MISSING_START }
    else if found &&& RC_LBOARD_CANCEL = 0 then { st with ret := RC_MISSING_CANCEL }
    else if found &&& RC_LBOARD_SUBMIT = 0 then { st with ret := RC_MISSING_SUBMIT }
    else if found &&& RC_LBOARD_VALUE = 0 then { st with ret := RC_MISSING_VALUE }
    else st
  else { st with self := { st.self with started := 0, submitted := 0 } }

/-- The loop `for (;;)` of `rc_parse_lboard_internal` followed by the rest of the
function; `none` only when the bound on the number of rounds is used up. -/
def rc_parse_lboard_loop (env : rc_env) (buffer scratch : Nat) (L : Nat) (funcs_ndx : Int) :
    Nat → rc_lboard_parse → Nat → List Char → Option rc_lboard_parse
  | 0, _, _, _ => none
  | fuel + 1, st, found, memaddr =>
    match rc_parse_lboard_field env buffer scratch L funcs_ndx st found memaddr with
    | .error st => some st
    | .ok (st, found, memaddr) =>
      if at_ memaddr 0 ≠ ':' ∨ at_ memaddr 1 ≠ ':' then some (rc_parse_lboard_finish st found)
      else rc_parse_lboard_loop env buffer scratch L funcs_ndx fuel st found (memaddr.drop 2)

/-- The function `rc_parse_lboard_internal` of `lboard.c`.  `self` is what the
leaderboard node holds on entry; every round of the loop consumes a tag, so one
round per character of the text is more than the loop can make. -/
def rc_parse_lboard_internal (env : rc_env) (self : rc_lboard_t) (ret : Int)
    (buffer scratch : Nat) (memaddr : List Char) (L : Nat) (funcs_ndx : Int) :
    Option rc_lboard_parse :=
  rc_parse_lboard_loop env buffer scratch L funcs_ndx (memaddr.length + 1)
    { self := { self with progress := none }, progress_ptr := 0, ret := ret } 0 memaddr

/-- The function `rc_lboard_size` of `lboard.c`; `scratch` is the address of its
local scratch space and `slot` what that space holds. -/
def rc_lboard_size (env : rc_env) (slot : rc_lboard_t) (scratch : Nat) (memaddr : List Char) :
    Option Int :=
  let ret : Int := 0
  let a := env.rc_alloc 0 ret env.sizeof_lboard env.alignof_lboard scratch
  (rc_parse_lboard_internal env slot a.2 0 scratch memaddr 0 0).map (fun st => st.ret)

/-- What `rc_parse_lboard` leaves behind: the pointer returned (0 for the null
pointer), the address at which the leaderboard node was placed, and the state in
which `rc_parse_lboard_internal` ended. -/
structure rc_lboard_placed where
  result : Nat
  self_ptr : Nat
  parse : rc_lboard_parse
deriving DecidableEq, Repr

/-- The function `rc_parse_lboard` of `lboard.c`; `scratch` is the address of its
local scratch space and `slot` what the buffer holds at the leaderboard node. -/
def rc_parse_lboard (env : rc_env) (slot : rc_lboard_t) (scratch : Nat) (buffer : Nat)
    (memaddr : List Char) (L : Nat) (funcs_ndx : Int) : Option rc_lboard_placed :=
  let ret : Int := 0
  let a := env.rc_alloc buffer ret env.sizeof_lboard env.alignof_lboard scratch
  (rc_parse_lboard_internal env slot a.2 buffer 0 memaddr L funcs_ndx).map
    (fun st => { result := if st.ret ≥ 0 then a.1 else 0, self_ptr := a.1, parse := st })

/-- The allocator measures: the offset it returns is the same whether a buffer is
given or not and whatever the scratch space is, so that both passes walk through
the same offsets. -/
def rc_alloc_measures (env : rc_env) : Prop :=
  ∀ (p1 s1 p2 s2 : Nat) (offset size alignment : Int),
    (env.rc_alloc p1 offset size alignment s1).2 = (env.rc_alloc p2 offset size alignment s2).2

/-- The allocator places: given a buffer, the node starts in the buffer at or
after the running offset and ends where the new offset points. -/
def rc_alloc_places (env : rc_env) : Prop :=
  ∀ (buffer scratch : Nat) (offset size alignment : Int),
    buffer ≠ 0 → 0 ≤ offset → 0 ≤ size → 0 < alignment →
    (buffer : Int) + offset ≤ (env.rc_alloc buffer offset size alignment scratch).1 ∧
    ((env.rc_alloc buffer offset size alignment scratch).1 : Int) + size =
      buffer + (env.rc_alloc buffer offset size alignment scratch).2

/-- What the two passes can be compared on after a round of the loop: the value
of `*ret`, and for a round that goes on also `found` and the text left. -/
def rc_parse_lboard_field_view :
    Except rc_lboard_parse (rc_lboard_parse × Nat × List Char) → Except Int (Int × Nat × List Char)
  | .error st => .error st.ret
  | .ok (st, found, memaddr) => .ok (st.ret, found, memaddr)

/-! ## The sub-parsers of a leaderboard definition, as the specification describes them -/

/-- Modelled from the spec: what the logic of a sub-parser (the trigger parser or
the value parser) does with a text, whichever pass runs it (section 4.1: the
placing pass re-runs the identical parser logic of the measuring pass): the node
it fills for its caller, the nodes it asks the allocator for, in order, each
with its size and its alignment, the error it ends with (section 7: a negative
code, 0 for none), and the number of characters it consumes. -/
structure rc_parser_run (α : Type) where
  self : α
  nodes : List (Int × Int)
  error : Int
  consumed : Nat

/-- Modelled from the spec: the logic of a sub-parser, run on a text with the Lua
state and the index of the function table that the entry point was given. -/
abbrev rc_parser_logic (α : Type) := List Char → Nat → Int → rc_parser_run α

/-- Modelled from the spec: the allocator called for the nodes of a list, one
after the other (section 4.1, `measure_or_place`): the running offset after the
last call. -/
def rc_alloc_nodes (env : rc_env) (buffer scratch : Nat) : Int → List (Int × Int) → Int
  | ret, [] => ret
  | ret, n :: ns =>
    rc_alloc_nodes env buffer scratch (env.rc_alloc buffer ret n.1 n.2 scratch).2 ns

/-- Modelled from the spec: where the allocator puts the nodes of a list: the
pointer it returns for each, with the size of the node. -/
def rc_alloc_extents (env : rc_env) (buffer scratch : Nat) : Int → List (Int × Int) →
    List (Nat × Int)
  | _, [] => []
  | ret, n :: ns =>
    ((env.rc_alloc buffer ret n.1 n.2 scratch).1, n.1) ::
      rc_alloc_extents env buffer scratch (env.rc_alloc buffer ret n.1 n.2 scratch).2 ns

/-- Modelled from the spec: a sub-parser `rc_parse_..._internal(self, ret, buffer,
scratch, memaddr, L, funcs_ndx)`.  It runs its logic on the text and has the
allocator measure or place the nodes that the logic asks for, starting at `*ret`;
`*ret` becomes the error of the logic if there is one and the running offset
otherwise.  The result is the node written, the new `*ret` and the characters
consumed. -/
def rc_parse_internal_spec {α : Type} (env : rc_env) (logic : rc_parser_logic α) (ret : Int)
    (buffer scratch : Nat) (memaddr : List Char) (L : Nat) (funcs_ndx : Int) : α × Int × Nat :=
  let r := logic memaddr L funcs_ndx
  (r.self, if r.error < 0 then r.error else rc_alloc_nodes env buffer scratch ret r.nodes,
    r.consumed)

/-- Modelled from the spec: an environment whose trigger and value parsers are
the sub-parsers of the specification with the given logic; the allocator and
all else are those of `env`. -/
def rc_env_spec (env : rc_env) (trigger_logic : rc_parser_logic rc_trigger_t)
    (value_logic : rc_parser_logic rc_value_t) : rc_env :=
  { env with
    rc_parse_trigger_internal := rc_parse_internal_spec env trigger_logic,
    rc_parse_value_internal := rc_parse_internal_spec env value_logic }

/-- The nodes that one round of the loop of `rc_parse_lboard_internal` has the
allocator place, with their sizes: for a trigger field the nodes of the trigger
parser, for a value field those of the value parser, for the progress field
the value node of line 79 and then those of the value parser; none when the tag
is a duplicate or no tag is recognised. -/
def rc_parse_lboard_field_nodes (env : rc_env) (trigger_logic : rc_parser_logic rc_trigger_t)
    (value_logic : rc_parser_logic rc_value_t) (buffer scratch : Nat) (L : Nat)
    (funcs_ndx : Int) (st : rc_lboard_parse) (found : Nat) (memaddr : List Char) :
    List (Nat × Int) :=
  match rc_lboard_tag_at memaddr with
  | none => []
  | some .PRO =>
    if found &&& RC_LBOARD_PROGRESS ≠ 0 then []
    else
      ((env.rc_alloc buffer st.ret env.sizeof_value env.alignof_value scratch).1,
          env.sizeof_value) ::
        rc_alloc_extents env buffer scratch
          (env.rc_alloc buffer st.ret env.sizeof_value env.alignof_value scratch).2
          (value_logic (memaddr.drop 4) L funcs_ndx).nodes
  | some .VAL =>
    if found &&& RC_LBOARD_VALUE ≠ 0 then []
    else rc_alloc_extents env buffer scratch st.ret (value_logic (memaddr.drop 4) L funcs_ndx).nodes
  | some t =>
    if found &&& t.flag ≠ 0 then []
    else
      rc_alloc_extents env buffer scratch st.ret (trigger_logic (memaddr.drop 4) L funcs_ndx).nodes

/-- The nodes that the loop of `rc_parse_lboard_internal` has the allocator
place, round after round. -/
def rc_parse_lboard_loop_nodes (env : rc_env) (trigger_logic : rc_parser_logic rc_trigger_t)
    (value_logic : rc_parser_logic rc_value_t) (buffer scratch : Nat) (L : Nat)
    (funcs_ndx : Int) : Nat → rc_lboard_parse → Nat → List Char → List (Nat × Int)
  | 0, _, _, _ => []
  | fuel + 1, st, found, memaddr =>
    rc_parse_lboard_field_nodes env trigger_logic value_logic buffer scratch L funcs_ndx st found
        memaddr ++
      match rc_parse_lboard_field (rc_env_spec env trigger_logic value_logic) buffer scratch L
          funcs_ndx st found memaddr with
      | .error _ => []
      | .ok (st, found, memaddr) =>
        if at_ memaddr 0 ≠ ':' ∨ at_ memaddr 1 ≠ ':' then []
        else
          rc_parse_lboard_loop_nodes env trigger_logic value_logic buffer scratch L funcs_ndx fuel
            st found (memaddr.drop 2)

/-- Every node of a parse by `rc_parse_lboard`, with its size: the leaderboard
node of line 151 and the nodes of the loop of `rc_parse_lboard_internal`. -/
def rc_parse_lboard_nodes (env : rc_env) (trigger_logic : rc_parser_logic rc_trigger_t)
    (value_logic : rc_parser_logic rc_value_t) (slot : rc_lboard_t) (scratch : Nat)
    (buffer : Nat) (memaddr : List Char) (L : Nat) (funcs_ndx : Int) : List (Nat × Int) :=
  ((env.rc_alloc buffer 0 env.sizeof_lboard env.alignof_lboard scratch).1, env.sizeof_lboard) ::
    rc_parse_lboard_loop_nodes env trigger_logic value_logic buffer 0 L funcs_ndx
      (memaddr.length + 1)
      { self := { slot with progress := none }, progress_ptr := 0,
        ret := (env.rc_alloc buffer 0 env.sizeof_lboard env.alignof_lboard scratch).2 } 0 memaddr

/-! ## Console identifiers of `rcheevos.h` that `fixup.c` tests for -/

def RC_CONSOLE_SUPER_NINTENDO : Int := 3
def RC_CONSOLE_GAMEBOY_ADVANCE : Int := 5
def RC_CONSOLE_GAMEBOY_COLOR : Int := 6
def RC_CONSOLE_NINTENDO : Int := 7
def RC_CONSOLE_PC_ENGINE : Int := 8

/-! ## `fixup.c`: what it takes from elsewhere -/

/-- The fields of a memory descriptor (`rarch_memory_descriptor_t`) that
`cheevos_patch_address` reads: `core.ptr` (0 for the null pointer), `core.offset`,
`core.start`, `core.select`, `core.disconnect`, `core.len`, and
`disconnect_mask`. -/
structure rarch_memory_descriptor_t where
  ptr : Nat
  offset : Nat
  start : Nat
  select : Nat
  disconnect : Nat
  len : Nat
  disconnect_mask : Nat
deriving DecidableEq, Repr

/-- What `core_get_memory` fills in: the address of a region (0 for the null
pointer) and its size. -/
structure retro_ctx_memory_info_t where
  data : Nat
  size : Nat
deriving DecidableEq, Repr

/-- The four region identifiers that `cheevos_patch_address` asks for. -/
inductive retro_memory_id where
  | RETRO_MEMORY_SYSTEM_RAM
  | RETRO_MEMORY_SAVE_RAM
  | RETRO_MEMORY_VIDEO_RAM
  | RETRO_MEMORY_RTC
deriving DecidableEq, Repr

/-- The memory environment of `fixup.c`: the width of `size_t` in bits, the
descriptor table of `runloop_get_system_info()->mmaps` (`num_descriptors` is its
length), and the answer of `core_get_memory` for each region. -/
structure cheevos_host where
  size_bits : Nat
  descriptors : List rarch_memory_descriptor_t
  core_get_memory : retro_memory_id → retro_ctx_memory_info_t

/-- The difference `a - b` stored in an `unsigned`. -/
def usub (a b : Nat) : Nat := (a + UINT_MOD - b % UINT_MOD) % UINT_MOD

/-- The sum `a + b` stored in an `unsigned`. -/
def uadd (a b : Nat) : Nat := (a + b) % UINT_MOD

/-- The difference `a - b` of two `size_t` of `bits` bits. -/
def size_sub (bits a b : Nat) : Nat := (a + 2 ^ bits - b % 2 ^ bits) % 2 ^ bits

/-- An entry of the fixup cache (`cheevos_fixup_t`): a script address and the
host location it was resolved to (0 for the null pointer). -/
structure cheevos_fixup_t where
  address : Nat
  location : Nat
deriving DecidableEq, Repr

/-- The fixup cache (`cheevos_fixups_t`).  `elements` holds the entries in use,
in the order of the array, so that `count` is its length; `capacity` is the
number of entries the array has room for. -/
structure cheevos_fixups_t where
  elements : List cheevos_fixup_t
  capacity : Nat
  dirty : Bool
deriving DecidableEq, Repr

/-- The field `count` of the cache. -/
def cheevos_fixups_t.count (fixups : cheevos_fixups_t) : Nat := fixups.elements.length

/-- The C library function `qsort` with a comparison function: the array in
ascending order.  Entries that compare equal keep their order (C leaves their
order open). -/
def qsort {α : Type} (compar : α → α → Int) (base : List α) : List α :=
  base.insertionSort (fun a b => compar a b ≤ 0)

/-- The loop of a binary search between the indices `l` and `u`; the range
shrinks in every round, so that `u - l` rounds are all the loop can make. -/
def bsearch_loop {α : Type} (compar : α → α → Int) (key : α) (base : List α) :
    Nat → Nat → Nat → Option α
  | 0, _, _ => none
  | fuel + 1, l, u =>
    if l < u then
      let idx := (l + u) / 2
      match base[idx]? with
      | none => none
      | some p =>
        let comparison := compar key p
        if comparison < 0 then bsearch_loop compar key base fuel l idx
        else if comparison > 0 then bsearch_loop compar key base fuel (idx + 1) u
        else some p
    else none

/-- The C library function `bsearch` on an array of `nmemb` entries: an entry
that compares equal to the key, `none` for the null pointer. -/
def bsearch {α : Type} (compar : α → α → Int) (key : α) (base : List α) : Option α :=
  bsearch_loop compar key base (base.length + 1) 0 base.length

/-! ## `fixup.c` -/

/-- The function `cheevos_cmpaddr` of `fixup.c`. -/
def cheevos_cmpaddr (f1 f2 : cheevos_fixup_t) : Int :=
  if f1.address < f2.address then -1
  else if f1.address > f2.address then 1
  else 0

/-- The loop of `cheevos_var_reduce` on a `size_t` of `bits` bits.  The first
argument bounds the number of rounds; `mask` at least halves in every round, so
that a bound of `mask` or more is never used up before `mask` is 0. -/
def cheevos_var_reduce_loop (bits : Nat) : Nat → Nat → Nat → Nat
  | 0, addr, _ => addr
  | fuel + 1, addr, mask =>
    if mask ≠ 0 then
      let tmp := (mask - 1) &&& (2 ^ bits - 1 - mask)
      let addr := (addr &&& tmp) ||| ((addr >>> 1) &&& (2 ^ bits - 1 - tmp))
      let mask := (mask &&& (mask - 1)) >>> 1
      cheevos_var_reduce_loop bits fuel addr mask
    else addr

/-- The function `cheevos_var_reduce` of `fixup.c`, for a `size_t` of `bits`
bits. -/
def cheevos_var_reduce (bits : Nat) (addr mask : Nat) : Nat :=
  cheevos_var_reduce_loop bits mask addr mask

/-- The number of rounds that the loop of `cheevos_var_reduce` makes on a mask,
`none` when the bound on the number of rounds is used up before the mask is 0. -/
def cheevos_var_reduce_rounds : Nat → Nat → Option Nat
  | 0, mask => if mask ≠ 0 then none else some 0
  | fuel + 1, mask =>
    if mask ≠ 0 then
      (cheevos_var_reduce_rounds fuel ((mask &&& (mask - 1)) >>> 1)).map (fun r => r + 1)
    else some 0

/-- The function `cheevos_var_highest_bit` of `fixup.c`. -/
def cheevos_var_highest_bit (n : Nat) : Nat :=
  let n := n ||| (n >>> 1)
  let n := n ||| (n >>> 2)
  let n := n ||| (n >>> 4)
  let n := n ||| (n >>> 8)
  let n := n ||| (n >>> 16)
  n ^^^ (n >>> 1)

/-- The function `cheevos_fixup_init` of `fixup.c`. -/
def cheevos_fixup_init : cheevos_fixups_t :=
  { elements := [], capacity := 0, dirty := false }

/-- The descriptor loop of `cheevos_patch_address` (lines 193 to 213): `pointer`
and `address` after the loop. -/
def cheevos_patch_address_scan (bits : Nat) (address : Nat) :
    List rarch_memory_descriptor_t → Nat × Nat
  | [] => (0, address)
  | desc :: rest =>
    if (desc.start ^^^ address) &&& desc.select = 0 then
      let addr := address
      let pointer := desc.ptr
      let address := cheevos_var_reduce bits
        (size_sub bits addr desc.start &&& desc.disconnect_mask) desc.disconnect % UINT_MOD
      let address :=
        if address ≥ desc.len then usub address (cheevos_var_highest_bit address) else address
      let address := uadd address desc.offset
      (pointer, address)
    else cheevos_patch_address_scan bits address rest

/-- Lines 201 to 206 of `cheevos_patch_address`: the `address` that a matching
descriptor gives, before its `offset` is added. -/
def cheevos_patch_address_reduced (bits : Nat) (desc : rarch_memory_descriptor_t)
    (addr : Nat) : Nat :=
  let address := cheevos_var_reduce bits
    (size_sub bits addr desc.start &&& desc.disconnect_mask) desc.disconnect % UINT_MOD
  if address ≥ desc.len then usub address (cheevos_var_highest_bit address) else address

/-- The region loop of `cheevos_patch_address` (lines 219 to 255) from the round
`i` on, over the identifiers still to ask for: `pointer` and `address` after the
loop. -/
def cheevos_patch_address_probe (host : cheevos_host) (console : Int) :
    Nat → List retro_memory_id → Nat → Nat × Nat
  | _, [], address => (0, address)
  | i, id :: ids, address =>
    let meminfo := host.core_get_memory id
    if address < meminfo.size then (meminfo.data, address)
    else
      let address :=
        if i = 0 ∧ console = RC_CONSOLE_NINTENDO then usub address 0x6000
        else usub address meminfo.size
      cheevos_patch_address_probe host console (i + 1) ids address

/-- The function `cheevos_patch_address` of `fixup.c`: the host location of a
script address, 0 for the null pointer. -/
def cheevos_patch_address (host : cheevos_host) (address : Nat) (console : Int) : Nat :=
  let address :=
    if console = RC_CONSOLE_NINTENDO then
      if address ≥ 0x0800 ∧ address < 0x2000 then address &&& 0x07ff else address
    else if console = RC_CONSOLE_GAMEBOY_COLOR then
      if address ≥ 0xe000 ∧ address ≤ 0xfdff then usub address 0x2000 else address
    else address
  let r :=
    if host.descriptors.length ≠ 0 then
      let address :=
        if console = RC_CONSOLE_GAMEBOY_ADVANCE then
          if address < 0x8000 then uadd address 0x3000000
          else uadd address (0x2000000 - 0x8000)
        else if console = RC_CONSOLE_PC_ENGINE then uadd address 0x1f0000
        else if console = RC_CONSOLE_SUPER_NINTENDO then
          if address < 0x020000 then uadd address 0x7e0000
          else usub address (0x020000 - 0x006000)
        else address
      cheevos_patch_address_scan host.size_bits address host.descriptors
    else
      cheevos_patch_address_probe host console 0
        [.RETRO_MEMORY_SYSTEM_RAM, .RETRO_MEMORY_SAVE_RAM, .RETRO_MEMORY_VIDEO_RAM,
          .RETRO_MEMORY_RTC] address
  if r.1 = 0 then 0 else r.1 + r.2

/-- The `return` statement by which a call of `cheevos_fixup_find` ends: line 96
(the address was found in the cache), line 107 (`realloc` gave no block), or
line 120 (the address was resolved by `cheevos_patch_address` and recorded).
Only the last of the three paths calls `cheevos_patch_address`. -/
inductive cheevos_fixup_exit where
  | cached
  | failed
  | patched
deriving DecidableEq, Repr

/-- What a call of `cheevos_fixup_find` leaves behind: the location returned (0
for the null pointer), the cache, and the `return` statement taken. -/
structure cheevos_fixup_found where
  location : Nat
  fixups : cheevos_fixups_t
  exit : cheevos_fixup_exit
deriving DecidableEq, Repr

/-- Lines 86 to 90 of `cheevos_fixup_find`: a cache marked dirty is sorted and the
mark is cleared. -/
def cheevos_fixup_sort (fixups : cheevos_fixups_t) : cheevos_fixups_t :=
  if fixups.dirty then
    { fixups with elements := qsort cheevos_cmpaddr fixups.elements, dirty := false }
  else fixups

/-- Lines 100 to 113 of `cheevos_fixup_find`: a full array is doubled (16 entries
for the first block); `none` when `realloc` gives no block. -/
def cheevos_fixup_grow (realloc_ok : Bool) (fixups : cheevos_fixups_t) : Option cheevos_fixups_t :=
  if fixups.count = fixups.capacity then
    let new_capacity := if fixups.capacity = 0 then 16 else fixups.capacity * 2 % UINT_MOD
    if realloc_ok then some { fixups with capacity := new_capacity } else none
  else some fixups

/-- The function `cheevos_fixup_find` of `fixup.c`.  `realloc_ok` tells whether
the C library function `realloc`, if the call reaches it, returns a block. -/
def cheevos_fixup_find (host : cheevos_host) (realloc_ok : Bool) (fixups : cheevos_fixups_t)
    (address : Nat) (console : Int) : cheevos_fixup_found :=
  let fixups := cheevos_fixup_sort fixups
  let key : cheevos_fixup_t := { address := address, location := 0 }
  match bsearch cheevos_cmpaddr key fixups.elements with
  | some found => { location := found.location, fixups := fixups, exit := .cached }
  | none =>
    match cheevos_fixup_grow realloc_ok fixups with
    | none => { location := 0, fixups := fixups, exit := .failed }
    | some fixups =>
      let location := cheevos_patch_address host address console
      { location := location,
        fixups := { fixups with
          elements := fixups.elements ++ [{ address := address, location := location }],
          dirty := true },
        exit := .patched }

/-- The inputs of one call of `cheevos_fixup_find`: the memory environment at
the time of the call, whether `realloc` would give a block, the address and the
console. -/
structure cheevos_find_call where
  host : cheevos_host
  realloc_ok : Bool
  address : Nat
  console : Int

/-- The cache after a sequence of calls of `cheevos_fixup_find`. -/
def cheevos_fixup_run (fixups : cheevos_fixups_t) (calls : List cheevos_find_call) :
    cheevos_fixups_t :=
  calls.foldl
    (fun f c => (cheevos_fixup_find c.host c.realloc_ok f c.address c.console).fixups) fixups

/-! ## `cheevos.c`: `cheevos_peek` -/

/-- The part of `cheevos_locals` that `cheevos_peek` works on:
`patchdata.console_id` and `fixups`. -/
structure cheevos_locals_t where
  console_id : Nat
  fixups : cheevos_fixups_t
deriving DecidableEq, Repr

/-- The conversion of an `unsigned` to `int`. -/
def int_of_unsigned (u : Nat) : Int := if u < 2 ^ 31 then u else (u : Int) - 2 ^ 32

/-- The read `data[i]` through a `const uint8_t*`, in a host memory `mem` that
gives the byte stored at each address: `none` when `data` is the null pointer,
which has no bytes to read. -/
def cheevos_read (mem : Nat → Nat) (data : Nat) (i : Nat) : Option Nat :=
  if data = 0 then none else some (mem (data + i) % 256)

/-- The function `cheevos_peek` of `cheevos.c`: the value returned, `none` when
the call reads through the null pointer, and `cheevos_locals` after the call.
The cases of the `switch` fall through, so the three reads are made for 4, the
last two for 2 and the last one for 1. -/
def cheevos_peek (host : cheevos_host) (mem : Nat → Nat) (realloc_ok : Bool)
    (locals : cheevos_locals_t) (address num_bytes : Nat) : Option Nat × cheevos_locals_t :=
  let f := cheevos_fixup_find host realloc_ok locals.fixups address
    (int_of_unsigned locals.console_id)
  let data := f.location
  let value : Option Nat := do
    let value := 0
    let value ← if num_bytes = 4 then do
        let b2 ← cheevos_read mem data 2
        let b3 ← cheevos_read mem data 3
        pure (value ||| ((b2 <<< 16) ||| (b3 <<< 24)))
      else pure value
    let value ← if num_bytes = 4 ∨ num_bytes = 2 then do
        let b1 ← cheevos_read mem data 1
        pure (value ||| (b1 <<< 8))
      else pure value
    let value ← if num_bytes = 4 ∨ num_bytes = 2 ∨ num_bytes = 1 then do
        let b0 ← cheevos_read mem data 0
        pure (value ||| b0)
      else pure value
    pure value
  (value, { locals with fixups := f.fixups })

/-! ## `parser.h` -/

/-- The struct `cheevos_racheevo_t`: the definition of an achievement as the
patch data gives it. -/
structure cheevos_racheevo_t where
  title : List Char
  description : List Char
  badge : List Char
  memaddr : List Char
  points : Nat
  id : Nat
deriving DecidableEq, Repr

/-- The struct `cheevos_ralboard_t`: the definition of a leaderboard as the patch
data gives it. -/
structure cheevos_ralboard_t where
  title : List Char
  description : List Char
  format : List Char
  mem : List Char
  id : Nat
deriving DecidableEq, Repr

/-- The struct `cheevos_rapatchdata_t`.  Each array is kept as the list of its
entries, so that its count is the length of the list. -/
structure cheevos_rapatchdata_t where
  console_id : Nat
  core : List cheevos_racheevo_t
  unofficial : List cheevos_racheevo_t
  lboards : List cheevos_ralboard_t
deriving DecidableEq, Repr

/-- The field `core_count` of the patch data. -/
def cheevos_rapatchdata_t.core_count (p : cheevos_rapatchdata_t) : Nat := p.core.length

/-- The field `unofficial_count` of the patch data. -/
def cheevos_rapatchdata_t.unofficial_count (p : cheevos_rapatchdata_t) : Nat :=
  p.unofficial.length

/-- The field `lboard_count` of the patch data. -/
def cheevos_rapatchdata_t.lboard_count (p : cheevos_rapatchdata_t) : Nat := p.lboards.length

/-! ## `cheevos.c`: loading and testing the achievements -/

/-- The struct `cheevos_cheevo_t`; `trigger` is the node that the pointer leads
to. -/
structure cheevos_cheevo_t where
  trigger : rc_trigger_t
  info : cheevos_racheevo_t
  active : Int
  last : Int
deriving DecidableEq, Repr

/-- The struct `cheevos_lboard_t`; `lboard` is the node that the pointer leads
to. -/
structure cheevos_lboard_t where
  lboard : rc_lboard_t
  info : cheevos_ralboard_t
  active : Bool
  last_value : Nat
  format : Int
deriving DecidableEq, Repr

/-- The part of `cheevos_locals` that loading and testing work on: the arrays
`core`, `unofficial` and `lboards` (the empty list for the null pointer), and
the fixup cache. -/
structure cheevos_sets_t where
  core : List cheevos_cheevo_t
  unofficial : List cheevos_cheevo_t
  lboards : List cheevos_lboard_t
  fixups : cheevos_fixups_t
deriving DecidableEq, Repr

/-- The part of `settings_t` that `cheevos_test_cheevo_set` reads. -/
structure settings_t where
  cheevos_hardcore_mode_enable : Bool
deriving DecidableEq, Repr

/-- What `cheevos.c` uses in loading and testing the achievements but does not
define. -/
structure cheevos_env where
  /-- The functions of rcheevos that evaluate and reset a trigger. -/
  rc : rc_env
  /-- The value of `CHEEVOS_ACTIVE_SOFTCORE` (`cheevos.h`). -/
  CHEEVOS_ACTIVE_SOFTCORE : Int
  /-- The value of `CHEEVOS_ACTIVE_HARDCORE` (`cheevos.h`). -/
  CHEEVOS_ACTIVE_HARDCORE : Int
  /-- The parser `cheevos_get_patchdata(json, patchdata)`: the return code and
  the patch data written. -/
  cheevos_get_patchdata : List Char → Int × cheevos_rapatchdata_t
  /-- The pointer that the call of `calloc` with the given ordinal number among
  the calls of one run of `cheevos_parse` returns (0 for the null pointer). -/
  calloc : Nat → Nat
  /-- The function `rc_trigger_size(memaddr)`. -/
  rc_trigger_size : List Char → Int
  /-- The function `rc_parse_trigger(buffer, memaddr, NULL, 0)`: the trigger that
  the buffer holds after the call. -/
  rc_parse_trigger : Nat → List Char → rc_trigger_t
  /-- The function `rc_parse_format(format)`. -/
  rc_parse_format : List Char → Int
  /-- The address of the scratch space of `rc_lboard_size` and `rc_parse_lboard`. -/
  scratch : Nat
  /-- What the scratch space of `rc_lboard_size` holds at the leaderboard node. -/
  scratch_slot : rc_lboard_t

/-- The C operator `!` on an `unsigned`. -/
def logical_not (x : Nat) : Int := if x = 0 then 1 else 0

/-- A leaderboard node in memory that `calloc` has cleared. -/
def cheevos_cleared_lboard : rc_lboard_t :=
  { start := { requirement := none, alternative := [] },
    submit := { requirement := none, alternative := [] },
    cancel := { requirement := none, alternative := [] },
    value := { expressions := [] }, progress := none, started := 0, submitted := 0 }

/-- The `return` statement by which a call of `cheevos_parse` ends: line 298 (the
patch data could not be read), line 309 (the shortcut: nothing to load), line
400 (every definition was sized and parsed), or line 410 (after `error:`). -/
inductive cheevos_parse_exit where
  | patchdata
  | nothing
  | loaded
  | error
deriving DecidableEq, Repr

/-- What a call of `cheevos_parse` leaves behind: the value returned, the
`return` statement taken and `cheevos_locals`. -/
structure cheevos_parsed where
  ret : Int
  exit : cheevos_parse_exit
  locals : cheevos_sets_t
deriving DecidableEq, Repr

/-- The inner loop of `cheevos_parse` over the definitions of one set of
achievements (lines 347 to 369), the first `calloc` of which has the ordinal
number `k`: the entries written, `none` when the loop leaves by `goto error`. -/
def cheevos_parse_cheevos (cenv : cheevos_env) :
    Nat → List cheevos_racheevo_t → Option (List cheevos_cheevo_t)
  | _, [] => some []
  | k, rac :: rest =>
    let res := cenv.rc_trigger_size rac.memaddr
    if res < 0 then none
    else
      let trigger := cenv.calloc k
      if trigger = 0 then none
      else
        (cheevos_parse_cheevos cenv (k + 1) rest).map (fun l =>
          { trigger := cenv.rc_parse_trigger trigger rac.memaddr, info := rac,
            active := Int.lor cenv.CHEEVOS_ACTIVE_SOFTCORE cenv.CHEEVOS_ACTIVE_HARDCORE,
            last := 1 } :: l)

/-- The loop of `cheevos_parse` over the definitions of the leaderboards (lines
375 to 398), the first `calloc` of which has the ordinal number `k`: the entries
written, `some none` when the loop leaves by `goto error`.  The outer `none`
stands for a parse of a leaderboard that does not end within its bound of
rounds. -/
def cheevos_parse_lboards (cenv : cheevos_env) :
    Nat → List cheevos_ralboard_t → Option (Option (List cheevos_lboard_t))
  | _, [] => some (some [])
  | k, info :: rest =>
    match rc_lboard_size cenv.rc cenv.scratch_slot cenv.scratch info.mem with
    | none => none
    | some res =>
      if res < 0 then some none
      else
        let buffer := cenv.calloc k
        if buffer = 0 then some none
        else
          match rc_parse_lboard cenv.rc cheevos_cleared_lboard cenv.scratch buffer info.mem 0 0 with
          | none => none
          | some placed =>
            (cheevos_parse_lboards cenv (k + 1) rest).map (fun r => r.map (fun l =>
              { lboard := placed.parse.self, info := info, active := false, last_value := 0,
                format := cenv.rc_parse_format info.format } :: l))

/-- What `cheevos_parse` leaves in `cheevos_locals` when it loads nothing: null
or freed arrays and a fresh fixup cache. -/
def cheevos_sets_none : cheevos_sets_t :=
  { core := [], unofficial := [], lboards := [], fixups := cheevos_fixup_init }

/-- The function `cheevos_parse` of `cheevos.c`; `locals` is `cheevos_locals`
before the call, and an array that the call frees is left as the empty list.
`none` stands for a parse of a leaderboard that does not end within its bound of
rounds. -/
def cheevos_parse (cenv : cheevos_env) (locals : cheevos_sets_t) (json : List Char) :
    Option cheevos_parsed :=
  let got := cenv.cheevos_get_patchdata json
  let res := got.1
  let patchdata := got.2
  if res ≠ 0 then
    some { ret := -1, exit := .patchdata, locals := { locals with fixups := cheevos_fixup_init } }
  else if patchdata.core_count = 0
      ∧ logical_not patchdata.unofficial_count = 0
      ∧ logical_not patchdata.lboard_count = 0 then
    some { ret := 0, exit := .nothing, locals := cheevos_sets_none }
  else
    let core := cenv.calloc 0
    let unofficial := cenv.calloc 1
    let lboards := cenv.calloc 2
    if core = 0 ∨ unofficial = 0 ∨ lboards = 0 then
      some { ret := -1, exit := .error, locals := cheevos_sets_none }
    else
      match cheevos_parse_cheevos cenv 3 patchdata.core with
      | none => some { ret := -1, exit := .error, locals := cheevos_sets_none }
      | some core =>
        match cheevos_parse_cheevos cenv (3 + patchdata.core_count) patchdata.unofficial with
        | none => some { ret := -1, exit := .error, locals := cheevos_sets_none }
        | some unofficial =>
          (cheevos_parse_lboards cenv (3 + patchdata.core_count + patchdata.unofficial_count)
            patchdata.lboards).map (fun r =>
              match r with
              | none => { ret := -1, exit := .error, locals := cheevos_sets_none }
              | some lboards =>
                { ret := 0, exit := .loaded,
                  locals := { core := core, unofficial := unofficial, lboards := lboards,
                              fixups := cheevos_fixup_init } })

/-- The function `cheevos_award` of `cheevos.c`, as far as it writes to the
achievement: the mode is taken out of `active`, and the softcore mode with the
hardcore mode.  (The messages, the award task and the screenshot leave the
achievement as it is.) -/
def cheevos_award (cenv : cheevos_env) (cheevo : cheevos_cheevo_t) (mode : Int) :
    cheevos_cheevo_t :=
  let active := Int.land cheevo.active (Int.lnot mode)
  let active :=
    if mode = cenv.CHEEVOS_ACTIVE_HARDCORE then
      Int.land active (Int.lnot cenv.CHEEVOS_ACTIVE_SOFTCORE)
    else active
  { cheevo with active := active }

/-- What one round of the loop of `cheevos_test_cheevo_set` does: the achievement
as the round leaves it, and whether the round called `rc_test_trigger`,
`rc_reset_trigger` and `cheevos_award`. -/
structure cheevos_round where
  cheevo : cheevos_cheevo_t
  tested : Bool
  reset : Bool
  awarded : Bool
deriving DecidableEq, Repr

/-- The body of the loop of `cheevos_test_cheevo_set` (lines 563 to 577); `peek`
is the function that `cheevos_peek` computes in the frame. -/
def cheevos_test_cheevo (cenv : cheevos_env) (peek : rc_peek_t) (mode : Int)
    (cheevo : cheevos_cheevo_t) : cheevos_round :=
  if Int.land cheevo.active mode = 0 then
    { cheevo := cheevo, tested := false, reset := false, awarded := false }
  else if Int.land cheevo.active mode ≠ 0 then
    let t := cenv.rc.rc_test_trigger cheevo.trigger peek 0
    let valid := t.1
    let cheevo := { cheevo with trigger := t.2 }
    if cheevo.last ≠ 0 then
      { cheevo := { cheevo with trigger := cenv.rc.rc_reset_trigger cheevo.trigger,
                                last := valid },
        tested := true, reset := true, awarded := false }
    else if valid ≠ 0 then
      { cheevo := { cheevos_award cenv cheevo mode with last := valid },
        tested := true, reset := false, awarded := true }
    else
      { cheevo := { cheevo with last := valid },
        tested := true, reset := false, awarded := false }
  else
    { cheevo := cheevo, tested := false, reset := false, awarded := false }

/-- The function `cheevos_test_cheevo_set` of `cheevos.c`: `cheevos_locals` after
the call and what each round of the loop did.  `settings` is what
`config_get_ptr` returns (`none` for the null pointer), `paused` the value of
`cheevos_hardcore_paused`. -/
def cheevos_test_cheevo_set (cenv : cheevos_env) (settings : Option settings_t)
    (paused : Bool) (peek : rc_peek_t) (locals : cheevos_sets_t) (official : Bool) :
    cheevos_sets_t × List cheevos_round :=
  let mode :=
    match settings with
    | some s =>
      if s.cheevos_hardcore_mode_enable ∧ ¬ paused then cenv.CHEEVOS_ACTIVE_HARDCORE
      else cenv.CHEEVOS_ACTIVE_SOFTCORE
    | none => cenv.CHEEVOS_ACTIVE_SOFTCORE
  if official then
    let rounds := locals.core.map (cheevos_test_cheevo cenv peek mode)
    ({ locals with core := rounds.map (fun r => r.cheevo) }, rounds)
  else
    let rounds := locals.unofficial.map (cheevos_test_cheevo cenv peek mode)
    ({ locals with unofficial := rounds.map (fun r => r.cheevo) }, rounds)

/-- The function `cheevos_reset_game` of `cheevos.c`. -/
def cheevos_reset_game (locals : cheevos_sets_t) : cheevos_sets_t :=
  { locals with
    core := locals.core.map (fun cheevo => { cheevo with last := 1 }),
    unofficial := locals.unofficial.map (fun cheevo => { cheevo with last := 1 }) }

/-- The rounds of the loop of `cheevos_test_cheevo_set` that one achievement goes
through in successive frames, each frame with its mode and its memory. -/
def cheevos_test_frames (cenv : cheevos_env) :
    cheevos_cheevo_t → List (Int × rc_peek_t) → List cheevos_round
  | _, [] => []
  | cheevo, frame :: rest =>
    let r := cheevos_test_cheevo cenv frame.2 frame.1 cheevo
    r :: cheevos_test_frames cenv r.cheevo rest

/-! ## What the theorems about `fixup.c` speak of -/

/-- The cache is well formed: no address is cached twice, and unless the cache is
marked dirty its entries are in strictly ascending order of their addresses. -/
def cheevos_fixups_ok (fixups : cheevos_fixups_t) : Prop :=
  (fixups.elements.map (fun e => e.address)).Nodup ∧
  (fixups.dirty = false → fixups.elements.Pairwise (fun e1 e2 => e1.address < e2.address))

/-- A console without address remapping: none of the five that
`cheevos_patch_address` tests for. -/
def cheevos_console_plain (console : Int) : Prop :=
  console ≠ RC_CONSOLE_NINTENDO ∧ console ≠ RC_CONSOLE_GAMEBOY_COLOR ∧
  console ≠ RC_CONSOLE_GAMEBOY_ADVANCE ∧ console ≠ RC_CONSOLE_PC_ENGINE ∧
  console ≠ RC_CONSOLE_SUPER_NINTENDO

instance (console : Int) : Decidable (cheevos_console_plain console) := by
  unfold cheevos_console_plain
  infer_instance

/-- The number obtained from `addr` by deleting, among its `n` lowest bit
positions, those that are set in `mask`, and packing the bits that remain, in
their order, toward bit 0: if the lowest bit of `mask` is set the lowest bit of
`addr` is dropped, otherwise it is kept as the next bit of the result. -/
def cheevos_bits_delete : Nat → Nat → Nat → Nat
  | 0, addr, _ => addr
  | n + 1, addr, mask =>
    if mask % 2 = 1 then cheevos_bits_delete n (addr / 2) (mask / 2)
    else addr % 2 + 2 * cheevos_bits_delete n (addr / 2) (mask / 2)

/-! ## The leaderboard definition text, as the specification describes it -/

/-- The three letters of a tag in upper case. -/
def lboard_tag.upper : lboard_tag → Char × Char × Char
  | .STA => ('S', 'T', 'A')
  | .CAN => ('C', 'A', 'N')
  | .SUB => ('S', 'U', 'B')
  | .VAL => ('V', 'A', 'L')
  | .PRO => ('P', 'R', 'O')

/-- The three letters of a tag in lower case. -/
def lboard_tag.lower : lboard_tag → Char × Char × Char
  | .STA => ('s', 't', 'a')
  | .CAN => ('c', 'a', 'n')
  | .SUB => ('s', 'u', 'b')
  | .VAL => ('v', 'a', 'l')
  | .PRO => ('p', 'r', 'o')

/-- One field of a leaderboard definition: its tag, the case of each of the
three letters of the tag, and its body (a trigger or a value). -/
structure lboard_field where
  tag : lboard_tag
  upper1 : Bool
  upper2 : Bool
  upper3 : Bool
  body : List Char
deriving DecidableEq, Repr

/-- The text of a field: the tag in the chosen case, a colon, the body. -/
def lboard_field.text (f : lboard_field) : List Char :=
  (if f.upper1 then f.tag.upper.1 else f.tag.lower.1) ::
  (if f.upper2 then f.tag.upper.2.1 else f.tag.lower.2.1) ::
  (if f.upper3 then f.tag.upper.2.2 else f.tag.lower.2.2) :: ':' :: f.body

/-- The text of a leaderboard definition: its fields joined by `::`. -/
def lboard_text : List lboard_field → List Char
  | [] => []
  | [f] => f.text
  | f :: g :: fs => f.text ++ ':' :: ':' :: lboard_text (g :: fs)

/-- The body of a field parses without error and in full: wherever the body
stands at the end of the text or before `::`, the parser for its kind (trigger
for STA, CAN and SUB, value for VAL and PRO), started with a non-negative offset,
reports no error and consumes exactly the body. -/
def lboard_body_ok (env : rc_env) (buffer scratch L : Nat) (funcs_ndx : Int)
    (f : lboard_field) : Prop :=
  ∀ (ret : Int) (rest : List Char), 0 ≤ ret → (rest = [] ∨ ∃ r, rest = ':' :: ':' :: r) →
    if f.tag = .VAL ∨ f.tag = .PRO then
      0 ≤ (env.rc_parse_value_internal ret buffer scratch (f.body ++ rest) L funcs_ndx).2.1 ∧
      (env.rc_parse_value_internal ret buffer scratch (f.body ++ rest) L funcs_ndx).2.2
        = f.body.length
    else
      0 ≤ (env.rc_parse_trigger_internal ret buffer scratch (f.body ++ rest) L funcs_ndx).2.1 ∧
      (env.rc_parse_trigger_internal ret buffer scratch (f.body ++ rest) L funcs_ndx).2.2
        = f.body.length

/-- The error code for a tag that occurs a second time. -/
def lboard_tag.duplicated : lboard_tag → Int
  | .STA => RC_DUPLICATED_START
  | .CAN => RC_DUPLICATED_CANCEL
  | .SUB => RC_DUPLICATED_SUBMIT
  | .VAL => RC_DUPLICATED_VALUE
  | .PRO => RC_DUPLICATED_PROGRESS

/-- The MISSING code of the first required tag, in the order start, cancel,
submit, value, that is not among the tags of a definition; `none` when the four
are there. -/
def lboard_missing (tags : List lboard_tag) : Option Int :=
  if lboard_tag.STA ∉ tags then some RC_MISSING_START
  else if lboard_tag.CAN ∉ tags then some RC_MISSING_CANCEL
  else if lboard_tag.SUB ∉ tags then some RC_MISSING_SUBMIT
  else if lboard_tag.VAL ∉ tags then some RC_MISSING_VALUE
  else none

/-- A text begins with a tag followed by a colon: three letters that spell one of
the five tags, each in upper or lower case, then `:`. -/
def lboard_starts_with_tag : List Char → Bool
  | c0 :: c1 :: c2 :: c3 :: _ =>
    [lboard_tag.STA, lboard_tag.CAN, lboard_tag.SUB, lboard_tag.VAL, lboard_tag.PRO].any
      (fun t => (c0 = t.upper.1 ∨ c0 = t.lower.1) ∧ (c1 = t.upper.2.1 ∨ c1 = t.lower.2.1) ∧
        (c2 = t.upper.2.2 ∨ c2 = t.lower.2.2) ∧ c3 = ':')
  | _ => false

/-- The text of a definition that goes on after its fields: the fields, each
followed by `::`, then the rest. -/
def lboard_text_then (fields : List lboard_field) (rest : List Char) : List Char :=
  match fields with
  | [] => rest
  | f :: fs => lboard_text (f :: fs) ++ ':' :: ':' :: rest

/-! ## A small environment on which the theorems are instantiated -/

/-- A constant operand. -/
def sample_operand (n : Nat) : rc_operand_t :=
  { value := n, previous := 0, size := 0, is_bcd := 0, function_ref := 0, type := 2 }

/-- An allocator that rounds the running offset up to the alignment, places the
node there when a buffer is given and in the scratch space otherwise, and moves
the offset past the node. -/
def sample_alloc (pointer : Nat) (offset size alignment : Int) (scratch : Nat) : Nat × Int :=
  let offset := (offset + alignment - 1) / alignment * alignment
  (if pointer ≠ 0 then pointer + offset.toNat else scratch, offset + size)

/-- A trigger or value body ends at the first colon. -/
def sample_body (s : List Char) : Nat := (s.takeWhile (fun c => c != ':')).length

/-- An environment with 8-byte aligned nodes, constant operands written in
decimal, triggers that hold exactly when the byte at address 0, 1 or 2 (named by
the number of their alternatives) is set, and values that read address 3 or 4. -/
def sample_env : rc_env where
  sizeof_condition := 64
  alignof_condition := 8
  sizeof_lboard := 64
  alignof_lboard := 8
  sizeof_value := 8
  alignof_value := 8
  ulong_max := 2 ^ 64 - 1
  rc_alloc := sample_alloc
  rc_parse_operand := fun s _ _ _ =>
    let d := strtoul_digits 0 0 s
    (if d.2 = 0 then RC_INVALID_CONST_OPERAND else 0, sample_operand (d.1 % UINT_MOD), d.2)
  rc_evaluate_operand := fun op _ _ => (op.value, op)
  rc_parse_trigger_internal := fun ret _ _ s _ _ =>
    ({ requirement := some { conditions := [], has_pause := 0 }, alternative := [] },
      ret + 16, sample_body s)
  rc_parse_value_internal := fun ret _ _ s _ _ =>
    ({ expressions := [] }, ret + 8, sample_body s)
  rc_test_trigger := fun t peek _ => (peek t.alternative.length 1, t)
  rc_evaluate_value := fun v peek _ => (peek (3 + v.expressions.length) 1, v)
  rc_reset_trigger := fun t => t

/-- A condition node before the parser writes to it. -/
def sample_condition : rc_condition_t :=
  { operand1 := sample_operand 0, operand2 := sample_operand 0, required_hits := 7,
    current_hits := 9, pause := 0, type := 0, oper := 0 }

/-- A trigger of the sample environment that reads address `n`. -/
def sample_trigger (n : Nat) : rc_trigger_t :=
  { requirement := some { conditions := [], has_pause := 0 },
    alternative := List.replicate n { conditions := [], has_pause := 0 } }

/-- A leaderboard of the sample environment: start reads address 0, cancel
address 1, submit address 2, the value address 3 and the progress address 4. -/
def sample_lboard (started submitted : Int) : rc_lboard_t :=
  { start := sample_trigger 0, cancel := sample_trigger 1, submit := sample_trigger 2,
    value := { expressions := [] }, progress := some { expressions := [{ terms := [] }] },
    started := started, submitted := submitted }

/-- A memory image given by its first bytes; the rest reads as zero. -/
def sample_peek (bytes : List Nat) : rc_peek_t := fun address _ => bytes.getD address 0

/-- A leaderboard node before the parser writes to it. -/
def sample_slot : rc_lboard_t :=
  { start := sample_trigger 0, cancel := sample_trigger 0, submit := sample_trigger 0,
    value := { expressions := [] }, progress := none, started := 5, submitted := 6 }

/-- The fields of the definition `val:7::Sub:2=2::PRO:9::STA:0=1::cAn:3=3`. -/
def sample_fields : List lboard_field :=
  [{ tag := .VAL, upper1 := false, upper2 := false, upper3 := false, body := ['7'] },
   { tag := .SUB, upper1 := true, upper2 := false, upper3 := false, body := ['2', '=', '2'] },
   { tag := .PRO, upper1 := true, upper2 := true, upper3 := true, body := ['9'] },
   { tag := .STA, upper1 := true, upper2 := true, upper3 := true, body := ['0', '=', '1'] },
   { tag := .CAN, upper1 := false, upper2 := true, upper3 := false, body := ['3', '=', '3'] }]

/-- A second field with the tag STA, in lower case, with a body that is no
trigger. -/
def sample_dup : lboard_field :=
  { tag := .STA, upper1 := false, upper2 := false, upper3 := false, body := ['?', '?'] }

/-- A trigger logic for the sample environment: a body up to the first colon, a
condition set of 16 bytes and a condition of 64 bytes; an empty body is an
error. -/
def sample_trigger_logic : rc_parser_logic rc_trigger_t := fun s _ _ =>
  { self := { requirement := some { conditions := [], has_pause := 0 }, alternative := [] },
    nodes := [(16, 8), (64, 8)],
    error := if sample_body s = 0 then RC_INVALID_MEMORY_OPERAND else 0,
    consumed := sample_body s }

/-- A value logic for the sample environment: a body up to the first colon, an
expression of 8 bytes and a term of 24 bytes; an empty body is an error. -/
def sample_value_logic : rc_parser_logic rc_value_t := fun s _ _ =>
  { self := { expressions := [{ terms := [] }] },
    nodes := [(8, 8), (24, 8)],
    error := if sample_body s = 0 then RC_INVALID_MEMORY_OPERAND else 0,
    consumed := sample_body s }

/-! ## The memory environments on which the theorems are instantiated -/

/-- The descriptor table of the specification: one descriptor with start 0,
select 0xFF0000, no disconnect bits, length 0x10000, offset 0, at the host
address 0x500000; no named regions. -/
def sample_host : cheevos_host where
  size_bits := 64
  descriptors := [{ ptr := 0x500000, offset := 0, start := 0, select := 0xFF0000,
                    disconnect := 0, len := 0x10000, disconnect_mask := 2 ^ 64 - 1 }]
  core_get_memory := fun _ => { data := 0, size := 0 }

/-- A core without descriptor table and with four named regions: 0x800 bytes of
system RAM at 0x1000, 0x2000 bytes of save RAM at 0x8000, 0x100 bytes of video
RAM at 0x20000 and 0x10 bytes of RTC at 0x30000. -/
def sample_regions : cheevos_host where
  size_bits := 64
  descriptors := []
  core_get_memory := fun id =>
    match id with
    | .RETRO_MEMORY_SYSTEM_RAM => { data := 0x1000, size := 0x800 }
    | .RETRO_MEMORY_SAVE_RAM => { data := 0x8000, size := 0x2000 }
    | .RETRO_MEMORY_VIDEO_RAM => { data := 0x20000, size := 0x100 }
    | .RETRO_MEMORY_RTC => { data := 0x30000, size := 0x10 }

/-- A Game Boy Color core without descriptor table: 0x10000 bytes of system RAM
at 0x100000 and three empty regions. -/
def sample_gbc : cheevos_host where
  size_bits := 64
  descriptors := []
  core_get_memory := fun id =>
    match id with
    | .RETRO_MEMORY_SYSTEM_RAM => { data := 0x100000, size := 0x10000 }
    | .RETRO_MEMORY_SAVE_RAM => { data := 0x200000, size := 0 }
    | .RETRO_MEMORY_VIDEO_RAM => { data := 0x300000, size := 0 }
    | .RETRO_MEMORY_RTC => { data := 0x400000, size := 0 }

/-- A descriptor for the addresses below 0x10000 that has no memory behind it (a
null `ptr`). -/
def sample_null : rarch_memory_descriptor_t :=
  { ptr := 0, offset := 0x100, start := 0, select := 0xFF0000, disconnect := 0,
    len := 0x10000, disconnect_mask := 2 ^ 64 - 1 }

/-- A descriptor table that holds `sample_null` only. -/
def sample_unmapped : cheevos_host where
  size_bits := 64
  descriptors := [sample_null]
  core_get_memory := fun _ => { data := 0, size := 0 }

/-- A descriptor for the addresses below 0x10000 with an offset of 2^32 - 1. -/
def sample_far : rarch_memory_descriptor_t :=
  { ptr := 0x500000, offset := 0xFFFFFFFF, start := 0, select := 0xFF0000, disconnect := 0,
    len := 0x10000, disconnect_mask := 2 ^ 64 - 1 }

/-- A descriptor table that holds `sample_far` only. -/
def sample_wrapped : cheevos_host where
  size_bits := 64
  descriptors := [sample_far]
  core_get_memory := fun _ => { data := 0, size := 0 }

/-- Three calls of `cheevos_fixup_find` for other addresses, the second of which
finds no memory for the array. -/
def sample_calls : List cheevos_find_call :=
  [{ host := sample_host, realloc_ok := true, address := 0x0010, console := 0 },
   { host := sample_regions, realloc_ok := false, address := 0x0020, console := 0 },
   { host := sample_host, realloc_ok := true, address := 0x2000, console := 0 }]

/-- A core that exposes no memory at all. -/
def sample_no_memory : cheevos_host where
  size_bits := 64
  descriptors := []
  core_get_memory := fun _ => { data := 0, size := 0 }

/-- A host memory whose byte at address `a` is `7 a + 3` modulo 256. -/
def sample_mem : Nat → Nat := fun a => (7 * a + 3) % 256

/-- A start trigger without requirement and without alternative; it reads
address 0 in the sample environment. -/
def sample_bare_trigger : rc_trigger_t := { requirement := none, alternative := [] }

/-- A leaderboard of the sample environment whose start trigger is bare. -/
def sample_bare_lboard : rc_lboard_t :=
  { start := sample_bare_trigger, cancel := sample_trigger 1, submit := sample_trigger 2,
    value := { expressions := [] }, progress := none, started := 0, submitted := 0 }

/-- The descriptor of `sample_host`; its disconnect mask keeps every bit. -/
def sample_window : rarch_memory_descriptor_t :=
  { ptr := 0x500000, offset := 0, start := 0, select := 0xFF0000, disconnect := 0,
    len := 0x10000, disconnect_mask := 2 ^ 64 - 1 }

/-- An achievement definition whose trigger reads address `n`. -/
def sample_racheevo (n : Nat) : cheevos_racheevo_t :=
  { title := ['T'], description := ['D'], badge := ['B'], memaddr := List.replicate n '0',
    points := 5, id := 100 + n }

/-- A leaderboard definition with the text of `sample_fields`. -/
def sample_ralboard : cheevos_ralboard_t :=
  { title := ['T'], description := ['D'], format := ['V'], mem := lboard_text sample_fields,
    id := 200 }

/-- An environment in which the patch data holds a core achievement for every
`c` of the JSON text, an unofficial achievement for every `u` and a leaderboard
for every `l`; `calloc` always gives memory, and a trigger reads the address
that is the length of its definition. -/
def sample_cheevos_env : cheevos_env where
  rc := sample_env
  CHEEVOS_ACTIVE_SOFTCORE := 1
  CHEEVOS_ACTIVE_HARDCORE := 2
  cheevos_get_patchdata := fun json =>
    (0, { console_id := 7,
          core := (json.filter (fun c => c = 'c')).map (fun _ => sample_racheevo 0),
          unofficial := (json.filter (fun c => c = 'u')).map (fun _ => sample_racheevo 1),
          lboards := (json.filter (fun c => c = 'l')).map (fun _ => sample_ralboard) })
  calloc := fun k => 0x1000 * (k + 1)
  rc_trigger_size := fun _ => 16
  rc_parse_trigger := fun _ m => sample_trigger m.length
  rc_parse_format := fun _ => 0
  scratch := 77
  scratch_slot := sample_slot

/-- The same environment with a `calloc` that gives no memory. -/
def sample_cheevos_starved : cheevos_env :=
  { sample_cheevos_env with calloc := fun _ => 0 }

/-- An achievement of the sample environment, active in both modes, whose trigger
reads address 0. -/
def sample_cheevo (last : Int) : cheevos_cheevo_t :=
  { trigger := sample_trigger 0, info := sample_racheevo 0, active := 3, last := last }

/-! ## Theorems: `rc_test_condition` -/

/-- C1.  For each of the six comparison operators, `rc_test_condition` returns
non-zero exactly when `(v1 + add_buffer) mod 2^32` stands in that relation to
`v2`, where `v1` and `v2` are what `rc_evaluate_operand` yields for operand1 and
operand2: the accumulator is added on operand1's side only. -/
theorem rc_test_condition_compares (env : rc_env) (self : rc_condition_t) (add_buffer : Nat)
    (peek : rc_peek_t) (L : Nat) :
    ((rc_test_condition env { self with oper := RC_CONDITION_EQ } add_buffer peek L).1 ≠ 0 ↔
      ((env.rc_evaluate_operand self.operand1 peek L).1 + add_buffer) % 2 ^ 32
        = (env.rc_evaluate_operand self.operand2 peek L).1) ∧
    ((rc_test_condition env { self with oper := RC_CONDITION_NE } add_buffer peek L).1 ≠ 0 ↔
      ((env.rc_evaluate_operand self.operand1 peek L).1 + add_buffer) % 2 ^ 32
        ≠ (env.rc_evaluate_operand self.operand2 peek L).1) ∧
    ((rc_test_condition env { self with oper := RC_CONDITION_LT } add_buffer peek L).1 ≠ 0 ↔
      ((env.rc_evaluate_operand self.operand1 peek L).1 + add_buffer) % 2 ^ 32
        < (env.rc_evaluate_operand self.operand2 peek L).1) ∧
    ((rc_test_condition env { self with oper := RC_CONDITION_LE } add_buffer peek L).1 ≠ 0 ↔
      ((env.rc_evaluate_operand self.operand1 peek L).1 + add_buffer) % 2 ^ 32
        ≤ (env.rc_evaluate_operand self.operand2 peek L).1) ∧
    ((rc_test_condition env { self with oper := RC_CONDITION_GT } add_buffer peek L).1 ≠ 0 ↔
      ((env.rc_evaluate_operand self.operand1 peek L).1 + add_buffer) % 2 ^ 32
        > (env.rc_evaluate_operand self.operand2 peek L).1) ∧
    ((rc_test_condition env { self with oper := RC_CONDITION_GE } add_buffer peek L).1 ≠ 0 ↔
      ((env.rc_evaluate_operand self.operand1 peek L).1 + add_buffer) % 2 ^ 32
        ≥ (env.rc_evaluate_operand self.operand2 peek L).1) := by
  refine ⟨?_, ?_, ?_, ?_, ?_, ?_⟩ <;>
    simp [rc_test_condition, c_bool, UINT_MOD, RC_CONDITION_EQ, RC_CONDITION_NE,
      RC_CONDITION_LT, RC_CONDITION_LE, RC_CONDITION_GT, RC_CONDITION_GE]

/-! ## Theorems: `rc_evaluate_lboard` -/

/-- The action, the number stored and the two flags with which one call of
`rc_evaluate_lboard` ends, read off the three trigger results and the flags on
entry. -/
theorem rc_evaluate_lboard_core (env : rc_env) (self : rc_lboard_t) (peek : rc_peek_t)
    (L : Nat) :
    ((rc_evaluate_lboard env self peek L).action,
      (rc_evaluate_lboard env self peek L).value,
      (rc_evaluate_lboard env self peek L).self.started,
      (rc_evaluate_lboard env self peek L).self.submitted) =
    if self.submitted ≠ 0 then
      (if self.started ≠ 0 then RC_LBOARD_ACTIVE else RC_LBOARD_INACTIVE,
        if self.started ≠ 0 then
          (env.rc_evaluate_value (self.progress.getD self.value) peek L).1 else 0,
        self.started,
        if (env.rc_test_trigger self.start peek L).1 = 0 then 0 else self.submitted)
    else if self.started = 0 then
      if (env.rc_test_trigger self.start peek L).1 ≠ 0 ∧
          (env.rc_test_trigger self.cancel peek L).1 = 0 then
        if (env.rc_test_trigger self.submit peek L).1 ≠ 0 then
          (RC_LBOARD_TRIGGERED, (env.rc_evaluate_value self.value peek L).1, 0, 1)
        else if (env.rc_test_trigger self.start peek L).2.requirement ≠ none ∨
            (env.rc_test_trigger self.start peek L).2.alternative ≠ [] then
          (RC_LBOARD_STARTED,
            (env.rc_evaluate_value (self.progress.getD self.value) peek L).1, 1, 0)
        else (RC_LBOARD_INACTIVE, 0, 0, 0)
      else (RC_LBOARD_INACTIVE, 0, 0, 0)
    else if (env.rc_test_trigger self.cancel peek L).1 ≠ 0 then (RC_LBOARD_CANCELED, 0, 0, 1)
    else if (env.rc_test_trigger self.submit peek L).1 ≠ 0 then
      (RC_LBOARD_TRIGGERED, (env.rc_evaluate_value self.value peek L).1, 0, 1)
    else
      (RC_LBOARD_ACTIVE, (env.rc_evaluate_value (self.progress.getD self.value) peek L).1,
        self.started, 0) := by
  by_cases h1 : self.submitted = 0
  · by_cases h2 : self.started = 0
    · by_cases h3 : (env.rc_test_trigger self.start peek L).1 = 0
      · rcases hp : self.progress with _ | p <;>
          simp [rc_evaluate_lboard, hp, h1, h2, h3, RC_LBOARD_INACTIVE, RC_LBOARD_ACTIVE,
            RC_LBOARD_STARTED, RC_LBOARD_TRIGGERED, RC_LBOARD_CANCELED]
      · by_cases h4 : (env.rc_test_trigger self.cancel peek L).1 = 0
        · by_cases h5 : (env.rc_test_trigger self.submit peek L).1 = 0
          · by_cases h6 : (env.rc_test_trigger self.start peek L).2.requirement = none <;>
            by_cases h7 : (env.rc_test_trigger self.start peek L).2.alternative = [] <;>
            rcases hp : self.progress with _ | p <;>
              simp [rc_evaluate_lboard, hp, h1, h2, h3, h4, h5, h6, h7, RC_LBOARD_INACTIVE,
                RC_LBOARD_ACTIVE, RC_LBOARD_STARTED, RC_LBOARD_TRIGGERED, RC_LBOARD_CANCELED]
          · rcases hp : self.progress with _ | p <;>
              simp [rc_evaluate_lboard, hp, h1, h2, h3, h4, h5, RC_LBOARD_INACTIVE,
                RC_LBOARD_ACTIVE, RC_LBOARD_STARTED, RC_LBOARD_TRIGGERED, RC_LBOARD_CANCELED]
        · rcases hp : self.progress with _ | p <;>
            simp [rc_evaluate_lboard, hp, h1, h2, h3, h4, RC_LBOARD_INACTIVE, RC_LBOARD_ACTIVE,
              RC_LBOARD_STARTED, RC_LBOARD_TRIGGERED, RC_LBOARD_CANCELED]
    · by_cases h4 : (env.rc_test_trigger self.cancel peek L).1 = 0 <;>
      by_cases h5 : (env.rc_test_trigger self.submit peek L).1 = 0 <;>
      rcases hp : self.progress with _ | p <;>
        simp [rc_evaluate_lboard, hp, h1, h2, h4, h5, RC_LBOARD_INACTIVE, RC_LBOARD_ACTIVE,
          RC_LBOARD_STARTED, RC_LBOARD_TRIGGERED, RC_LBOARD_CANCELED]
  · by_cases h2 : self.started = 0 <;>
    by_cases h3 : (env.rc_test_trigger self.start peek L).1 = 0 <;>
    rcases hp : self.progress with _ | p <;>
      simp [rc_evaluate_lboard, hp, h1, h2, h3, RC_LBOARD_INACTIVE, RC_LBOARD_ACTIVE,
        RC_LBOARD_STARTED, RC_LBOARD_TRIGGERED, RC_LBOARD_CANCELED]

/-- The action of a call, from `rc_evaluate_lboard_core`. -/
theorem rc_evaluate_lboard_action (env : rc_env) (self : rc_lboard_t) (peek : rc_peek_t)
    (L : Nat) :
    (rc_evaluate_lboard env self peek L).action =
    if self.submitted ≠ 0 then
      (if self.started ≠ 0 then RC_LBOARD_ACTIVE else RC_LBOARD_INACTIVE)
    else if self.started = 0 then
      if (env.rc_test_trigger self.start peek L).1 ≠ 0 ∧
          (env.rc_test_trigger self.cancel peek L).1 = 0 then
        if (env.rc_test_trigger self.submit peek L).1 ≠ 0 then RC_LBOARD_TRIGGERED
        else if (env.rc_test_trigger self.start peek L).2.requirement ≠ none ∨
            (env.rc_test_trigger self.start peek L).2.alternative ≠ [] then RC_LBOARD_STARTED
        else RC_LBOARD_INACTIVE
      else RC_LBOARD_INACTIVE
    else if (env.rc_test_trigger self.cancel peek L).1 ≠ 0 then RC_LBOARD_CANCELED
    else if (env.rc_test_trigger self.submit peek L).1 ≠ 0 then RC_LBOARD_TRIGGERED
    else RC_LBOARD_ACTIVE := by
  have h := congrArg Prod.fst (rc_evaluate_lboard_core env self peek L)
  simp only [] at h
  rw [h]
  split_ifs <;> rfl

/-- The number stored by a call, from `rc_evaluate_lboard_core`. -/
theorem rc_evaluate_lboard_stored (env : rc_env) (self : rc_lboard_t) (peek : rc_peek_t)
    (L : Nat) :
    (rc_evaluate_lboard env self peek L).value =
    if self.submitted ≠ 0 then
      (if self.started ≠ 0 then
        (env.rc_evaluate_value (self.progress.getD self.value) peek L).1 else 0)
    else if self.started = 0 then
      if (env.rc_test_trigger self.start peek L).1 ≠ 0 ∧
          (env.rc_test_trigger self.cancel peek L).1 = 0 then
        if (env.rc_test_trigger self.submit peek L).1 ≠ 0 then
          (env.rc_evaluate_value self.value peek L).1
        else if (env.rc_test_trigger self.start peek L).2.requirement ≠ none ∨
            (env.rc_test_trigger self.start peek L).2.alternative ≠ [] then
          (env.rc_evaluate_value (self.progress.getD self.value) peek L).1
        else 0
      else 0
    else if (env.rc_test_trigger self.cancel peek L).1 ≠ 0 then 0
    else if (env.rc_test_trigger self.submit peek L).1 ≠ 0 then
      (env.rc_evaluate_value self.value peek L).1
    else (env.rc_evaluate_value (self.progress.getD self.value) peek L).1 := by
  have h := congrArg (fun t => t.2.1) (rc_evaluate_lboard_core env self peek L)
  simp only [] at h
  rw [h]
  split_ifs <;> rfl

/-- The flag `started` after a call, from `rc_evaluate_lboard_core`. -/
theorem rc_evaluate_lboard_started (env : rc_env) (self : rc_lboard_t) (peek : rc_peek_t)
    (L : Nat) :
    (rc_evaluate_lboard env self peek L).self.started =
    if self.submitted ≠ 0 then self.started
    else if self.started = 0 then
      if (env.rc_test_trigger self.start peek L).1 ≠ 0 ∧
          (env.rc_test_trigger self.cancel peek L).1 = 0 then
        if (env.rc_test_trigger self.submit peek L).1 ≠ 0 then 0
        else if (env.rc_test_trigger self.start peek L).2.requirement ≠ none ∨
            (env.rc_test_trigger self.start peek L).2.alternative ≠ [] then 1
        else 0
      else 0
    else if (env.rc_test_trigger self.cancel peek L).1 ≠ 0 then 0
    else if (env.rc_test_trigger self.submit peek L).1 ≠ 0 then 0
    else self.started := by
  have h := congrArg (fun t => t.2.2.1) (rc_evaluate_lboard_core env self peek L)
  simp only [] at h
  rw [h]
  split_ifs <;> rfl

/-- The flag `submitted` after a call, from `rc_evaluate_lboard_core`. -/
theorem rc_evaluate_lboard_submitted (env : rc_env) (self : rc_lboard_t) (peek : rc_peek_t)
    (L : Nat) :
    (rc_evaluate_lboard env self peek L).self.submitted =
    if self.submitted ≠ 0 then
      (if (env.rc_test_trigger self.start peek L).1 = 0 then 0 else self.submitted)
    else if self.started = 0 then
      if (env.rc_test_trigger self.start peek L).1 ≠ 0 ∧
          (env.rc_test_trigger self.cancel peek L).1 = 0 then
        if (env.rc_test_trigger self.submit peek L).1 ≠ 0 then 1
        else 0
      else 0
    else if (env.rc_test_trigger self.cancel peek L).1 ≠ 0 then 1
    else if (env.rc_test_trigger self.submit peek L).1 ≠ 0 then 1
    else 0 := by
  have h := congrArg (fun t => t.2.2.2) (rc_evaluate_lboard_core env self peek L)
  simp only [] at h
  rw [h]
  split_ifs <;> rfl

/-- A run that begins with `submitted` set and `started` clear, and in which
start tests true in every call, reports INACTIVE throughout and keeps both flags. -/
theorem rc_lboard_run_submitted (env : rc_env) (frames : List (rc_peek_t × Nat)) :
    ∀ self : rc_lboard_t, self.submitted ≠ 0 → self.started = 0 →
      rc_lboard_start_holds env self frames = true →
      (∀ a ∈ rc_lboard_actions env self frames, a = RC_LBOARD_INACTIVE) ∧
      (rc_lboard_after env self frames).submitted = self.submitted ∧
      (rc_lboard_after env self frames).started = 0 := by
  induction frames with
  | nil => intro self _ h2 _; simp [rc_lboard_actions, rc_lboard_after, h2]
  | cons f frames ih =>
    intro self h1 h2 h3
    simp only [rc_lboard_start_holds, Bool.and_eq_true, decide_eq_true_eq] at h3
    have ha := rc_evaluate_lboard_action env self f.1 f.2
    have hb := rc_evaluate_lboard_started env self f.1 f.2
    have hc := rc_evaluate_lboard_submitted env self f.1 f.2
    simp only [h1, h2, h3.1, ne_eq, not_false_eq_true, not_true_eq_false, if_true, if_false]
      at ha hb hc
    have := ih (rc_evaluate_lboard env self f.1 f.2).self (by rw [hc]; exact h1) hb h3.2
    simp only [rc_lboard_actions, rc_lboard_after, List.mem_cons]
    refine ⟨?_, ?_, this.2.2⟩
    · rintro a (rfl | ha2)
      · exact ha
      · exact this.1 a ha2
    · rw [this.2.1, hc]

/-- A run that begins with `started` set and `submitted` clear, and in which
cancel and submit test false in every call, reports ACTIVE throughout and keeps
both flags. -/
theorem rc_lboard_run_active (env : rc_env) (frames : List (rc_peek_t × Nat)) :
    ∀ self : rc_lboard_t, self.started ≠ 0 → self.submitted = 0 →
      rc_lboard_quiet env self frames = true →
      (∀ a ∈ rc_lboard_actions env self frames, a = RC_LBOARD_ACTIVE) ∧
      (rc_lboard_after env self frames).started = self.started ∧
      (rc_lboard_after env self frames).submitted = 0 := by
  induction frames with
  | nil => intro self _ h2 _; simp [rc_lboard_actions, rc_lboard_after, h2]
  | cons f frames ih =>
    intro self h1 h2 h3
    simp only [rc_lboard_quiet, Bool.and_eq_true, decide_eq_true_eq] at h3
    have ha := rc_evaluate_lboard_action env self f.1 f.2
    have hb := rc_evaluate_lboard_started env self f.1 f.2
    have hc := rc_evaluate_lboard_submitted env self f.1 f.2
    simp only [h1, h2, h3.1.1, h3.1.2, ne_eq, not_false_eq_true, not_true_eq_false, if_true,
      if_false] at ha hb hc
    have := ih (rc_evaluate_lboard env self f.1 f.2).self (by rw [hb]; exact h1) hc h3.2
    simp only [rc_lboard_actions, rc_lboard_after, List.mem_cons]
    refine ⟨?_, ?_, this.2.2⟩
    · rintro a (rfl | ha2)
      · exact ha
      · exact this.1 a ha2
    · rw [this.2.1, hb]

/-- No reachable leaderboard has both flags set. -/
theorem rc_lboard_reachable_flags (env : rc_env) (self : rc_lboard_t)
    (h : rc_lboard_reachable env self) : self.started = 0 ∨ self.submitted = 0 := by
  induction h with
  | fresh self h1 _ => exact Or.inl h1
  | evaluate self peek L _ ih =>
    rw [rc_evaluate_lboard_started, rc_evaluate_lboard_submitted]
    rcases ih with h | h
    · simp only [h]
      split_ifs <;> simp
    · simp only [h]
      split_ifs <;> simp
  | reset self _ _ => exact Or.inl rfl

/-- In a run that begins with `started` clear, a call that reports CANCELED comes
after a call that reported STARTED. -/
theorem rc_lboard_cancel_after_start (env : rc_env) (frames : List (rc_peek_t × Nat)) :
    ∀ self : rc_lboard_t, self.started = 0 → ∀ j : Nat,
      (rc_lboard_actions env self frames)[j]? = some RC_LBOARD_CANCELED →
      ∃ i, i < j ∧ (rc_lboard_actions env self frames)[i]? = some RC_LBOARD_STARTED := by
  induction frames with
  | nil => intro self _ j hj; simp [rc_lboard_actions] at hj
  | cons f frames ih =>
    intro self h1 j hj
    have ha := rc_evaluate_lboard_action env self f.1 f.2
    have hb := rc_evaluate_lboard_started env self f.1 f.2
    simp only [h1, ne_eq, not_true_eq_false, if_false, if_true] at ha hb
    by_cases hst : (rc_evaluate_lboard env self f.1 f.2).action = RC_LBOARD_STARTED
    · cases j with
      | zero =>
        simp only [rc_lboard_actions, List.getElem?_cons_zero, Option.some.injEq] at hj
        rw [hst] at hj
        exact absurd hj (by decide)
      | succ j => exact ⟨0, Nat.succ_pos j, by simp [rc_lboard_actions, hst]⟩
    · have hb2 : (rc_evaluate_lboard env self f.1 f.2).self.started = 0 := by
        rw [hb]
        rw [ha] at hst
        split_ifs at hst ⊢ <;> first | rfl | exact absurd rfl hst
      cases j with
      | zero =>
        simp only [rc_lboard_actions, List.getElem?_cons_zero, Option.some.injEq] at hj
        rw [ha] at hj
        split_ifs at hj <;> exact absurd hj (by decide)
      | succ j =>
        simp only [rc_lboard_actions, List.getElem?_cons_succ] at hj
        obtain ⟨i, hi, hi2⟩ := ih _ hb2 j hj
        exact ⟨i + 1, Nat.succ_lt_succ hi, by simpa [rc_lboard_actions] using hi2⟩

/-- C2.  A leaderboard that is neither started nor submitted, evaluated in a frame
in which start and submit test true and cancel tests false, reports TRIGGERED, sets
`submitted` and leaves `started` clear.  In every run of further calls in which
start keeps testing true, every call reports INACTIVE and the flags stay as they
are; and after any run, a call that clears a set `submitted` is a call in which
start tests false. -/
theorem rc_evaluate_lboard_triggers_once (env : rc_env) (self : rc_lboard_t)
    (peek : rc_peek_t) (L : Nat) (h1 : self.started = 0) (h2 : self.submitted = 0)
    (hstart : (env.rc_test_trigger self.start peek L).1 ≠ 0)
    (hsubmit : (env.rc_test_trigger self.submit peek L).1 ≠ 0)
    (hcancel : (env.rc_test_trigger self.cancel peek L).1 = 0) :
    (rc_evaluate_lboard env self peek L).action = RC_LBOARD_TRIGGERED ∧
    (rc_evaluate_lboard env self peek L).self.submitted = 1 ∧
    (rc_evaluate_lboard env self peek L).self.started = 0 ∧
    (∀ frames : List (rc_peek_t × Nat),
      rc_lboard_start_holds env (rc_evaluate_lboard env self peek L).self frames = true →
      (∀ a ∈ rc_lboard_actions env (rc_evaluate_lboard env self peek L).self frames,
        a = RC_LBOARD_INACTIVE) ∧
      (rc_lboard_after env (rc_evaluate_lboard env self peek L).self frames).submitted = 1 ∧
      (rc_lboard_after env (rc_evaluate_lboard env self peek L).self frames).started = 0) ∧
    (∀ (frames : List (rc_peek_t × Nat)) (peek2 : rc_peek_t) (L2 : Nat),
      (rc_lboard_after env (rc_evaluate_lboard env self peek L).self frames).submitted ≠ 0 →
      (rc_evaluate_lboard env
        (rc_lboard_after env (rc_evaluate_lboard env self peek L).self frames)
        peek2 L2).self.submitted = 0 →
      (env.rc_test_trigger
        (rc_lboard_after env (rc_evaluate_lboard env self peek L).self frames).start
        peek2 L2).1 = 0) := by
  have ha := rc_evaluate_lboard_action env self peek L
  have hb := rc_evaluate_lboard_started env self peek L
  have hc := rc_evaluate_lboard_submitted env self peek L
  simp only [h1, h2, hstart, hsubmit, hcancel, ne_eq, not_false_eq_true, not_true_eq_false,
    if_true, if_false, and_self] at ha hb hc
  refine ⟨ha, hc, hb, ?_, ?_⟩
  · intro frames hf
    have := rc_lboard_run_submitted env frames (rc_evaluate_lboard env self peek L).self
      (by rw [hc]; decide) hb hf
    exact ⟨this.1, by rw [this.2.1, hc], this.2.2⟩
  · intro frames peek2 L2 hs hz
    rw [rc_evaluate_lboard_submitted] at hz
    simp only [hs, ne_eq, not_false_eq_true, if_true] at hz
    by_contra hne
    simp only [hne, if_false] at hz
    exact hs hz

/-- C2, instantiated: the sample leaderboard with start and submit set in memory. -/
theorem rc_evaluate_lboard_triggers_once_witness :
    (sample_lboard 0 0).started = 0 ∧ (sample_lboard 0 0).submitted = 0 ∧
    (sample_env.rc_test_trigger (sample_lboard 0 0).start (sample_peek [1, 0, 1]) 0).1 ≠ 0 ∧
    (sample_env.rc_test_trigger (sample_lboard 0 0).submit (sample_peek [1, 0, 1]) 0).1 ≠ 0 ∧
    (sample_env.rc_test_trigger (sample_lboard 0 0).cancel (sample_peek [1, 0, 1]) 0).1 = 0 ∧
    (rc_evaluate_lboard sample_env (sample_lboard 0 0) (sample_peek [1, 0, 1]) 0).action
      = RC_LBOARD_TRIGGERED :=
  ⟨by decide, by decide, by decide, by decide, by decide,
    (rc_evaluate_lboard_triggers_once sample_env (sample_lboard 0 0) (sample_peek [1, 0, 1]) 0
      (by decide) (by decide) (by decide) (by decide) (by decide)).1⟩

/-- C3.  A leaderboard that is neither started nor submitted and whose start
trigger (as the call's test leaves it) has a requirement or an alternative,
evaluated in a frame in which start tests true and cancel and submit test false,
reports STARTED and sets `started`.  In every run of further calls in which cancel
and submit test false, every call reports ACTIVE, `started` stays set and
`submitted` stays clear. -/
theorem rc_evaluate_lboard_starts_once (env : rc_env) (self : rc_lboard_t)
    (peek : rc_peek_t) (L : Nat) (h1 : self.started = 0) (h2 : self.submitted = 0)
    (hreq : (env.rc_test_trigger self.start peek L).2.requirement ≠ none ∨
      (env.rc_test_trigger self.start peek L).2.alternative ≠ [])
    (hstart : (env.rc_test_trigger self.start peek L).1 ≠ 0)
    (hcancel : (env.rc_test_trigger self.cancel peek L).1 = 0)
    (hsubmit : (env.rc_test_trigger self.submit peek L).1 = 0) :
    (rc_evaluate_lboard env self peek L).action = RC_LBOARD_STARTED ∧
    (rc_evaluate_lboard env self peek L).self.started = 1 ∧
    (rc_evaluate_lboard env self peek L).self.submitted = 0 ∧
    (∀ frames : List (rc_peek_t × Nat),
      rc_lboard_quiet env (rc_evaluate_lboard env self peek L).self frames = true →
      (∀ a ∈ rc_lboard_actions env (rc_evaluate_lboard env self peek L).self frames,
        a = RC_LBOARD_ACTIVE) ∧
      (rc_lboard_after env (rc_evaluate_lboard env self peek L).self frames).started = 1 ∧
      (rc_lboard_after env (rc_evaluate_lboard env self peek L).self frames).submitted = 0) := by
  have ha := rc_evaluate_lboard_action env self peek L
  have hb := rc_evaluate_lboard_started env self peek L
  have hc := rc_evaluate_lboard_submitted env self peek L
  simp only [h1, h2, hstart, hsubmit, hcancel, hreq, ne_eq, not_false_eq_true,
    not_true_eq_false, if_true, if_false, and_self] at ha hb hc
  refine ⟨ha, hb, hc, ?_⟩
  intro frames hf
  have := rc_lboard_run_active env frames (rc_evaluate_lboard env self peek L).self
    (by rw [hb]; decide) hc hf
  exact ⟨this.1, by rw [this.2.1, hb], this.2.2⟩

/-- C3, instantiated: the sample leaderboard with only start set in memory. -/
theorem rc_evaluate_lboard_starts_once_witness :
    (sample_lboard 0 0).started = 0 ∧ (sample_lboard 0 0).submitted = 0 ∧
    (sample_env.rc_test_trigger (sample_lboard 0 0).start (sample_peek [1]) 0).2.requirement
      ≠ none ∧
    (sample_env.rc_test_trigger (sample_lboard 0 0).start (sample_peek [1]) 0).1 ≠ 0 ∧
    (sample_env.rc_test_trigger (sample_lboard 0 0).cancel (sample_peek [1]) 0).1 = 0 ∧
    (sample_env.rc_test_trigger (sample_lboard 0 0).submit (sample_peek [1]) 0).1 = 0 ∧
    (rc_evaluate_lboard sample_env (sample_lboard 0 0) (sample_peek [1]) 0).action
      = RC_LBOARD_STARTED :=
  ⟨by decide, by decide, by decide, by decide, by decide, by decide,
    (rc_evaluate_lboard_starts_once sample_env (sample_lboard 0 0) (sample_peek [1]) 0
      (by decide) (by decide) (Or.inl (by decide)) (by decide) (by decide) (by decide)).1⟩

/-- C4.  A reachable leaderboard with `started` set, evaluated in a frame in which
cancel tests true, reports CANCELED and stores 0.  The call right after it reports
INACTIVE whatever the triggers yield, and in any run of later calls a call that
reports CANCELED comes after a call that reported STARTED. -/
theorem rc_evaluate_lboard_cancels_once (env : rc_env) (self : rc_lboard_t)
    (hreach : rc_lboard_reachable env self) (hstarted : self.started ≠ 0)
    (peek : rc_peek_t) (L : Nat)
    (hcancel : (env.rc_test_trigger self.cancel peek L).1 ≠ 0) :
    (rc_evaluate_lboard env self peek L).action = RC_LBOARD_CANCELED ∧
    (rc_evaluate_lboard env self peek L).value = 0 ∧
    (∀ (peek2 : rc_peek_t) (L2 : Nat),
      (rc_evaluate_lboard env (rc_evaluate_lboard env self peek L).self peek2 L2).action
        = RC_LBOARD_INACTIVE) ∧
    (∀ (frames : List (rc_peek_t × Nat)) (j : Nat),
      (rc_lboard_actions env (rc_evaluate_lboard env self peek L).self frames)[j]?
        = some RC_LBOARD_CANCELED →
      ∃ i, i < j ∧
        (rc_lboard_actions env (rc_evaluate_lboard env self peek L).self frames)[i]?
          = some RC_LBOARD_STARTED) := by
  have hsub : self.submitted = 0 := by
    rcases rc_lboard_reachable_flags env self hreach with h | h
    · exact absurd h hstarted
    · exact h
  have ha := rc_evaluate_lboard_action env self peek L
  have hv := rc_evaluate_lboard_stored env self peek L
  have hb := rc_evaluate_lboard_started env self peek L
  have hc := rc_evaluate_lboard_submitted env self peek L
  simp only [hsub, hstarted, hcancel, ne_eq, not_false_eq_true, not_true_eq_false, if_true,
    if_false] at ha hv hb hc
  refine ⟨ha, hv, ?_, ?_⟩
  · intro peek2 L2
    rw [rc_evaluate_lboard_action]
    simp [hb, hc]
  · intro frames j hj
    exact rc_lboard_cancel_after_start env frames _ hb j hj

/-- C4, instantiated: the sample leaderboard, started by one call, then evaluated
with cancel set in memory. -/
theorem rc_evaluate_lboard_cancels_once_witness :
    (rc_evaluate_lboard sample_env (sample_lboard 0 0) (sample_peek [1]) 0).self.started ≠ 0 ∧
    (sample_env.rc_test_trigger
      (rc_evaluate_lboard sample_env (sample_lboard 0 0) (sample_peek [1]) 0).self.cancel
      (sample_peek [1, 1]) 0).1 ≠ 0 ∧
    (rc_evaluate_lboard sample_env
      (rc_evaluate_lboard sample_env (sample_lboard 0 0) (sample_peek [1]) 0).self
      (sample_peek [1, 1]) 0).action = RC_LBOARD_CANCELED :=
  ⟨by decide, by decide,
    (rc_evaluate_lboard_cancels_once sample_env
      (rc_evaluate_lboard sample_env (sample_lboard 0 0) (sample_peek [1]) 0).self
      (rc_lboard_reachable.evaluate _ _ _ (rc_lboard_reachable.fresh _ rfl rfl))
      (by decide) (sample_peek [1, 1]) 0 (by decide)).1⟩

/-- C5.  The number that `rc_evaluate_lboard` stores is fixed by the action it
returns: for ACTIVE and STARTED the evaluation of `progress` when present and of
`value` otherwise, for TRIGGERED the evaluation of `value`, for INACTIVE and
CANCELED zero; and the action is always one of these five. -/
theorem rc_evaluate_lboard_value (env : rc_env) (self : rc_lboard_t) (peek : rc_peek_t)
    (L : Nat) :
    ((rc_evaluate_lboard env self peek L).action = RC_LBOARD_ACTIVE ∨
      (rc_evaluate_lboard env self peek L).action = RC_LBOARD_STARTED →
      (rc_evaluate_lboard env self peek L).value =
        match self.progress with
        | some progress => (env.rc_evaluate_value progress peek L).1
        | none => (env.rc_evaluate_value self.value peek L).1) ∧
    ((rc_evaluate_lboard env self peek L).action = RC_LBOARD_TRIGGERED →
      (rc_evaluate_lboard env self peek L).value = (env.rc_evaluate_value self.value peek L).1) ∧
    ((rc_evaluate_lboard env self peek L).action = RC_LBOARD_INACTIVE ∨
      (rc_evaluate_lboard env self peek L).action = RC_LBOARD_CANCELED →
      (rc_evaluate_lboard env self peek L).value = 0) ∧
    ((rc_evaluate_lboard env self peek L).action = RC_LBOARD_INACTIVE ∨
      (rc_evaluate_lboard env self peek L).action = RC_LBOARD_ACTIVE ∨
      (rc_evaluate_lboard env self peek L).action = RC_LBOARD_STARTED ∨
      (rc_evaluate_lboard env self peek L).action = RC_LBOARD_CANCELED ∨
      (rc_evaluate_lboard env self peek L).action = RC_LBOARD_TRIGGERED) := by
  have hget : (env.rc_evaluate_value (self.progress.getD self.value) peek L).1 =
      match self.progress with
      | some progress => (env.rc_evaluate_value progress peek L).1
      | none => (env.rc_evaluate_value self.value peek L).1 := by
    cases self.progress <;> rfl
  rw [rc_evaluate_lboard_action, rc_evaluate_lboard_stored, ← hget]
  simp only [RC_LBOARD_INACTIVE, RC_LBOARD_ACTIVE, RC_LBOARD_STARTED, RC_LBOARD_CANCELED,
    RC_LBOARD_TRIGGERED]
  split_ifs <;> simp

/-- C5, instantiated: a started sample leaderboard reports its progress (address
4), not its value (address 3). -/
theorem rc_evaluate_lboard_value_witness :
    (rc_evaluate_lboard sample_env (sample_lboard 1 0) (sample_peek [1, 0, 0, 70, 40]) 0).action
      = RC_LBOARD_ACTIVE ∧
    (rc_evaluate_lboard sample_env (sample_lboard 1 0) (sample_peek [1, 0, 0, 70, 40]) 0).value
      = 40 :=
  ⟨by decide,
    ((rc_evaluate_lboard_value sample_env (sample_lboard 1 0)
      (sample_peek [1, 0, 0, 70, 40]) 0).1 (Or.inl (by decide))).trans (by decide)⟩

/-! ## Theorems: `rc_parse_condition` -/

/-- The required-hits part of `rc_parse_condition` changes no field of a returned
condition other than `required_hits`. -/
theorem rc_parse_condition_hits_keeps (env : rc_env) (self c : rc_condition_t) (ret : Int)
    (memaddr aux : List Char)
    (h : (rc_parse_condition_hits env self ret memaddr aux).self = some c) :
    c.type = self.type ∧ c.current_hits = self.current_hits ∧ c.oper = self.oper := by
  unfold rc_parse_condition_hits at h
  simp only [] at h
  split_ifs at h <;> simp at h <;> subst h <;> simp

/-- From operand2 on, `rc_parse_condition` changes neither the type, the current
hits nor the operator of a returned condition. -/
theorem rc_parse_condition_operand2_keeps (env : rc_env) (self c : rc_condition_t)
    (ret : Int) (memaddr aux : List Char) (L : Nat) (funcs_ndx : Int)
    (h : (rc_parse_condition_operand2 env self ret memaddr aux L funcs_ndx).self = some c) :
    c.type = self.type ∧ c.current_hits = self.current_hits ∧ c.oper = self.oper := by
  by_cases hlt : (env.rc_parse_operand aux 1 L funcs_ndx).1 < 0
  · simp [rc_parse_condition_operand2, hlt] at h
  · simp only [rc_parse_condition_operand2, hlt, if_false] at h
    exact rc_parse_condition_hits_keeps env
      { self with operand2 := (env.rc_parse_operand aux 1 L funcs_ndx).2.1 } c ret memaddr
      (aux.drop (env.rc_parse_operand aux 1 L funcs_ndx).2.2) h

/-- From the operator on, `rc_parse_condition` changes neither the type nor the
current hits of a returned condition. -/
theorem rc_parse_condition_operator_keeps (env : rc_env) (self c : rc_condition_t)
    (ret : Int) (memaddr aux : List Char) (L : Nat) (funcs_ndx : Int)
    (h : (rc_parse_condition_operator env self ret memaddr aux L funcs_ndx).self = some c) :
    c.type = self.type ∧ c.current_hits = self.current_hits := by
  have key : ∀ (o : Int) (a : List Char),
      (rc_parse_condition_operand2 env { self with oper := o } ret memaddr a L funcs_ndx).self
        = some c → c.type = self.type ∧ c.current_hits = self.current_hits := fun o a h2 =>
    ⟨(rc_parse_condition_operand2_keeps env { self with oper := o } c ret memaddr a L
        funcs_ndx h2).1,
      (rc_parse_condition_operand2_keeps env { self with oper := o } c ret memaddr a L
        funcs_ndx h2).2.1⟩
  simp only [rc_parse_condition_operator] at h
  by_cases h1 : cur aux = '='
  · simp only [h1, if_true] at h
    exact key _ _ h
  · by_cases h2 : cur aux = '!'
    · simp only [h1, h2, if_true, if_false] at h
      by_cases h3 : cur aux.tail = '='
      · simp only [h3, ne_eq, not_true_eq_false, if_false] at h
        exact key _ _ h
      · simp [h3] at h
    · by_cases h3 : cur aux = '<'
      · simp only [h1, h2, h3, if_true, if_false] at h
        by_cases h4 : cur aux.tail = '='
        · simp only [h4, if_true] at h
          exact key _ _ h
        · simp only [h4, if_false] at h
          exact key _ _ h
      · by_cases h4 : cur aux = '>'
        · simp only [h1, h2, h3, h4, if_true, if_false] at h
          by_cases h5 : cur aux.tail = '='
          · simp only [h5, if_true] at h
            exact key _ _ h
          · simp only [h5, if_false] at h
            exact key _ _ h
        · simp [h1, h2, h3, h4] at h

/-- From operand1 on, `rc_parse_condition` changes neither the type nor the
current hits of a returned condition. -/
theorem rc_parse_condition_operand1_keeps (env : rc_env) (self c : rc_condition_t)
    (ret : Int) (memaddr aux : List Char) (L : Nat) (funcs_ndx : Int)
    (h : (rc_parse_condition_operand1 env self ret memaddr aux L funcs_ndx).self = some c) :
    c.type = self.type ∧ c.current_hits = self.current_hits := by
  by_cases hlt : (env.rc_parse_operand aux 1 L funcs_ndx).1 < 0
  · simp [rc_parse_condition_operand1, hlt] at h
  · simp only [rc_parse_condition_operand1, hlt, if_false] at h
    exact rc_parse_condition_operator_keeps env
      { self with operand1 := (env.rc_parse_operand aux 1 L funcs_ndx).2.1 } c ret memaddr
      (aux.drop (env.rc_parse_operand aux 1 L funcs_ndx).2.2) L funcs_ndx h

/-- The character under a pointer to a non-empty text. -/
theorem cur_cons (c : Char) (r : List Char) : cur (c :: r) = c := rfl

/-- The character under a pointer to the end of the text. -/
theorem cur_nil : cur [] = '\x00' := rfl

/-- C7.  After operand1 has been parsed, `rc_parse_condition` goes on with the
operator at the text that follows operand1.  There `==` and `=` give EQ, `!=` NE,
`<=` LE, `<` LT, `>=` GE and `>` GT, and operand2 is parsed right after exactly
these characters; the end of the text, any other character, and `!` without `=`
make the function return no condition with `RC_INVALID_OPERATOR`. -/
theorem rc_parse_condition_operator_cases (env : rc_env) (self : rc_condition_t) (ret : Int)
    (memaddr : List Char) (L : Nat) (funcs_ndx : Int) :
    (∀ aux : List Char, 0 ≤ (env.rc_parse_operand aux 1 L funcs_ndx).1 →
      rc_parse_condition_operand1 env self ret memaddr aux L funcs_ndx =
        rc_parse_condition_operator env
          { self with operand1 := (env.rc_parse_operand aux 1 L funcs_ndx).2.1 } ret memaddr
          (aux.drop (env.rc_parse_operand aux 1 L funcs_ndx).2.2) L funcs_ndx) ∧
    (∀ (text : List Char) (op : Int) (rest : List Char),
      (text = '=' :: '=' :: rest ∧ op = RC_CONDITION_EQ) ∨
      (text = '=' :: rest ∧ cur rest ≠ '=' ∧ op = RC_CONDITION_EQ) ∨
      (text = '!' :: '=' :: rest ∧ op = RC_CONDITION_NE) ∨
      (text = '<' :: '=' :: rest ∧ op = RC_CONDITION_LE) ∨
      (text = '<' :: rest ∧ cur rest ≠ '=' ∧ op = RC_CONDITION_LT) ∨
      (text = '>' :: '=' :: rest ∧ op = RC_CONDITION_GE) ∨
      (text = '>' :: rest ∧ cur rest ≠ '=' ∧ op = RC_CONDITION_GT) →
      rc_parse_condition_operator env self ret memaddr text L funcs_ndx =
        rc_parse_condition_operand2 env { self with oper := op } ret memaddr rest L funcs_ndx ∧
      ∀ cond : rc_condition_t,
        (rc_parse_condition_operator env self ret memaddr text L funcs_ndx).self = some cond →
        cond.oper = op) ∧
    (∀ text : List Char,
      text = [] ∨
      (∃ c rest, text = c :: rest ∧ c ≠ '=' ∧ c ≠ '!' ∧ c ≠ '<' ∧ c ≠ '>') ∨
      (∃ rest, text = '!' :: rest ∧ cur rest ≠ '=') →
      rc_parse_condition_operator env self ret memaddr text L funcs_ndx =
        { self := none, ret := RC_INVALID_OPERATOR, memaddr := memaddr }) := by
  have hop : ∀ (text : List Char) (op : Int) (rest : List Char),
      (text = '=' :: '=' :: rest ∧ op = RC_CONDITION_EQ) ∨
      (text = '=' :: rest ∧ cur rest ≠ '=' ∧ op = RC_CONDITION_EQ) ∨
      (text = '!' :: '=' :: rest ∧ op = RC_CONDITION_NE) ∨
      (text = '<' :: '=' :: rest ∧ op = RC_CONDITION_LE) ∨
      (text = '<' :: rest ∧ cur rest ≠ '=' ∧ op = RC_CONDITION_LT) ∨
      (text = '>' :: '=' :: rest ∧ op = RC_CONDITION_GE) ∨
      (text = '>' :: rest ∧ cur rest ≠ '=' ∧ op = RC_CONDITION_GT) →
      rc_parse_condition_operator env self ret memaddr text L funcs_ndx =
        rc_parse_condition_operand2 env { self with oper := op } ret memaddr rest L
          funcs_ndx := by
    intro text op rest h
    rcases h with ⟨rfl, rfl⟩ | ⟨rfl, h, rfl⟩ | ⟨rfl, rfl⟩ | ⟨rfl, rfl⟩ | ⟨rfl, h, rfl⟩ |
      ⟨rfl, rfl⟩ | ⟨rfl, h, rfl⟩
    all_goals simp [rc_parse_condition_operator, cur_cons, *]
  refine ⟨?_, fun text op rest h => ⟨hop text op rest h, fun cond hc => ?_⟩, ?_⟩
  · intro aux h
    simp [rc_parse_condition_operand1, not_lt.mpr h]
  · rw [hop text op rest h] at hc
    exact (rc_parse_condition_operand2_keeps env _ cond ret memaddr rest L funcs_ndx hc).2.2
  · rintro text (rfl | ⟨c, rest, rfl, h1, h2, h3, h4⟩ | ⟨rest, rfl, h⟩)
    · simp [rc_parse_condition_operator, cur_nil]
    · simp [rc_parse_condition_operator, cur_cons, h1, h2, h3, h4]
    · simp [rc_parse_condition_operator, cur_cons, h]

/-- C7, instantiated: in `1<=2` the sample operand parser reads `1` and the
operator is read from `<=2`. -/
theorem rc_parse_condition_operator_cases_witness :
    0 ≤ (sample_env.rc_parse_operand ['1', '<', '=', '2'] 1 0 0).1 ∧
    rc_parse_condition_operand1 sample_env sample_condition 64 ['1', '<', '=', '2']
        ['1', '<', '=', '2'] 0 0 =
      rc_parse_condition_operand2 sample_env
        { sample_condition with operand1 := sample_operand 1, oper := RC_CONDITION_LE } 64
        ['1', '<', '=', '2'] ['2'] 0 0 :=
  ⟨by decide,
    ((rc_parse_condition_operator_cases sample_env sample_condition 64 ['1', '<', '=', '2'] 0
      0).1 ['1', '<', '=', '2'] (by decide)).trans
      (((rc_parse_condition_operator_cases sample_env
        { sample_condition with operand1 := sample_operand 1 } 64 ['1', '<', '=', '2'] 0 0).2.1
        ['<', '=', '2'] RC_CONDITION_LE ['2'] (by simp)).1)⟩

/-- C8.  When the second character of the text is a colon, the first character
selects the type (P pause-if, R reset-if, A add-source, B sub-source, C add-hits, in
either case) and operand1 is parsed after the two characters; any other first
character before a colon makes the function return no condition with
`RC_INVALID_CONDITION_TYPE`.  When the second character is not a colon (the empty
text included) the type is standard and operand1 is parsed at the start of the
text. -/
theorem rc_parse_condition_role (env : rc_env) (slot : rc_condition_t) (ret : Int)
    (buffer scratch : Nat) (L : Nat) (funcs_ndx : Int) :
    (∀ (c : Char) (ty : Int) (rest : List Char),
      (c, ty) ∈ [('p', RC_CONDITION_PAUSE_IF), ('P', RC_CONDITION_PAUSE_IF),
        ('r', RC_CONDITION_RESET_IF), ('R', RC_CONDITION_RESET_IF),
        ('a', RC_CONDITION_ADD_SOURCE), ('A', RC_CONDITION_ADD_SOURCE),
        ('b', RC_CONDITION_SUB_SOURCE), ('B', RC_CONDITION_SUB_SOURCE),
        ('c', RC_CONDITION_ADD_HITS), ('C', RC_CONDITION_ADD_HITS)] →
      rc_parse_condition env slot ret buffer scratch (c :: ':' :: rest) L funcs_ndx =
        rc_parse_condition_operand1 env { slot with current_hits := 0, type := ty }
          (env.rc_alloc buffer ret env.sizeof_condition env.alignof_condition scratch).2
          (c :: ':' :: rest) rest L funcs_ndx ∧
      ∀ cond : rc_condition_t,
        (rc_parse_condition env slot ret buffer scratch (c :: ':' :: rest) L funcs_ndx).self
          = some cond → cond.type = ty) ∧
    (∀ (c : Char) (rest : List Char), c ≠ '\x00' →
      c ∉ ['p', 'P', 'r', 'R', 'a', 'A', 'b', 'B', 'c', 'C'] →
      rc_parse_condition env slot ret buffer scratch (c :: ':' :: rest) L funcs_ndx =
        { self := none, ret := RC_INVALID_CONDITION_TYPE, memaddr := c :: ':' :: rest }) ∧
    (∀ memaddr : List Char, at_ memaddr 1 ≠ ':' →
      rc_parse_condition env slot ret buffer scratch memaddr L funcs_ndx =
        rc_parse_condition_operand1 env
          { slot with current_hits := 0, type := RC_CONDITION_STANDARD }
          (env.rc_alloc buffer ret env.sizeof_condition env.alignof_condition scratch).2
          memaddr memaddr L funcs_ndx ∧
      ∀ cond : rc_condition_t,
        (rc_parse_condition env slot ret buffer scratch memaddr L funcs_ndx).self
          = some cond → cond.type = RC_CONDITION_STANDARD) := by
  have hrole : ∀ (c : Char) (ty : Int) (rest : List Char),
      (c, ty) ∈ [('p', RC_CONDITION_PAUSE_IF), ('P', RC_CONDITION_PAUSE_IF),
        ('r', RC_CONDITION_RESET_IF), ('R', RC_CONDITION_RESET_IF),
        ('a', RC_CONDITION_ADD_SOURCE), ('A', RC_CONDITION_ADD_SOURCE),
        ('b', RC_CONDITION_SUB_SOURCE), ('B', RC_CONDITION_SUB_SOURCE),
        ('c', RC_CONDITION_ADD_HITS), ('C', RC_CONDITION_ADD_HITS)] →
      rc_parse_condition env slot ret buffer scratch (c :: ':' :: rest) L funcs_ndx =
        rc_parse_condition_operand1 env { slot with current_hits := 0, type := ty }
          (env.rc_alloc buffer ret env.sizeof_condition env.alignof_condition scratch).2
          (c :: ':' :: rest) rest L funcs_ndx := by
    intro c ty rest hmem
    fin_cases hmem <;> simp [rc_parse_condition, cur, at_]
  have hstd : ∀ memaddr : List Char, at_ memaddr 1 ≠ ':' →
      rc_parse_condition env slot ret buffer scratch memaddr L funcs_ndx =
        rc_parse_condition_operand1 env
          { slot with current_hits := 0, type := RC_CONDITION_STANDARD }
          (env.rc_alloc buffer ret env.sizeof_condition env.alignof_condition scratch).2
          memaddr memaddr L funcs_ndx := by
    intro memaddr h
    simp [rc_parse_condition, h]
  refine ⟨fun c ty rest hmem => ⟨hrole c ty rest hmem, fun cond hc => ?_⟩, ?_,
    fun memaddr h => ⟨hstd memaddr h, fun cond hc => ?_⟩⟩
  · rw [hrole c ty rest hmem] at hc
    exact (rc_parse_condition_operand1_keeps env _ cond _ _ _ L funcs_ndx hc).1
  · intro c rest h0 hc
    simp only [List.mem_cons, List.mem_singleton, List.not_mem_nil, or_false, not_or] at hc
    simp [rc_parse_condition, cur, at_, h0, hc]
  · rw [hstd memaddr h] at hc
    exact (rc_parse_condition_operand1_keeps env _ cond _ _ _ L funcs_ndx hc).1

/-- C8, instantiated: `R:1=2` is a reset-if condition whose operand1 is parsed from
`1=2`, and `x:1=2` is rejected. -/
theorem rc_parse_condition_role_witness :
    rc_parse_condition sample_env sample_condition 0 1000 0 ['R', ':', '1', '=', '2'] 0 0 =
      rc_parse_condition_operand1 sample_env
        { sample_condition with current_hits := 0, type := RC_CONDITION_RESET_IF }
        (sample_env.rc_alloc 1000 0 sample_env.sizeof_condition sample_env.alignof_condition
          0).2
        ['R', ':', '1', '=', '2'] ['1', '=', '2'] 0 0 ∧
    rc_parse_condition sample_env sample_condition 0 1000 0 ['x', ':', '1', '=', '2'] 0 0 =
      { self := none, ret := RC_INVALID_CONDITION_TYPE, memaddr := ['x', ':', '1', '=', '2'] } :=
  ⟨((rc_parse_condition_role sample_env sample_condition 0 1000 0 0 0).1 'R'
      RC_CONDITION_RESET_IF ['1', '=', '2'] (by simp)).1,
    (rc_parse_condition_role sample_env sample_condition 0 1000 0 0 0).2.1 'x' ['1', '=', '2']
      (by decide) (by decide)⟩

/-- A decimal digit character is a digit and has its own value. -/
theorem digitChar_spec (m : Nat) (h : m < 10) :
    (Nat.digitChar m).isDigit = true ∧ (Nat.digitChar m).toNat - 48 = m := by
  interval_cases m <;> decide

/-- The digit loop of `strtoul` stops at a character that is not a digit. -/
theorem strtoul_digits_stop (acc n : Nat) (s : List Char) (h : (cur s).isDigit = false) :
    strtoul_digits acc n s = (acc, n) := by
  cases s with
  | nil => rfl
  | cons c cs =>
    simp only [cur_cons] at h
    simp [strtoul_digits, h]

/-- The digit loop of `strtoul` over the decimal digits that `Nat.toDigitsCore`
writes in front of `ds`. -/
theorem strtoul_digits_toDigitsCore (fuel : Nat) :
    ∀ (n : Nat), n < fuel → ∃ pre : List Char, pre ≠ [] ∧
      (∀ ds, Nat.toDigitsCore 10 fuel n ds = pre ++ ds) ∧
      (∀ c ∈ pre, c.isDigit = true) ∧
      ∀ acc k tail, strtoul_digits acc k (pre ++ tail) =
        strtoul_digits (acc * 10 ^ pre.length + n) (k + pre.length) tail := by
  induction fuel with
  | zero => intro n h; exact absurd h (Nat.not_lt_zero n)
  | succ fuel ih =>
    intro n hn
    have hd := digitChar_spec (n % 10) (Nat.mod_lt n (by decide))
    by_cases h0 : n / 10 = 0
    · refine ⟨[Nat.digitChar (n % 10)], by simp, ?_, ?_, ?_⟩
      · intro ds
        simp [Nat.toDigitsCore, h0]
      · intro c hc
        simp only [List.mem_singleton] at hc
        rw [hc]; exact hd.1
      · intro acc k tail
        have hn10 : n % 10 = n := Nat.mod_eq_of_lt (by omega)
        simp only [List.singleton_append, strtoul_digits, hd.1, if_true, hd.2,
          List.length_singleton, pow_one]
        rw [hn10]
        rfl
    · have hlt : n / 10 < fuel := by omega
      obtain ⟨pre, hne, hpre, hdig, hscan⟩ := ih (n / 10) hlt
      refine ⟨pre ++ [Nat.digitChar (n % 10)], by simp, ?_, ?_, ?_⟩
      · intro ds
        simp [Nat.toDigitsCore, h0, hpre]
      · intro c hc
        simp only [List.mem_append, List.mem_singleton] at hc
        rcases hc with hc | hc
        · exact hdig c hc
        · rw [hc]; exact hd.1
      · intro acc k tail
        rw [List.append_assoc, hscan]
        simp only [List.singleton_append, strtoul_digits, hd.1, if_true, hd.2,
          List.length_append, List.length_singleton]
        congr 1
        · rw [pow_succ]
          have := Nat.div_add_mod n 10
          ring_nf
          ring_nf at this
          omega


/-- A digit is neither white space nor a sign. -/
theorem isDigit_not_space (c : Char) (h : c.isDigit = true) :
    isspace c = false ∧ c ≠ '-' ∧ c ≠ '+' := by
  refine ⟨?_, ?_, ?_⟩
  · simp only [isspace, Bool.or_eq_false_iff, decide_eq_false_iff_not]
    refine ⟨⟨⟨⟨⟨?_, ?_⟩, ?_⟩, ?_⟩, ?_⟩, ?_⟩ <;> (rintro rfl; revert h; decide)
  · rintro rfl; revert h; decide
  · rintro rfl; revert h; decide

/-- The function `strtoul` on a text that begins with neither white space nor a
sign. -/
theorem strtoul_plain (ulong_max : Nat) (s : List Char) (h1 : isspace (cur s) = false)
    (h2 : cur s ≠ '-') (h3 : cur s ≠ '+') :
    strtoul ulong_max s =
      if (strtoul_digits 0 0 s).2 = 0 then (0, 0)
      else if (strtoul_digits 0 0 s).1 > ulong_max then (ulong_max, (strtoul_digits 0 0 s).2)
      else ((strtoul_digits 0 0 s).1, (strtoul_digits 0 0 s).2) := by
  have hws : s.takeWhile isspace = [] := by
    cases s with
    | nil => rfl
    | cons c cs =>
      simp only [cur_cons] at h1
      simp [List.takeWhile, h1]
  simp only [strtoul, hws, List.length_nil, List.drop_zero, h2, h3, or_self, if_false,
    zero_add, decide_False, Bool.false_eq_true]

/-- The number of characters `strtoul` consumes when the text begins with a run of
digits `pre` followed by a character that is not a digit, and the value it
returns when the run denotes `n`. -/
theorem strtoul_of_digits (ulong_max n : Nat) (pre tail : List Char) (hne : pre ≠ [])
    (hdig : ∀ c ∈ pre, c.isDigit = true) (htail : (cur tail).isDigit = false)
    (hscan : ∀ acc k tl, strtoul_digits acc k (pre ++ tl) =
      strtoul_digits (acc * 10 ^ pre.length + n) (k + pre.length) tl) :
    (strtoul ulong_max (pre ++ tail)).2 = pre.length ∧
    (n ≤ ulong_max → (strtoul ulong_max (pre ++ tail)).1 = n) := by
  have hd : strtoul_digits 0 0 (pre ++ tail) = (n, pre.length) := by
    rw [hscan 0 0 tail, strtoul_digits_stop _ _ _ htail]
    simp
  have hlen : pre.length ≠ 0 := by
    intro h; exact hne (List.length_eq_zero.mp h)
  obtain ⟨c, cs, rfl⟩ := List.exists_cons_of_ne_nil hne
  have hc := isDigit_not_space c (hdig c (List.mem_cons_self c cs))
  rw [strtoul_plain ulong_max _ (by simpa [cur_cons] using hc.1)
    (by simpa [cur_cons] using hc.2.1) (by simpa [cur_cons] using hc.2.2), hd]
  simp only [hlen, if_false]
  constructor
  · split_ifs <;> rfl
  · intro hle
    simp [not_lt.mpr hle]

/-- The function `strtoul` on the decimal text of `N` followed by a character that
is not a digit: all the digits are consumed, and the value is `N` when it fits. -/
theorem strtoul_toDigits (ulong_max N : Nat) (tail : List Char)
    (htail : (cur tail).isDigit = false) :
    (strtoul ulong_max (Nat.toDigits 10 N ++ tail)).2 = (Nat.toDigits 10 N).length ∧
    (Nat.toDigits 10 N).length ≠ 0 ∧
    (N ≤ ulong_max → (strtoul ulong_max (Nat.toDigits 10 N ++ tail)).1 = N) := by
  obtain ⟨pre, hne, hpre, hdig, hscan⟩ := strtoul_digits_toDigitsCore (N + 1) N (Nat.lt_succ_self N)
  have hto : Nat.toDigits 10 N = pre := by
    simp [Nat.toDigits, hpre]
  rw [hto]
  have := strtoul_of_digits ulong_max N pre tail hne hdig htail hscan
  exact ⟨this.1, fun h => hne (List.length_eq_zero.mp h), this.2⟩

/-- C9.  After operand2 has been parsed, `rc_parse_condition` goes on with the
required hits at the text that follows operand2.  For every `N` below `2^32`
written in decimal, `(N)` and `.N.` set `required_hits` to `N` and are consumed in
full; a text that begins with neither `(` nor `.` sets it to 0 and consumes
nothing.  After `(` or `.`, the function returns no condition with
`RC_INVALID_REQUIRED_HITS` when `strtoul` finds no number (after optional white
space and an optional sign there is no digit) or the number is not followed by the
matching `)` or `.`; the mixed forms `(N.` and `.N)` and an opening character
followed by something that cannot start a number are instances.  Every condition
that `rc_parse_condition` returns has `current_hits = 0`. -/
theorem rc_parse_condition_required_hits (env : rc_env) (self : rc_condition_t) (ret : Int)
    (memaddr : List Char) (L : Nat) (funcs_ndx : Int) (hmax : 2 ^ 32 - 1 ≤ env.ulong_max) :
    (∀ aux : List Char, 0 ≤ (env.rc_parse_operand aux 1 L funcs_ndx).1 →
      rc_parse_condition_operand2 env self ret memaddr aux L funcs_ndx =
        rc_parse_condition_hits env
          { self with operand2 := (env.rc_parse_operand aux 1 L funcs_ndx).2.1 } ret memaddr
          (aux.drop (env.rc_parse_operand aux 1 L funcs_ndx).2.2)) ∧
    (∀ (N : Nat) (rest : List Char), N < 2 ^ 32 →
      rc_parse_condition_hits env self ret memaddr ('(' :: (Nat.toDigits 10 N ++ ')' :: rest)) =
        { self := some { self with required_hits := N }, ret := ret, memaddr := rest } ∧
      rc_parse_condition_hits env self ret memaddr ('.' :: (Nat.toDigits 10 N ++ '.' :: rest)) =
        { self := some { self with required_hits := N }, ret := ret, memaddr := rest }) ∧
    (∀ aux : List Char, cur aux ≠ '(' → cur aux ≠ '.' →
      rc_parse_condition_hits env self ret memaddr aux =
        { self := some { self with required_hits := 0 }, ret := ret, memaddr := aux }) ∧
    (∀ (open_ close : Char) (text : List Char),
      (open_ = '(' ∧ close = ')') ∨ (open_ = '.' ∧ close = '.') →
      (strtoul env.ulong_max text).2 = 0 ∨
        cur (text.drop (strtoul env.ulong_max text).2) ≠ close →
      rc_parse_condition_hits env self ret memaddr (open_ :: text) =
        { self := none, ret := RC_INVALID_REQUIRED_HITS, memaddr := memaddr }) ∧
    (∀ (N : Nat) (rest : List Char),
      rc_parse_condition_hits env self ret memaddr ('(' :: (Nat.toDigits 10 N ++ '.' :: rest)) =
        { self := none, ret := RC_INVALID_REQUIRED_HITS, memaddr := memaddr } ∧
      rc_parse_condition_hits env self ret memaddr ('.' :: (Nat.toDigits 10 N ++ ')' :: rest)) =
        { self := none, ret := RC_INVALID_REQUIRED_HITS, memaddr := memaddr }) ∧
    (∀ (open_ : Char) (text : List Char), open_ = '(' ∨ open_ = '.' →
      (cur text).isDigit = false → isspace (cur text) = false → cur text ≠ '-' →
      cur text ≠ '+' →
      rc_parse_condition_hits env self ret memaddr (open_ :: text) =
        { self := none, ret := RC_INVALID_REQUIRED_HITS, memaddr := memaddr }) ∧
    (∀ (slot : rc_condition_t) (ret0 : Int) (buffer scratch : Nat) (text : List Char)
      (cond : rc_condition_t),
      (rc_parse_condition env slot ret0 buffer scratch text L funcs_ndx).self = some cond →
      cond.current_hits = 0) := by
  have hfail : ∀ (open_ close : Char) (text : List Char),
      (open_ = '(' ∧ close = ')') ∨ (open_ = '.' ∧ close = '.') →
      (strtoul env.ulong_max text).2 = 0 ∨
        cur (text.drop (strtoul env.ulong_max text).2) ≠ close →
      rc_parse_condition_hits env self ret memaddr (open_ :: text) =
        { self := none, ret := RC_INVALID_REQUIRED_HITS, memaddr := memaddr } := by
    rintro open_ close text (⟨rfl, rfl⟩ | ⟨rfl, rfl⟩) h
    · simp [rc_parse_condition_hits, cur_cons, h]
    · simp [rc_parse_condition_hits, cur_cons, h]
  refine ⟨?_, ?_, ?_, hfail, ?_, ?_, ?_⟩
  · intro aux h
    simp [rc_parse_condition_operand2, not_lt.mpr h]
  · intro N rest hN
    have hN2 : N ≤ env.ulong_max := by omega
    have h1 := strtoul_toDigits env.ulong_max N (')' :: rest) (by rw [cur_cons]; decide)
    have h2 := strtoul_toDigits env.ulong_max N ('.' :: rest) (by rw [cur_cons]; decide)
    have hmod : N % UINT_MOD = N := Nat.mod_eq_of_lt hN
    constructor
    · simp [rc_parse_condition_hits, cur_cons, h1.1, h1.2.1, h1.2.2 hN2, hmod]
    · simp [rc_parse_condition_hits, cur_cons, h2.1, h2.2.1, h2.2.2 hN2, hmod]
  · intro aux h1 h2
    simp [rc_parse_condition_hits, h1, h2]
  · intro N rest
    have h1 := strtoul_toDigits env.ulong_max N ('.' :: rest) (by rw [cur_cons]; decide)
    have h2 := strtoul_toDigits env.ulong_max N (')' :: rest) (by rw [cur_cons]; decide)
    exact ⟨hfail '(' ')' _ (Or.inl ⟨rfl, rfl⟩) (Or.inr (by simp [h1.1, cur_cons])),
      hfail '.' '.' _ (Or.inr ⟨rfl, rfl⟩) (Or.inr (by simp [h2.1, cur_cons]))⟩
  · intro open_ text ho hd hs hm hp
    have h0 : (strtoul env.ulong_max text).2 = 0 := by
      rw [strtoul_plain env.ulong_max text hs hm hp, strtoul_digits_stop 0 0 text hd]
      simp
    rcases ho with rfl | rfl
    · exact hfail '(' ')' text (Or.inl ⟨rfl, rfl⟩) (Or.inl h0)
    · exact hfail '.' '.' text (Or.inr ⟨rfl, rfl⟩) (Or.inl h0)
  · intro slot ret0 buffer scratch text cond h
    simp only [rc_parse_condition] at h
    split_ifs at h <;>
      exact (rc_parse_condition_operand1_keeps env _ cond _ _ _ L funcs_ndx h).2

/-- C9, instantiated: `(25)_` and `.25._` set 25 required hits and leave `_`. -/
theorem rc_parse_condition_required_hits_witness :
    2 ^ 32 - 1 ≤ sample_env.ulong_max ∧
    rc_parse_condition_hits sample_env sample_condition 64 []
        ('(' :: (Nat.toDigits 10 25 ++ ')' :: ['_'])) =
      { self := some { sample_condition with required_hits := 25 }, ret := 64,
        memaddr := ['_'] } ∧
    rc_parse_condition_hits sample_env sample_condition 64 []
        ('.' :: (Nat.toDigits 10 25 ++ '.' :: ['_'])) =
      { self := some { sample_condition with required_hits := 25 }, ret := 64,
        memaddr := ['_'] } :=
  ⟨by decide,
    (rc_parse_condition_required_hits sample_env sample_condition 64 [] 0 0 (by decide)).2.1 25
      ['_'] (by decide)⟩

/-! ## Theorems: `rc_parse_lboard_internal`, `rc_lboard_size`, `rc_parse_lboard` -/

/-- The character `s[i]` of a text that begins with a given character. -/
theorem at_cons_zero (c : Char) (s : List Char) : at_ (c :: s) 0 = c := rfl

/-- The character `s[i+1]` is the character `i` of the tail. -/
theorem at_cons_succ (c : Char) (s : List Char) (i : Nat) : at_ (c :: s) (i + 1) = at_ s i := rfl

/-- Reading the end of the text yields NUL. -/
theorem at_nil (i : Nat) : at_ [] i = '\x00' := rfl

/-- A text whose character 3 is a colon has at least four characters. -/
theorem length_of_at_three (s : List Char) (h : at_ s 3 = ':') : 4 ≤ s.length := by
  match s, h with
  | [], h => exact absurd h (by decide)
  | [_], h => exact absurd h (by simp only [at_cons_succ, at_nil]; decide)
  | [_, _], h => exact absurd h (by simp only [at_cons_succ, at_nil]; decide)
  | [_, _, _], h => exact absurd h (by simp only [at_cons_succ, at_nil]; decide)
  | _ :: _ :: _ :: _ :: _, _ => simp

/-- A round of the loop of `rc_parse_lboard_internal` is the recognition of a tag
followed by the branch of that tag. -/
theorem rc_parse_lboard_field_eq (env : rc_env) (buffer scratch L : Nat) (funcs_ndx : Int)
    (st : rc_lboard_parse) (found : Nat) (memaddr : List Char) :
    rc_parse_lboard_field env buffer scratch L funcs_ndx st found memaddr =
      rc_parse_lboard_branch env buffer scratch L funcs_ndx st found memaddr
        (rc_lboard_tag_at memaddr) := by
  unfold rc_parse_lboard_field rc_lboard_tag_at
  simp only []
  split_ifs <;> simp only [rc_parse_lboard_branch] <;> split_ifs <;> rfl

/-- A text at whose start a tag is recognised has at least four characters. -/
theorem rc_lboard_tag_at_length (memaddr : List Char) (t : lboard_tag)
    (h : rc_lboard_tag_at memaddr = some t) : 4 ≤ memaddr.length := by
  unfold rc_lboard_tag_at at h
  split_ifs at h with h1 h2 h3 h4 h5
  · exact length_of_at_three memaddr h1.2.2.2
  · exact length_of_at_three memaddr h2.2.2.2
  · exact length_of_at_three memaddr h3.2.2.2
  · exact length_of_at_three memaddr h4.2.2.2
  · exact length_of_at_three memaddr h5.2.2.2

/-- The tag of a field is recognised at the start of its text, in either case of
its letters. -/
theorem rc_lboard_tag_at_text (f : lboard_field) (rest : List Char) :
    rc_lboard_tag_at (f.text ++ rest) = some f.tag := by
  obtain ⟨tag, u1, u2, u3, body⟩ := f
  cases tag <;> cases u1 <;> cases u2 <;> cases u3 <;> rfl

/-- A round of the loop that ends the function ends it with a negative `*ret`. -/
theorem rc_parse_lboard_field_error (env : rc_env) (buffer scratch L : Nat) (funcs_ndx : Int)
    (st e : rc_lboard_parse) (found : Nat) (memaddr : List Char)
    (h : rc_parse_lboard_field env buffer scratch L funcs_ndx st found memaddr = .error e) :
    e.ret < 0 := by
  rw [rc_parse_lboard_field_eq] at h
  generalize rc_lboard_tag_at memaddr = tg at h
  rcases tg with _ | t
  · simp only [rc_parse_lboard_branch, Except.error.injEq] at h
    subst h
    show RC_INVALID_LBOARD_FIELD < 0
    decide
  · cases t <;> simp only [rc_parse_lboard_branch] at h <;> split_ifs at h <;>
      simp only [Except.error.injEq, reduceCtorEq] at h <;> subst h <;>
      first
        | assumption
        | (show RC_DUPLICATED_START < 0; decide)
        | (show RC_DUPLICATED_CANCEL < 0; decide)
        | (show RC_DUPLICATED_SUBMIT < 0; decide)
        | (show RC_DUPLICATED_VALUE < 0; decide)
        | (show RC_DUPLICATED_PROGRESS < 0; decide)

/-- A round of the loop that goes on has consumed at least the four characters of
a tag. -/
theorem rc_parse_lboard_field_length (env : rc_env) (buffer scratch L : Nat) (funcs_ndx : Int)
    (st st2 : rc_lboard_parse) (found found2 : Nat) (memaddr memaddr2 : List Char)
    (h : rc_parse_lboard_field env buffer scratch L funcs_ndx st found memaddr
      = .ok (st2, found2, memaddr2)) :
    memaddr2.length + 4 ≤ memaddr.length := by
  rw [rc_parse_lboard_field_eq] at h
  rcases htag : rc_lboard_tag_at memaddr with _ | t
  · rw [htag] at h
    simp only [rc_parse_lboard_branch, reduceCtorEq] at h
  · have hlen := rc_lboard_tag_at_length memaddr t htag
    rw [htag] at h
    cases t <;> simp only [rc_parse_lboard_branch] at h <;> split_ifs at h <;>
      simp only [Except.ok.injEq, Prod.mk.injEq, reduceCtorEq] at h <;>
      (obtain ⟨_, _, rfl⟩ := h; simp only [List.length_drop]; omega)

/-- The loop of `rc_parse_lboard_internal` ends within one round per character. -/
theorem rc_parse_lboard_loop_total (env : rc_env) (buffer scratch L : Nat) (funcs_ndx : Int)
    (fuel : Nat) : ∀ (st : rc_lboard_parse) (found : Nat) (memaddr : List Char),
      memaddr.length < fuel →
      ∃ r, rc_parse_lboard_loop env buffer scratch L funcs_ndx fuel st found memaddr = some r := by
  induction fuel with
  | zero => intro _ _ memaddr h; exact absurd h (Nat.not_lt_zero _)
  | succ fuel ih =>
    intro st found memaddr hlen
    rw [rc_parse_lboard_loop]
    rcases hf : rc_parse_lboard_field env buffer scratch L funcs_ndx st found memaddr with
      e | ⟨st2, found2, memaddr2⟩
    · exact ⟨e, rfl⟩
    · have hl := rc_parse_lboard_field_length env buffer scratch L funcs_ndx st st2 found found2
        memaddr memaddr2 hf
      simp only []
      split_ifs
      · exact ⟨_, rfl⟩
      · exact ih st2 found2 (memaddr2.drop 2) (by simp only [List.length_drop]; omega)

/-- An allocator that measures and places does not move the offset backwards,
with or without a buffer. -/
theorem rc_alloc_offset_le (env : rc_env) (hm : rc_alloc_measures env)
    (hp : rc_alloc_places env) (pointer scratch : Nat) (offset size alignment : Int)
    (hoff : 0 ≤ offset) (hsize : 0 ≤ size) (hal : 0 < alignment) :
    offset ≤ (env.rc_alloc pointer offset size alignment scratch).2 := by
  have h := hp 1 scratch offset size alignment (by decide) hoff hsize hal
  rw [hm pointer scratch 1 scratch]
  linarith [h.1, h.2]

/-- The sample allocator measures. -/
theorem sample_alloc_measures : rc_alloc_measures sample_env :=
  fun _ _ _ _ _ _ _ => rfl

/-- The sample allocator places. -/
theorem sample_alloc_places : rc_alloc_places sample_env := by
  intro buffer scratch offset size alignment hbuf hoff _ hal
  have h1 := Int.emod_add_ediv (offset + alignment - 1) alignment
  have h2 := Int.emod_lt_of_pos (offset + alignment - 1) hal
  have h3 : (offset + alignment - 1) / alignment * alignment
      = alignment * ((offset + alignment - 1) / alignment) := Int.mul_comm _ _
  have h4 : offset ≤ (offset + alignment - 1) / alignment * alignment := by
    rw [h3]; linarith
  have h5 : (((offset + alignment - 1) / alignment * alignment).toNat : Int) =
      (offset + alignment - 1) / alignment * alignment := Int.toNat_of_nonneg (le_trans hoff h4)
  simp only [sample_env, sample_alloc, hbuf, ne_eq, not_false_eq_true, if_true, Nat.cast_add,
    h5]
  constructor <;> linarith

/-- A round of the loop on a field whose tag has not been seen and whose body
parses in full: the tag is recorded, the body consumed, no error reported. -/
theorem rc_parse_lboard_field_ok (env : rc_env) (buffer scratch L : Nat) (funcs_ndx : Int)
    (st : rc_lboard_parse) (found : Nat) (f : lboard_field) (rest : List Char)
    (hrest : rest = [] ∨ ∃ r, rest = ':' :: ':' :: r)
    (hok : lboard_body_ok env buffer scratch L funcs_ndx f)
    (hfound : found &&& f.tag.flag = 0) (hret : 0 ≤ st.ret)
    (hm : rc_alloc_measures env) (hp : rc_alloc_places env)
    (hsz : 0 ≤ env.sizeof_value) (hal : 0 < env.alignof_value) :
    ∃ st2, rc_parse_lboard_field env buffer scratch L funcs_ndx st found (f.text ++ rest)
      = .ok (st2, found ||| f.tag.flag, rest) ∧ 0 ≤ st2.ret := by
  have hret2 : 0 ≤ (env.rc_alloc buffer st.ret env.sizeof_value env.alignof_value scratch).2 :=
    le_trans hret (rc_alloc_offset_le env hm hp buffer scratch st.ret _ _ hret hsz hal)
  have h1 := hok st.ret rest hret hrest
  have h2 := hok _ rest hret2 hrest
  have hdrop : (f.text ++ rest).drop 4 = f.body ++ rest := rfl
  rw [rc_parse_lboard_field_eq, rc_lboard_tag_at_text]
  obtain ⟨tag, u1, u2, u3, body⟩ := f
  cases tag <;>
    simp only [lboard_tag.flag] at hfound <;>
    simp only [reduceCtorEq, or_self, or_true, true_or, if_true, if_false] at h1 h2 <;>
    simp only [rc_parse_lboard_branch, hdrop, hfound, ne_eq, not_true_eq_false, if_false,
      not_lt.mpr h1.1, not_lt.mpr h2.1, h1.2, h2.2, List.drop_left, lboard_tag.flag] <;>
    first
      | exact ⟨_, rfl, h1.1⟩
      | exact ⟨_, rfl, h2.1⟩

/-- Recording a tag in `found`: the value stays below 32, the bit of the tag is
set, set bits stay set, and the bit of another tag stays clear. -/
theorem lboard_found_step (found : Nat) (h : found < 32) (t t2 : lboard_tag) :
    found ||| t.flag < 32 ∧ (found ||| t.flag) &&& t.flag ≠ 0 ∧
    (found &&& t2.flag ≠ 0 → (found ||| t.flag) &&& t2.flag ≠ 0) ∧
    (t ≠ t2 → found &&& t2.flag = 0 → (found ||| t.flag) &&& t2.flag = 0) := by
  revert found
  cases t <;> cases t2 <;> decide

/-- With the bits of the four required tags set, `found` is complete. -/
theorem lboard_found_complete (found : Nat) (h : found < 32)
    (h1 : found &&& lboard_tag.STA.flag ≠ 0) (h2 : found &&& lboard_tag.CAN.flag ≠ 0)
    (h3 : found &&& lboard_tag.SUB.flag ≠ 0) (h4 : found &&& lboard_tag.VAL.flag ≠ 0) :
    found &&& RC_LBOARD_COMPLETE = RC_LBOARD_COMPLETE := by
  revert found
  decide

/-- The loop of `rc_parse_lboard_internal` on a text made of fields whose tags
are distinct and new, whose bodies parse in full, and which together with the
tags already seen cover the four required ones: it ends without error and clears
both flags. -/
theorem rc_parse_lboard_loop_fields (env : rc_env) (buffer scratch L : Nat) (funcs_ndx : Int)
    (hm : rc_alloc_measures env) (hp : rc_alloc_places env)
    (hsz : 0 ≤ env.sizeof_value) (hal : 0 < env.alignof_value) :
    ∀ (fields : List lboard_field) (seen : List lboard_tag) (fuel : Nat) (st : rc_lboard_parse)
      (found : Nat),
      fields ≠ [] → (lboard_text fields).length < fuel → 0 ≤ st.ret → found < 32 →
      (∀ t ∈ seen, found &&& t.flag ≠ 0) →
      (∀ f ∈ fields, found &&& f.tag.flag = 0) →
      (fields.map (fun f => f.tag)).Nodup →
      (∀ f ∈ fields, lboard_body_ok env buffer scratch L funcs_ndx f) →
      (∀ t ∈ [lboard_tag.STA, lboard_tag.CAN, lboard_tag.SUB, lboard_tag.VAL],
        t ∈ seen ∨ t ∈ fields.map (fun f => f.tag)) →
      ∃ r, rc_parse_lboard_loop env buffer scratch L funcs_ndx fuel st found (lboard_text fields)
          = some r ∧ 0 ≤ r.ret ∧ r.self.started = 0 ∧ r.self.submitted = 0 := by
  intro fields
  induction fields with
  | nil => intro _ _ _ _ h; exact absurd rfl h
  | cons f fs ih =>
    intro seen fuel st found _ hfuel hret hfound hseen hnew hnodup hok hcover
    cases fuel with
    | zero => exact absurd hfuel (Nat.not_lt_zero _)
    | succ fuel =>
      have hstep := lboard_found_step found hfound f.tag
      cases fs with
      | nil =>
        obtain ⟨st2, hf, hst2⟩ := rc_parse_lboard_field_ok env buffer scratch L funcs_ndx st found
          f [] (Or.inl rfl) (hok f (List.mem_singleton.mpr rfl))
          (hnew f (List.mem_singleton.mpr rfl)) hret hm hp hsz hal
        have hall : ∀ t ∈ [lboard_tag.STA, lboard_tag.CAN, lboard_tag.SUB, lboard_tag.VAL],
            (found ||| f.tag.flag) &&& t.flag ≠ 0 := by
          intro t ht
          rcases hcover t ht with h | h
          · exact (hstep t).2.2.1 (hseen t h)
          · simp only [List.map_cons, List.map_nil, List.mem_singleton] at h
            rw [h]; exact (hstep t).2.1
        have hcomp := lboard_found_complete _ (hstep f.tag).1
          (hall _ (by simp)) (hall _ (by simp)) (hall _ (by simp)) (hall _ (by simp))
        simp only [lboard_text, List.append_nil] at hf ⊢
        refine ⟨rc_parse_lboard_finish st2 (found ||| f.tag.flag), ?_, ?_⟩
        · simp [rc_parse_lboard_loop, hf, at_nil]
        · simp [rc_parse_lboard_finish, hcomp, hst2]
      | cons g gs =>
        obtain ⟨st2, hf, hst2⟩ := rc_parse_lboard_field_ok env buffer scratch L funcs_ndx st found
          f (':' :: ':' :: lboard_text (g :: gs)) (Or.inr ⟨_, rfl⟩)
          (hok f (List.mem_cons_self _ _)) (hnew f (List.mem_cons_self _ _)) hret hm hp hsz hal
        have hnd := List.nodup_cons.mp hnodup
        have hrec := ih (f.tag :: seen) fuel st2 (found ||| f.tag.flag) (by simp)
          (by
            simp only [lboard_text, List.length_append, List.length_cons] at hfuel
            omega)
          hst2 (hstep f.tag).1
          (by
            intro t ht
            rcases List.mem_cons.mp ht with h | h
            · rw [h]; exact (hstep f.tag).2.1
            · exact (hstep t).2.2.1 (hseen t h))
          (by
            intro f2 hf2
            refine (hstep f2.tag).2.2.2 ?_ (hnew f2 (List.mem_cons_of_mem _ hf2))
            intro heq
            have hm : f2.tag ∈ List.map (fun f => f.tag) (g :: gs) :=
              List.mem_map_of_mem (fun f => f.tag) hf2
            rw [← heq] at hm
            exact hnd.1 hm)
          hnd.2 (fun f2 hf2 => hok f2 (List.mem_cons_of_mem _ hf2))
          (by
            intro t ht
            rcases hcover t ht with h | h
            · exact Or.inl (List.mem_cons_of_mem _ h)
            · rcases List.mem_cons.mp h with h | h
              · exact Or.inl (h ▸ List.mem_cons_self _ _)
              · exact Or.inr h)
        obtain ⟨r, hr, hr2⟩ := hrec
        refine ⟨r, ?_, hr2⟩
        simp only [lboard_text] at hf ⊢
        simp [rc_parse_lboard_loop, hf, at_cons_zero, at_cons_succ, hr]

/-- C10.  Take the fields STA, CAN, SUB and VAL, with or without PRO, in any
order, each once, each tag letter in upper or lower case, joined by `::`, with
bodies that the trigger and value parsers accept in full.  On this text
`rc_parse_lboard_internal`, entered with a non-negative `*ret` and an allocator
that does not move the offset backwards, returns, reports no error (`*ret` stays
non-negative) and leaves `started = submitted = 0`. -/
theorem rc_parse_lboard_internal_any_order (env : rc_env) (self : rc_lboard_t) (ret : Int)
    (buffer scratch : Nat) (L : Nat) (funcs_ndx : Int) (fields : List lboard_field)
    (hret : 0 ≤ ret) (hm : rc_alloc_measures env) (hp : rc_alloc_places env)
    (hsz : 0 ≤ env.sizeof_value) (hal : 0 < env.alignof_value)
    (hperm : (fields.map (fun f => f.tag)).Perm
        [lboard_tag.STA, lboard_tag.CAN, lboard_tag.SUB, lboard_tag.VAL] ∨
      (fields.map (fun f => f.tag)).Perm
        [lboard_tag.STA, lboard_tag.CAN, lboard_tag.SUB, lboard_tag.VAL, lboard_tag.PRO])
    (hok : ∀ f ∈ fields, lboard_body_ok env buffer scratch L funcs_ndx f) :
    ∃ r, rc_parse_lboard_internal env self ret buffer scratch (lboard_text fields) L funcs_ndx
        = some r ∧ 0 ≤ r.ret ∧ r.self.started = 0 ∧ r.self.submitted = 0 := by
  have hne : fields ≠ [] := by
    rintro rfl
    rcases hperm with h | h <;> simpa using h.length_eq
  have hnodup : (fields.map (fun f => f.tag)).Nodup := by
    rcases hperm with h | h <;> exact h.nodup_iff.mpr (by decide)
  have hcover : ∀ t ∈ [lboard_tag.STA, lboard_tag.CAN, lboard_tag.SUB, lboard_tag.VAL],
      t ∈ ([] : List lboard_tag) ∨ t ∈ fields.map (fun f => f.tag) := by
    intro t ht
    right
    rcases hperm with h | h
    · exact h.mem_iff.mpr ht
    · exact h.mem_iff.mpr (List.mem_append_left [lboard_tag.PRO] ht)
  exact rc_parse_lboard_loop_fields env buffer scratch L funcs_ndx hm hp hsz hal fields []
    ((lboard_text fields).length + 1) _ 0 hne (Nat.lt_succ_self _) hret (by decide)
    (fun t ht => absurd ht (List.not_mem_nil t)) (fun f _ => Nat.zero_and _) hnodup hok hcover

/-- In the sample environment a body without a colon parses in full. -/
theorem sample_body_ok (buffer scratch L : Nat) (funcs_ndx : Int) (f : lboard_field)
    (h : ':' ∉ f.body) : lboard_body_ok sample_env buffer scratch L funcs_ndx f := by
  have hb : ∀ rest : List Char, (rest = [] ∨ ∃ r, rest = ':' :: ':' :: r) →
      sample_body (f.body ++ rest) = f.body.length := by
    intro rest hrest
    have htw : ∀ (b : List Char), ':' ∉ b →
        (b ++ rest).takeWhile (fun c => c != ':') = b := by
      intro b
      induction b with
      | nil =>
        intro _
        rcases hrest with rfl | ⟨r, rfl⟩ <;> simp [List.takeWhile]
      | cons c cs ih =>
        intro hc
        simp only [List.mem_cons, not_or] at hc
        have hne : (c != ':') = true := by simpa using fun h => hc.1 h.symm
        simp [List.takeWhile, hne, ih hc.2]
    simp [sample_body, htw f.body h]
  intro ret rest hret hrest
  split_ifs <;> exact ⟨by simp only [sample_env]; omega, hb rest hrest⟩

/-- C10, instantiated: the sample definition `val:7::Sub:2=2::PRO:9::STA:0=1::cAn:3=3`
parses without error and with both flags clear. -/
theorem rc_parse_lboard_internal_any_order_witness :
    (rc_parse_lboard_internal sample_env sample_slot 64 1000 0 (lboard_text sample_fields) 0
      0).map (fun r => (decide (0 ≤ r.ret), r.self.started, r.self.submitted))
      = some (true, 0, 0) := by
  obtain ⟨r, h1, h2, h3, h4⟩ := rc_parse_lboard_internal_any_order sample_env sample_slot 64
    1000 0 0 0 sample_fields (by decide) sample_alloc_measures sample_alloc_places (by decide)
    (by decide) (Or.inr (by decide))
    (fun f hf => sample_body_ok 1000 0 0 0 f (by
      simp only [sample_fields, List.mem_cons, List.mem_singleton, List.not_mem_nil,
        or_false] at hf
      rcases hf with rfl | rfl | rfl | rfl | rfl <;> decide))
  rw [h1]
  simp [h2, h3, h4]

/-- A round of the loop in the measuring pass and in the placing pass: when the
allocator measures and the sub-parsers agree on offsets and consumption, the two
rounds agree. -/
theorem rc_parse_lboard_field_pass (env : rc_env) (scratch1 buffer L : Nat) (funcs_ndx : Int)
    (hT : ∀ ret m, (env.rc_parse_trigger_internal ret 0 scratch1 m 0 0).2 =
      (env.rc_parse_trigger_internal ret buffer 0 m L funcs_ndx).2)
    (hV : ∀ ret m, (env.rc_parse_value_internal ret 0 scratch1 m 0 0).2 =
      (env.rc_parse_value_internal ret buffer 0 m L funcs_ndx).2)
    (hm : rc_alloc_measures env)
    (st1 st2 : rc_lboard_parse) (found : Nat) (memaddr : List Char) (hret : st1.ret = st2.ret) :
    rc_parse_lboard_field_view (rc_parse_lboard_field env 0 scratch1 0 0 st1 found memaddr) =
    rc_parse_lboard_field_view
      (rc_parse_lboard_field env buffer 0 L funcs_ndx st2 found memaddr) := by
  have hT1 : ∀ ret m, (env.rc_parse_trigger_internal ret 0 scratch1 m 0 0).2.1 =
      (env.rc_parse_trigger_internal ret buffer 0 m L funcs_ndx).2.1 :=
    fun ret m => congrArg Prod.fst (hT ret m)
  have hT2 : ∀ ret m, (env.rc_parse_trigger_internal ret 0 scratch1 m 0 0).2.2 =
      (env.rc_parse_trigger_internal ret buffer 0 m L funcs_ndx).2.2 :=
    fun ret m => congrArg Prod.snd (hT ret m)
  have hV1 : ∀ ret m, (env.rc_parse_value_internal ret 0 scratch1 m 0 0).2.1 =
      (env.rc_parse_value_internal ret buffer 0 m L funcs_ndx).2.1 :=
    fun ret m => congrArg Prod.fst (hV ret m)
  have hV2 : ∀ ret m, (env.rc_parse_value_internal ret 0 scratch1 m 0 0).2.2 =
      (env.rc_parse_value_internal ret buffer 0 m L funcs_ndx).2.2 :=
    fun ret m => congrArg Prod.snd (hV ret m)
  have ha : (env.rc_alloc 0 st2.ret env.sizeof_value env.alignof_value scratch1).2 =
      (env.rc_alloc buffer st2.ret env.sizeof_value env.alignof_value 0).2 := hm _ _ _ _ _ _ _
  rw [rc_parse_lboard_field_eq, rc_parse_lboard_field_eq]
  generalize rc_lboard_tag_at memaddr = tg
  rcases tg with _ | t
  · simp only [rc_parse_lboard_branch, rc_parse_lboard_field_view]
  · cases t <;> simp only [rc_parse_lboard_branch, hret, hT1, hT2, hV1, hV2, ha] <;>
      split_ifs <;> simp only [rc_parse_lboard_field_view]

/-- The end of `rc_parse_lboard_internal` changes `*ret` in the same way in both
passes. -/
theorem rc_parse_lboard_finish_pass (st1 st2 : rc_lboard_parse) (found : Nat)
    (hret : st1.ret = st2.ret) :
    (rc_parse_lboard_finish st1 found).ret = (rc_parse_lboard_finish st2 found).ret := by
  simp only [rc_parse_lboard_finish]
  split_ifs <;> simp [hret]

/-- The loop of `rc_parse_lboard_internal` in the measuring pass and in the
placing pass ends with the same `*ret`. -/
theorem rc_parse_lboard_loop_pass (env : rc_env) (scratch1 buffer L : Nat) (funcs_ndx : Int)
    (hT : ∀ ret m, (env.rc_parse_trigger_internal ret 0 scratch1 m 0 0).2 =
      (env.rc_parse_trigger_internal ret buffer 0 m L funcs_ndx).2)
    (hV : ∀ ret m, (env.rc_parse_value_internal ret 0 scratch1 m 0 0).2 =
      (env.rc_parse_value_internal ret buffer 0 m L funcs_ndx).2)
    (hm : rc_alloc_measures env)
    (fuel : Nat) : ∀ (st1 st2 : rc_lboard_parse) (found : Nat) (memaddr : List Char),
      st1.ret = st2.ret →
      (rc_parse_lboard_loop env 0 scratch1 0 0 fuel st1 found memaddr).map (fun r => r.ret) =
      (rc_parse_lboard_loop env buffer 0 L funcs_ndx fuel st2 found memaddr).map
        (fun r => r.ret) := by
  induction fuel with
  | zero => intro _ _ _ _ _; rfl
  | succ fuel ih =>
    intro st1 st2 found memaddr hret
    have hf := rc_parse_lboard_field_pass env scratch1 buffer L funcs_ndx hT hV hm st1 st2
      found memaddr hret
    rw [rc_parse_lboard_loop, rc_parse_lboard_loop]
    rcases h1 : rc_parse_lboard_field env 0 scratch1 0 0 st1 found memaddr with
      e1 | ⟨a1, f1, m1⟩ <;>
    rcases h2 : rc_parse_lboard_field env buffer 0 L funcs_ndx st2 found memaddr with
      e2 | ⟨a2, f2, m2⟩ <;>
    rw [h1, h2] at hf <;>
    simp only [rc_parse_lboard_field_view, Except.error.injEq, Except.ok.injEq, Prod.mk.injEq,
      reduceCtorEq] at hf
    · simp [hf]
    · obtain ⟨hr, rfl, rfl⟩ := hf
      simp only []
      split_ifs
      · simp [rc_parse_lboard_finish_pass a1 a2 f1 hr]
      · exact ih a1 a2 f1 _ hr

/-- A round of the loop in the placing pass that goes on: `*ret` does not
decrease, and a progress value placed so far lies between the lower bound `lo` and
the running offset. -/
theorem rc_parse_lboard_field_extent (env : rc_env) (buffer scratch L : Nat) (funcs_ndx : Int)
    (hbuf : buffer ≠ 0) (hm : rc_alloc_measures env) (hp : rc_alloc_places env)
    (hsz : 0 ≤ env.sizeof_value) (hal : 0 < env.alignof_value)
    (hmT : ∀ ret m, 0 ≤ (env.rc_parse_trigger_internal ret buffer scratch m L funcs_ndx).2.1 →
      ret ≤ (env.rc_parse_trigger_internal ret buffer scratch m L funcs_ndx).2.1)
    (hmV : ∀ ret m, 0 ≤ (env.rc_parse_value_internal ret buffer scratch m L funcs_ndx).2.1 →
      ret ≤ (env.rc_parse_value_internal ret buffer scratch m L funcs_ndx).2.1)
    (st st2 : rc_lboard_parse) (found found2 : Nat) (memaddr memaddr2 : List Char)
    (h : rc_parse_lboard_field env buffer scratch L funcs_ndx st found memaddr
      = .ok (st2, found2, memaddr2))
    (hret : 0 ≤ st.ret) (lo : Int) (hlo : lo ≤ st.ret)
    (hin : st.self.progress ≠ none → (buffer : Int) + lo ≤ st.progress_ptr ∧
      (st.progress_ptr : Int) + env.sizeof_value ≤ buffer + st.ret) :
    st.ret ≤ st2.ret ∧
    (st2.self.progress ≠ none → (buffer : Int) + lo ≤ st2.progress_ptr ∧
      (st2.progress_ptr : Int) + env.sizeof_value ≤ buffer + st2.ret) := by
  have hpl := hp buffer scratch st.ret env.sizeof_value env.alignof_value hbuf hret hsz hal
  have hle := rc_alloc_offset_le env hm hp buffer scratch st.ret env.sizeof_value
    env.alignof_value hret hsz hal
  rw [rc_parse_lboard_field_eq] at h
  generalize rc_lboard_tag_at memaddr = tg at h
  rcases tg with _ | t
  · simp only [rc_parse_lboard_branch, reduceCtorEq] at h
  · cases t <;> simp only [rc_parse_lboard_branch] at h <;> split_ifs at h with h1 h2 <;>
      simp only [Except.ok.injEq, Prod.mk.injEq, reduceCtorEq] at h <;>
      obtain ⟨rfl, _, _⟩ := h
    · have := hmT st.ret (memaddr.drop 4) (not_lt.mp h2)
      exact ⟨this, fun hq => ⟨(hin hq).1, le_trans (hin hq).2 (by simpa using this)⟩⟩
    · have := hmT st.ret (memaddr.drop 4) (not_lt.mp h2)
      exact ⟨this, fun hq => ⟨(hin hq).1, le_trans (hin hq).2 (by simpa using this)⟩⟩
    · have := hmT st.ret (memaddr.drop 4) (not_lt.mp h2)
      exact ⟨this, fun hq => ⟨(hin hq).1, le_trans (hin hq).2 (by simpa using this)⟩⟩
    · have := hmV st.ret (memaddr.drop 4) (not_lt.mp h2)
      exact ⟨this, fun hq => ⟨(hin hq).1, le_trans (hin hq).2 (by simpa using this)⟩⟩
    · have := hmV (env.rc_alloc buffer st.ret env.sizeof_value env.alignof_value scratch).2
        (memaddr.drop 4) (not_lt.mp h2)
      simp only at this ⊢
      refine ⟨?_, fun _ => ⟨?_, ?_⟩⟩ <;> linarith [hpl.1, hpl.2]

/-- The end of `rc_parse_lboard_internal` keeps `*ret` when it reports no error,
and never moves the progress value. -/
theorem rc_parse_lboard_finish_extent (st : rc_lboard_parse) (found : Nat)
    (h : 0 ≤ (rc_parse_lboard_finish st found).ret) :
    (rc_parse_lboard_finish st found).ret = st.ret ∧
    (rc_parse_lboard_finish st found).progress_ptr = st.progress_ptr ∧
    (rc_parse_lboard_finish st found).self.progress = st.self.progress := by
  revert h
  simp only [rc_parse_lboard_finish]
  split_ifs <;> simp [RC_MISSING_START, RC_MISSING_CANCEL, RC_MISSING_SUBMIT, RC_MISSING_VALUE]

/-- The loop of `rc_parse_lboard_internal` in the placing pass, when it ends
without error: `*ret` has not decreased, and a progress value lies between the
buffer start and the final offset. -/
theorem rc_parse_lboard_loop_extent (env : rc_env) (buffer scratch L : Nat) (funcs_ndx : Int)
    (hbuf : buffer ≠ 0) (hm : rc_alloc_measures env) (hp : rc_alloc_places env)
    (hsz : 0 ≤ env.sizeof_value) (hal : 0 < env.alignof_value)
    (hmT : ∀ ret m, 0 ≤ (env.rc_parse_trigger_internal ret buffer scratch m L funcs_ndx).2.1 →
      ret ≤ (env.rc_parse_trigger_internal ret buffer scratch m L funcs_ndx).2.1)
    (hmV : ∀ ret m, 0 ≤ (env.rc_parse_value_internal ret buffer scratch m L funcs_ndx).2.1 →
      ret ≤ (env.rc_parse_value_internal ret buffer scratch m L funcs_ndx).2.1)
    (fuel : Nat) : ∀ (st r : rc_lboard_parse) (found : Nat) (memaddr : List Char),
      rc_parse_lboard_loop env buffer scratch L funcs_ndx fuel st found memaddr = some r →
      0 ≤ st.ret → 0 ≤ r.ret → ∀ lo : Int, lo ≤ st.ret →
      (st.self.progress ≠ none → (buffer : Int) + lo ≤ st.progress_ptr ∧
        (st.progress_ptr : Int) + env.sizeof_value ≤ buffer + st.ret) →
      st.ret ≤ r.ret ∧
      (r.self.progress ≠ none → (buffer : Int) + lo ≤ r.progress_ptr ∧
        (r.progress_ptr : Int) + env.sizeof_value ≤ buffer + r.ret) := by
  induction fuel with
  | zero => intro _ _ _ _ h; simp [rc_parse_lboard_loop] at h
  | succ fuel ih =>
    intro st r found memaddr h hret hr lo hlo hin
    rw [rc_parse_lboard_loop] at h
    rcases hf : rc_parse_lboard_field env buffer scratch L funcs_ndx st found memaddr with
      e | ⟨st2, found2, memaddr2⟩
    · rw [hf] at h
      simp only [Option.some.injEq] at h
      subst h
      have := rc_parse_lboard_field_error env buffer scratch L funcs_ndx st e found memaddr hf
      omega
    · rw [hf] at h
      have hext := rc_parse_lboard_field_extent env buffer scratch L funcs_ndx hbuf hm hp hsz
        hal hmT hmV st st2 found found2 memaddr memaddr2 hf hret lo hlo hin
      simp only [] at h
      split_ifs at h
      · simp only [Option.some.injEq] at h
        subst h
        have hfin := rc_parse_lboard_finish_extent st2 found2 hr
        rw [hfin.1, hfin.2.1, hfin.2.2]
        exact hext
      · have := ih st2 r found2 _ h (le_trans hret hext.1) hr lo (le_trans hlo hext.1) hext.2
        exact ⟨le_trans hext.1 this.1, this.2⟩

/-- The two passes over any sub-parsers that agree.  Let the allocator measure
and place, let the node sizes be non-negative
and the alignments positive, and let the trigger and value parsers report the same
offsets and consume the same text in the measuring pass as in the placing pass,
without moving the offset backwards.  Then for every text both `rc_lboard_size`
and `rc_parse_lboard` (with a buffer) return; the size is non-negative exactly when
the parse returns a non-null leaderboard; the size equals the final `*ret` of the
parse; and when it is non-negative, the leaderboard node, which is the pointer
returned, and the progress value if there is one lie one after the other inside
the first `size` bytes of the buffer. -/
theorem rc_lboard_passes_agree (env : rc_env) (slot1 slot2 : rc_lboard_t)
    (scratch1 scratch2 buffer : Nat) (memaddr : List Char) (L : Nat) (funcs_ndx : Int)
    (hbuf : buffer ≠ 0) (hm : rc_alloc_measures env) (hp : rc_alloc_places env)
    (hszl : 0 ≤ env.sizeof_lboard) (hall : 0 < env.alignof_lboard)
    (hsz : 0 ≤ env.sizeof_value) (hal : 0 < env.alignof_value)
    (hT : ∀ ret m, (env.rc_parse_trigger_internal ret 0 scratch1 m 0 0).2 =
      (env.rc_parse_trigger_internal ret buffer 0 m L funcs_ndx).2)
    (hV : ∀ ret m, (env.rc_parse_value_internal ret 0 scratch1 m 0 0).2 =
      (env.rc_parse_value_internal ret buffer 0 m L funcs_ndx).2)
    (hmT : ∀ ret m, 0 ≤ (env.rc_parse_trigger_internal ret buffer 0 m L funcs_ndx).2.1 →
      ret ≤ (env.rc_parse_trigger_internal ret buffer 0 m L funcs_ndx).2.1)
    (hmV : ∀ ret m, 0 ≤ (env.rc_parse_value_internal ret buffer 0 m L funcs_ndx).2.1 →
      ret ≤ (env.rc_parse_value_internal ret buffer 0 m L funcs_ndx).2.1) :
    ∃ size placed,
      rc_lboard_size env slot1 scratch1 memaddr = some size ∧
      rc_parse_lboard env slot2 scratch2 buffer memaddr L funcs_ndx = some placed ∧
      (0 ≤ size ↔ placed.result ≠ 0) ∧
      size = placed.parse.ret ∧
      (0 ≤ size →
        placed.result = placed.self_ptr ∧ (buffer : Int) ≤ placed.self_ptr ∧
        (placed.self_ptr : Int) + env.sizeof_lboard ≤ buffer + size ∧
        (placed.parse.self.progress ≠ none →
          (placed.self_ptr : Int) + env.sizeof_lboard ≤ placed.parse.progress_ptr ∧
          (placed.parse.progress_ptr : Int) + env.sizeof_value ≤ buffer + size)) := by
  have hpl := hp buffer scratch2 0 env.sizeof_lboard env.alignof_lboard hbuf (le_refl 0) hszl
    hall
  have ha1 : (env.rc_alloc 0 0 env.sizeof_lboard env.alignof_lboard scratch1).2 =
      (env.rc_alloc buffer 0 env.sizeof_lboard env.alignof_lboard scratch2).2 :=
    hm _ _ _ _ _ _ _
  have hne : (env.rc_alloc buffer 0 env.sizeof_lboard env.alignof_lboard scratch2).1 ≠ 0 := by
    intro h0
    have h1 := hpl.1
    rw [h0] at h1
    simp only [add_zero, Nat.cast_zero] at h1
    exact hbuf (by exact_mod_cast le_antisymm h1 (Int.natCast_nonneg buffer))
  have hr0 : 0 ≤ (env.rc_alloc buffer 0 env.sizeof_lboard env.alignof_lboard scratch2).2 := by
    linarith [hpl.1, hpl.2]
  obtain ⟨r2, hr2⟩ := rc_parse_lboard_loop_total env buffer 0 L funcs_ndx (memaddr.length + 1)
    { self := { slot2 with progress := none }, progress_ptr := 0,
      ret := (env.rc_alloc buffer 0 env.sizeof_lboard env.alignof_lboard scratch2).2 } 0
    memaddr (Nat.lt_succ_self _)
  obtain ⟨r1, hr1⟩ := rc_parse_lboard_loop_total env 0 scratch1 0 0 (memaddr.length + 1)
    { self := { slot1 with progress := none }, progress_ptr := 0,
      ret := (env.rc_alloc 0 0 env.sizeof_lboard env.alignof_lboard scratch1).2 } 0
    memaddr (Nat.lt_succ_self _)
  have hpass := rc_parse_lboard_loop_pass env scratch1 buffer L funcs_ndx hT hV hm
    (memaddr.length + 1)
    { self := { slot1 with progress := none }, progress_ptr := 0,
      ret := (env.rc_alloc 0 0 env.sizeof_lboard env.alignof_lboard scratch1).2 }
    { self := { slot2 with progress := none }, progress_ptr := 0,
      ret := (env.rc_alloc buffer 0 env.sizeof_lboard env.alignof_lboard scratch2).2 } 0
    memaddr ha1
  rw [hr1, hr2] at hpass
  simp only [Option.map_some', Option.some.injEq] at hpass
  refine ⟨r1.ret, rc_lboard_placed.mk
    (if r2.ret ≥ 0 then (env.rc_alloc buffer 0 env.sizeof_lboard env.alignof_lboard scratch2).1
      else 0)
    (env.rc_alloc buffer 0 env.sizeof_lboard env.alignof_lboard scratch2).1 r2,
    ?_, ?_, ?_, hpass, ?_⟩
  · simp only [rc_lboard_size, rc_parse_lboard_internal, hr1, Option.map_some']
  · simp only [rc_parse_lboard, rc_parse_lboard_internal, hr2, Option.map_some']
  · rw [hpass]
    by_cases h : 0 ≤ r2.ret <;> simp [h, hne]
  · intro hsize
    rw [hpass] at hsize ⊢
    have hext := rc_parse_lboard_loop_extent env buffer 0 L funcs_ndx hbuf hm hp hsz hal hmT
      hmV (memaddr.length + 1) _ r2 0 memaddr hr2 hr0 hsize
      (env.rc_alloc buffer 0 env.sizeof_lboard env.alignof_lboard scratch2).2 (le_refl _)
      (fun h => absurd rfl h)
    simp only [ge_iff_le, hsize, if_true, true_and]
    have h1 := hext.1
    simp only at h1
    refine ⟨by linarith [hpl.1], by linarith [hpl.2], fun hpr => ?_⟩
    have h2 := hext.2 hpr
    exact ⟨by linarith [hpl.2, h2.1], h2.2⟩

/-! ## Theorems: the measuring pass and the placing pass -/

/-- An allocator that measures leaves the same running offset after a list of
nodes, with or without a buffer. -/
theorem rc_alloc_nodes_measures (env : rc_env) (hm : rc_alloc_measures env)
    (p1 s1 p2 s2 : Nat) (nodes : List (Int × Int)) :
    ∀ ret : Int, rc_alloc_nodes env p1 s1 ret nodes = rc_alloc_nodes env p2 s2 ret nodes := by
  induction nodes with
  | nil => intro ret; rfl
  | cons n ns ih =>
    intro ret
    simp only [rc_alloc_nodes]
    rw [hm p1 s1 p2 s2, ih]

/-- An allocator that measures and places puts the nodes of a list one after the
other between the running offset before and the running offset after. -/
theorem rc_alloc_extents_in (env : rc_env) (hm : rc_alloc_measures env)
    (hp : rc_alloc_places env) (buffer scratch : Nat) (hbuf : buffer ≠ 0)
    (nodes : List (Int × Int)) :
    ∀ ret : Int, 0 ≤ ret → (∀ n ∈ nodes, 0 ≤ n.1 ∧ 0 < n.2) →
      ret ≤ rc_alloc_nodes env buffer scratch ret nodes ∧
      ∀ e ∈ rc_alloc_extents env buffer scratch ret nodes,
        (buffer : Int) + ret ≤ e.1 ∧
        (e.1 : Int) + e.2 ≤ buffer + rc_alloc_nodes env buffer scratch ret nodes := by
  induction nodes with
  | nil =>
    intro ret _ _
    exact ⟨le_refl _, fun e he => absurd he (List.not_mem_nil e)⟩
  | cons n ns ih =>
    intro ret hret hn
    have hn0 := hn n (List.mem_cons_self n ns)
    have hpl := hp buffer scratch ret n.1 n.2 hbuf hret hn0.1 hn0.2
    have hle := rc_alloc_offset_le env hm hp buffer scratch ret n.1 n.2 hret hn0.1 hn0.2
    have hrec := ih (env.rc_alloc buffer ret n.1 n.2 scratch).2 (le_trans hret hle)
      (fun m hmem => hn m (List.mem_cons_of_mem n hmem))
    simp only [rc_alloc_nodes, rc_alloc_extents, List.mem_cons]
    refine ⟨le_trans hle hrec.1, ?_⟩
    rintro e (rfl | he)
    · simp only
      constructor <;> linarith [hpl.1, hpl.2, hrec.1]
    · have := hrec.2 e he
      constructor <;> linarith [this.1, this.2]

/-- A sub-parser of the specification reports the same offset and consumes the
same text in the measuring pass as in the placing pass. -/
theorem rc_parse_internal_spec_pass {α : Type} (env : rc_env) (hm : rc_alloc_measures env)
    (logic : rc_parser_logic α) (ret : Int) (p1 s1 p2 s2 : Nat) (memaddr : List Char) (L : Nat)
    (funcs_ndx : Int) :
    (rc_parse_internal_spec env logic ret p1 s1 memaddr L funcs_ndx).2 =
      (rc_parse_internal_spec env logic ret p2 s2 memaddr L funcs_ndx).2 := by
  simp only [rc_parse_internal_spec]
  rw [rc_alloc_nodes_measures env hm p1 s1 p2 s2]

/-- A sub-parser of the specification that reports no error places its nodes
between the offset it is given and the offset it reports. -/
theorem rc_parse_internal_spec_in {α : Type} (env : rc_env) (hm : rc_alloc_measures env)
    (hp : rc_alloc_places env) (logic : rc_parser_logic α) (buffer scratch : Nat)
    (hbuf : buffer ≠ 0) (memaddr : List Char) (L : Nat) (funcs_ndx : Int)
    (hn : ∀ n ∈ (logic memaddr L funcs_ndx).nodes, 0 ≤ n.1 ∧ 0 < n.2) (ret : Int)
    (hret : 0 ≤ ret)
    (hok : ¬ (rc_parse_internal_spec env logic ret buffer scratch memaddr L funcs_ndx).2.1 < 0) :
    ret ≤ (rc_parse_internal_spec env logic ret buffer scratch memaddr L funcs_ndx).2.1 ∧
    ∀ e ∈ rc_alloc_extents env buffer scratch ret (logic memaddr L funcs_ndx).nodes,
      (buffer : Int) + ret ≤ e.1 ∧
      (e.1 : Int) + e.2 ≤
        buffer + (rc_parse_internal_spec env logic ret buffer scratch memaddr L funcs_ndx).2.1 := by
  have h := rc_alloc_extents_in env hm hp buffer scratch hbuf (logic memaddr L funcs_ndx).nodes
    ret hret hn
  simp only [rc_parse_internal_spec] at hok ⊢
  by_cases he : (logic memaddr L funcs_ndx).error < 0
  · rw [if_pos he] at hok
    exact absurd he hok
  · simp only [he, if_false]
    exact h


/-- A round of the loop in the placing pass that goes on, with the sub-parsers of
the specification: `*ret` does not decrease, and every node of the round lies
between the running offset before and the running offset after. -/
theorem rc_parse_lboard_field_nodes_in (env : rc_env)
    (trigger_logic : rc_parser_logic rc_trigger_t) (value_logic : rc_parser_logic rc_value_t)
    (buffer scratch L : Nat) (funcs_ndx : Int)
    (hbuf : buffer ≠ 0) (hm : rc_alloc_measures env) (hp : rc_alloc_places env)
    (hsz : 0 ≤ env.sizeof_value) (hal : 0 < env.alignof_value)
    (hnT : ∀ m, ∀ n ∈ (trigger_logic m L funcs_ndx).nodes, 0 ≤ n.1 ∧ 0 < n.2)
    (hnV : ∀ m, ∀ n ∈ (value_logic m L funcs_ndx).nodes, 0 ≤ n.1 ∧ 0 < n.2)
    (st st2 : rc_lboard_parse) (found found2 : Nat) (memaddr memaddr2 : List Char)
    (h : rc_parse_lboard_field (rc_env_spec env trigger_logic value_logic) buffer scratch L
      funcs_ndx st found memaddr = .ok (st2, found2, memaddr2))
    (hret : 0 ≤ st.ret) :
    st.ret ≤ st2.ret ∧
    ∀ e ∈ rc_parse_lboard_field_nodes env trigger_logic value_logic buffer scratch L funcs_ndx
        st found memaddr,
      (buffer : Int) + st.ret ≤ e.1 ∧ (e.1 : Int) + e.2 ≤ buffer + st2.ret := by
  have hT := fun ret hr hok => rc_parse_internal_spec_in env hm hp trigger_logic buffer scratch
    hbuf (memaddr.drop 4) L funcs_ndx (hnT _) ret hr hok
  have hV := fun ret hr hok => rc_parse_internal_spec_in env hm hp value_logic buffer scratch
    hbuf (memaddr.drop 4) L funcs_ndx (hnV _) ret hr hok
  have hpl := hp buffer scratch st.ret env.sizeof_value env.alignof_value hbuf hret hsz hal
  have hle := rc_alloc_offset_le env hm hp buffer scratch st.ret env.sizeof_value
    env.alignof_value hret hsz hal
  rw [rc_parse_lboard_field_eq] at h
  unfold rc_parse_lboard_field_nodes
  generalize rc_lboard_tag_at memaddr = tg at h
  rcases tg with _ | t
  · simp only [rc_parse_lboard_branch, reduceCtorEq] at h
  · cases t <;> simp only [rc_parse_lboard_branch, rc_env_spec] at h <;>
      split_ifs at h with h1 h2 <;>
      simp only [Except.ok.injEq, Prod.mk.injEq, reduceCtorEq] at h <;>
      obtain ⟨rfl, _, _⟩ := h
    · have h3 : ¬ (found &&& lboard_tag.STA.flag ≠ 0) := h1
      simp only [h3, if_false]
      exact hT st.ret hret h2
    · have h3 : ¬ (found &&& lboard_tag.CAN.flag ≠ 0) := h1
      simp only [h3, if_false]
      exact hT st.ret hret h2
    · have h3 : ¬ (found &&& lboard_tag.SUB.flag ≠ 0) := h1
      simp only [h3, if_false]
      exact hT st.ret hret h2
    · simp only [h1, if_false]
      exact hV st.ret hret h2
    · simp only [h1, if_false, List.mem_cons]
      have hv := hV (env.rc_alloc buffer st.ret env.sizeof_value env.alignof_value scratch).2
        (le_trans hret hle) h2
      refine ⟨le_trans hle hv.1, ?_⟩
      rintro e (rfl | he)
      · simp only
        constructor <;> linarith [hpl.1, hpl.2, hv.1]
      · have := hv.2 e he
        constructor <;> linarith [this.1, this.2]

/-- The loop of `rc_parse_lboard_internal` in the placing pass, with the
sub-parsers of the specification, when it ends without error: `*ret` has not
decreased, and every node of the loop lies between the running offset at the
start and the final offset. -/
theorem rc_parse_lboard_loop_nodes_in (env : rc_env)
    (trigger_logic : rc_parser_logic rc_trigger_t) (value_logic : rc_parser_logic rc_value_t)
    (buffer scratch L : Nat) (funcs_ndx : Int)
    (hbuf : buffer ≠ 0) (hm : rc_alloc_measures env) (hp : rc_alloc_places env)
    (hsz : 0 ≤ env.sizeof_value) (hal : 0 < env.alignof_value)
    (hnT : ∀ m, ∀ n ∈ (trigger_logic m L funcs_ndx).nodes, 0 ≤ n.1 ∧ 0 < n.2)
    (hnV : ∀ m, ∀ n ∈ (value_logic m L funcs_ndx).nodes, 0 ≤ n.1 ∧ 0 < n.2)
    (fuel : Nat) : ∀ (st r : rc_lboard_parse) (found : Nat) (memaddr : List Char),
      rc_parse_lboard_loop (rc_env_spec env trigger_logic value_logic) buffer scratch L
        funcs_ndx fuel st found memaddr = some r →
      0 ≤ st.ret → 0 ≤ r.ret →
      st.ret ≤ r.ret ∧
      ∀ e ∈ rc_parse_lboard_loop_nodes env trigger_logic value_logic buffer scratch L funcs_ndx
          fuel st found memaddr,
        (buffer : Int) + st.ret ≤ e.1 ∧ (e.1 : Int) + e.2 ≤ buffer + r.ret := by
  induction fuel with
  | zero => intro _ _ _ _ h; simp [rc_parse_lboard_loop] at h
  | succ fuel ih =>
    intro st r found memaddr h hret hr
    rw [rc_parse_lboard_loop] at h
    rw [rc_parse_lboard_loop_nodes]
    rcases hf : rc_parse_lboard_field (rc_env_spec env trigger_logic value_logic) buffer scratch
      L funcs_ndx st found memaddr with e | ⟨st2, found2, memaddr2⟩
    · rw [hf] at h
      simp only [Option.some.injEq] at h
      subst h
      have := rc_parse_lboard_field_error _ buffer scratch L funcs_ndx st e found memaddr hf
      omega
    · rw [hf] at h
      have hin := rc_parse_lboard_field_nodes_in env trigger_logic value_logic buffer scratch L
        funcs_ndx hbuf hm hp hsz hal hnT hnV st st2 found found2 memaddr memaddr2 hf hret
      simp only [] at h ⊢
      split_ifs at h ⊢ with hsep
      · simp only [Option.some.injEq] at h
        subst h
        have hfin := rc_parse_lboard_finish_extent st2 found2 hr
        rw [hfin.1, List.append_nil]
        exact hin
      · have hrec := ih st2 r found2 _ h (le_trans hret hin.1) hr
        refine ⟨le_trans hin.1 hrec.1, fun e he => ?_⟩
        rcases List.mem_append.mp he with he | he
        · have := hin.2 e he
          constructor <;> linarith [this.1, this.2, hrec.1]
        · have := hrec.2 e he
          constructor <;> linarith [this.1, this.2, hin.1]


/-- C6.  Take the trigger parser and the value parser as the specification
describes them (`rc_env_spec`: each runs the same logic in both passes and has
the allocator measure or place every node it builds), with any logic whose nodes
have non-negative sizes and positive alignments, and an allocator that measures
and places.  Then for every definition text `rc_lboard_size` and
`rc_parse_lboard` (with a buffer and without a Lua state, as `cheevos_parse`
calls it) both return; the size is non-negative exactly when the parse returns a
non-null leaderboard; the size equals the final `*ret` of the parse; and when it
is non-negative, the pointer returned is the leaderboard node, the progress value
if there is one follows it, and every node of the parse
(`rc_parse_lboard_nodes`: the leaderboard node, the progress value and the nodes
of every call of a sub-parser) lies inside the first `size` bytes of the
buffer. -/
theorem rc_lboard_size_agrees (env : rc_env)
    (trigger_logic : rc_parser_logic rc_trigger_t) (value_logic : rc_parser_logic rc_value_t)
    (slot1 slot2 : rc_lboard_t) (scratch1 scratch2 buffer : Nat) (memaddr : List Char)
    (hbuf : buffer ≠ 0) (hm : rc_alloc_measures env) (hp : rc_alloc_places env)
    (hszl : 0 ≤ env.sizeof_lboard) (hall : 0 < env.alignof_lboard)
    (hsz : 0 ≤ env.sizeof_value) (hal : 0 < env.alignof_value)
    (hnT : ∀ m, ∀ n ∈ (trigger_logic m 0 0).nodes, 0 ≤ n.1 ∧ 0 < n.2)
    (hnV : ∀ m, ∀ n ∈ (value_logic m 0 0).nodes, 0 ≤ n.1 ∧ 0 < n.2) :
    ∃ size placed,
      rc_lboard_size (rc_env_spec env trigger_logic value_logic) slot1 scratch1 memaddr
        = some size ∧
      rc_parse_lboard (rc_env_spec env trigger_logic value_logic) slot2 scratch2 buffer memaddr
        0 0 = some placed ∧
      (0 ≤ size ↔ placed.result ≠ 0) ∧
      size = placed.parse.ret ∧
      (0 ≤ size →
        placed.result = placed.self_ptr ∧
        (placed.parse.self.progress ≠ none →
          (placed.self_ptr : Int) + env.sizeof_lboard ≤ placed.parse.progress_ptr ∧
          (placed.parse.progress_ptr : Int) + env.sizeof_value ≤ buffer + size) ∧
        ∀ e ∈ rc_parse_lboard_nodes env trigger_logic value_logic slot2 scratch2 buffer memaddr
            0 0,
          (buffer : Int) ≤ e.1 ∧ (e.1 : Int) + e.2 ≤ buffer + size) := by
  have hmono : ∀ {α : Type} (logic : rc_parser_logic α),
      (∀ m, ∀ n ∈ (logic m 0 0).nodes, 0 ≤ n.1 ∧ 0 < n.2) → ∀ (ret : Int) (m : List Char),
      0 ≤ (rc_parse_internal_spec env logic ret buffer 0 m 0 0).2.1 →
      ret ≤ (rc_parse_internal_spec env logic ret buffer 0 m 0 0).2.1 := by
    intro α logic hn ret m h0
    by_cases hr : 0 ≤ ret
    · exact (rc_parse_internal_spec_in env hm hp logic buffer 0 hbuf m 0 0 (hn m) ret hr
        (not_lt.mpr h0)).1
    · omega
  obtain ⟨size, placed, h1, h2, h3, h4, h5⟩ := rc_lboard_passes_agree
    (rc_env_spec env trigger_logic value_logic) slot1 slot2 scratch1 scratch2 buffer memaddr 0 0
    hbuf hm hp hszl hall hsz hal
    (fun ret m => rc_parse_internal_spec_pass env hm trigger_logic ret 0 scratch1 buffer 0 m 0 0)
    (fun ret m => rc_parse_internal_spec_pass env hm value_logic ret 0 scratch1 buffer 0 m 0 0)
    (hmono trigger_logic hnT) (hmono value_logic hnV)
  refine ⟨size, placed, h1, h2, h3, h4, fun hsize => ?_⟩
  obtain ⟨h6, h7, h8, h9⟩ := h5 hsize
  refine ⟨h6, h9, ?_⟩
  have hpl := hp buffer scratch2 0 env.sizeof_lboard env.alignof_lboard hbuf (le_refl 0) hszl
    hall
  have hr0 : 0 ≤ (env.rc_alloc buffer 0 env.sizeof_lboard env.alignof_lboard scratch2).2 := by
    linarith [hpl.1, hpl.2]
  simp only [rc_parse_lboard, rc_parse_lboard_internal, Option.map_eq_some'] at h2
  obtain ⟨r2, hr2, rfl⟩ := h2
  simp only [rc_env_spec] at h4 h7 h8 hr2
  have hloop := rc_parse_lboard_loop_nodes_in env trigger_logic value_logic buffer 0 0 0 hbuf hm
    hp hsz hal hnT hnV (memaddr.length + 1)
    { self := { slot2 with progress := none }, progress_ptr := 0,
      ret := (env.rc_alloc buffer 0 env.sizeof_lboard env.alignof_lboard scratch2).2 }
    r2 0 memaddr hr2 hr0 (by rw [← h4]; exact hsize)
  simp only [rc_parse_lboard_nodes, List.mem_cons]
  rintro e (rfl | he)
  · simp only
    exact ⟨h7, h8⟩
  · have := hloop.2 e he
    simp only at this
    rw [h4]
    constructor <;> linarith [this.1, this.2, hr0]


/-- C6, instantiated: in the sample environment with the sample logics the
definition `val:7::Sub:2=2::PRO:9::STA:0=1::cAn:3=3` measures 376 bytes, its
parse into a buffer at address 1000 returns the leaderboard at 1000 and ends at
offset 376, and its twelve nodes fill the buffer from 1000 to 1376. -/
theorem rc_lboard_size_agrees_witness :
    rc_lboard_size (rc_env_spec sample_env sample_trigger_logic sample_value_logic) sample_slot
      77 (lboard_text sample_fields) = some 376 ∧
    (rc_parse_lboard (rc_env_spec sample_env sample_trigger_logic sample_value_logic)
      sample_slot 78 1000 (lboard_text sample_fields) 0 0).map
        (fun placed => (placed.result, placed.parse.ret)) = some (1000, 376) ∧
    rc_parse_lboard_nodes sample_env sample_trigger_logic sample_value_logic sample_slot 78 1000
      (lboard_text sample_fields) 0 0 =
      [(1000, 64), (1064, 8), (1072, 24), (1096, 16), (1112, 64), (1176, 8), (1184, 8),
        (1192, 24), (1216, 16), (1232, 64), (1296, 16), (1312, 64)] ∧
    ∃ size placed,
      rc_lboard_size (rc_env_spec sample_env sample_trigger_logic sample_value_logic)
        sample_slot 77 (lboard_text sample_fields) = some size ∧
      rc_parse_lboard (rc_env_spec sample_env sample_trigger_logic sample_value_logic)
        sample_slot 78 1000 (lboard_text sample_fields) 0 0 = some placed ∧
      (0 ≤ size ↔ placed.result ≠ 0) ∧
      size = placed.parse.ret ∧
      (0 ≤ size →
        placed.result = placed.self_ptr ∧
        (placed.parse.self.progress ≠ none →
          (placed.self_ptr : Int) + sample_env.sizeof_lboard ≤ placed.parse.progress_ptr ∧
          (placed.parse.progress_ptr : Int) + sample_env.sizeof_value ≤ (1000 : Nat) + size) ∧
        ∀ e ∈ rc_parse_lboard_nodes sample_env sample_trigger_logic sample_value_logic
            sample_slot 78 1000 (lboard_text sample_fields) 0 0,
          ((1000 : Nat) : Int) ≤ e.1 ∧ (e.1 : Int) + e.2 ≤ (1000 : Nat) + size) :=
  ⟨by decide, by decide, by decide,
    rc_lboard_size_agrees sample_env sample_trigger_logic sample_value_logic sample_slot
      sample_slot 77 78 1000 (lboard_text sample_fields) (by decide) sample_alloc_measures
      sample_alloc_places (by decide) (by decide) (by decide) (by decide)
      (fun _ n hn => by
        simp only [sample_trigger_logic, List.mem_cons, List.mem_singleton, List.not_mem_nil,
          or_false] at hn
        rcases hn with rfl | rfl <;> decide)
      (fun _ n hn => by
        simp only [sample_value_logic, List.mem_cons, List.mem_singleton, List.not_mem_nil,
          or_false] at hn
        rcases hn with rfl | rfl <;> decide)⟩

/-- The parser below the leaderboard whose code is at hand runs the same in both
passes: with an allocator that measures, `rc_parse_condition` writes the same
condition, reports the same `*ret` and consumes the same text with or without a
buffer. -/
theorem rc_parse_condition_pass (env : rc_env) (hm : rc_alloc_measures env)
    (slot : rc_condition_t) (ret : Int) (p1 s1 p2 s2 : Nat) (memaddr : List Char) (L : Nat)
    (funcs_ndx : Int) :
    rc_parse_condition env slot ret p1 s1 memaddr L funcs_ndx =
      rc_parse_condition env slot ret p2 s2 memaddr L funcs_ndx := by
  unfold rc_parse_condition
  rw [hm p1 s1 p2 s2]

/-! ## Theorems: errors of `rc_parse_lboard_internal` -/

/-- The loop of `rc_parse_lboard_internal` gives the same result for every bound
on the number of rounds that exceeds the length of the text. -/
theorem rc_parse_lboard_loop_fuel (env : rc_env) (buffer scratch L : Nat) (funcs_ndx : Int)
    (fuel1 : Nat) : ∀ (fuel2 : Nat) (st : rc_lboard_parse) (found : Nat) (memaddr : List Char),
      memaddr.length < fuel1 → memaddr.length < fuel2 →
      rc_parse_lboard_loop env buffer scratch L funcs_ndx fuel1 st found memaddr =
      rc_parse_lboard_loop env buffer scratch L funcs_ndx fuel2 st found memaddr := by
  induction fuel1 with
  | zero => intro _ _ _ memaddr h; exact absurd h (Nat.not_lt_zero _)
  | succ fuel1 ih =>
    intro fuel2 st found memaddr h1 h2
    cases fuel2 with
    | zero => exact absurd h2 (Nat.not_lt_zero _)
    | succ fuel2 =>
      rw [rc_parse_lboard_loop, rc_parse_lboard_loop]
      rcases hf : rc_parse_lboard_field env buffer scratch L funcs_ndx st found memaddr with
        e | ⟨st2, found2, memaddr2⟩
      · rfl
      · have hl := rc_parse_lboard_field_length env buffer scratch L funcs_ndx st st2 found found2
          memaddr memaddr2 hf
        simp only []
        split_ifs
        · rfl
        · exact ih fuel2 st2 found2 (memaddr2.drop 2) (by simp only [List.length_drop]; omega)
            (by simp only [List.length_drop]; omega)

/-- Recording a tag in `found`, bit by bit. -/
theorem lboard_found_iff (found : Nat) (h : found < 32) (t t2 : lboard_tag) :
    ((found ||| t.flag) &&& t2.flag ≠ 0 ↔ (found &&& t2.flag ≠ 0 ∨ t2 = t)) := by
  revert found
  cases t <;> cases t2 <;> decide

/-- A round of the loop on a field other than PRO leaves the progress value and
its address as they are. -/
theorem rc_parse_lboard_field_progress (env : rc_env) (buffer scratch L : Nat) (funcs_ndx : Int)
    (st st2 : rc_lboard_parse) (found found2 : Nat) (f : lboard_field) (rest rest2 : List Char)
    (h : rc_parse_lboard_field env buffer scratch L funcs_ndx st found (f.text ++ rest)
      = .ok (st2, found2, rest2)) (hp : f.tag ≠ .PRO) :
    st2.self.progress = st.self.progress ∧ st2.progress_ptr = st.progress_ptr := by
  rw [rc_parse_lboard_field_eq, rc_lboard_tag_at_text] at h
  obtain ⟨tag, u1, u2, u3, body⟩ := f
  cases tag <;> simp only [rc_parse_lboard_branch] at h <;> split_ifs at h <;>
    simp only [Except.ok.injEq, Prod.mk.injEq, reduceCtorEq] at h <;>
    first
      | exact absurd rfl hp
      | (obtain ⟨rfl, _, _⟩ := h; exact ⟨rfl, rfl⟩)

/-- The loop of `rc_parse_lboard_internal` on fields, each followed by `::`, whose
tags are distinct and new and whose bodies parse in full: the loop arrives at the
text after the last `::` without error, with the bits of the tags seen before and
of these fields, and with the progress value untouched when PRO is not among
them. -/
theorem rc_parse_lboard_loop_through (env : rc_env) (buffer scratch L : Nat) (funcs_ndx : Int)
    (hm : rc_alloc_measures env) (hp : rc_alloc_places env)
    (hsz : 0 ≤ env.sizeof_value) (hal : 0 < env.alignof_value) :
    ∀ (fields : List lboard_field) (seen : List lboard_tag) (fuel : Nat) (st : rc_lboard_parse)
      (found : Nat) (more : List Char),
      fields ≠ [] → (lboard_text fields ++ ':' :: ':' :: more).length < fuel →
      0 ≤ st.ret → found < 32 →
      (∀ t, found &&& t.flag ≠ 0 ↔ t ∈ seen) →
      (∀ f ∈ fields, f.tag ∉ seen) →
      (fields.map (fun f => f.tag)).Nodup →
      (∀ f ∈ fields, lboard_body_ok env buffer scratch L funcs_ndx f) →
      ∃ st2 found2,
        rc_parse_lboard_loop env buffer scratch L funcs_ndx fuel st found
            (lboard_text fields ++ ':' :: ':' :: more)
          = rc_parse_lboard_loop env buffer scratch L funcs_ndx (more.length + 1) st2 found2 more ∧
        0 ≤ st2.ret ∧ found2 < 32 ∧
        (∀ t, found2 &&& t.flag ≠ 0 ↔ (t ∈ seen ∨ t ∈ fields.map (fun f => f.tag))) ∧
        (lboard_tag.PRO ∉ fields.map (fun f => f.tag) →
          st2.self.progress = st.self.progress ∧ st2.progress_ptr = st.progress_ptr) := by
  intro fields
  induction fields with
  | nil => intro _ _ _ _ _ h; exact absurd rfl h
  | cons f fs ih =>
    intro seen fuel st found more _ hfuel hret hfound hseen hnew hnodup hok
    cases fuel with
    | zero => exact absurd hfuel (Nat.not_lt_zero _)
    | succ fuel =>
      have hf0 : found &&& f.tag.flag = 0 := by
        by_contra hc
        exact hnew f (List.mem_cons_self _ _) ((hseen f.tag).mp hc)
      have hbits : ∀ t, (found ||| f.tag.flag) &&& t.flag ≠ 0 ↔ t ∈ f.tag :: seen := by
        intro t
        rw [lboard_found_iff found hfound f.tag t, hseen t, List.mem_cons]
        exact or_comm
      have hlt := (lboard_found_step found hfound f.tag f.tag).1
      cases fs with
      | nil =>
        obtain ⟨st2, hf, hst2⟩ := rc_parse_lboard_field_ok env buffer scratch L funcs_ndx st found
          f (':' :: ':' :: more) (Or.inr ⟨_, rfl⟩) (hok f (List.mem_singleton.mpr rfl))
          hf0 hret hm hp hsz hal
        refine ⟨st2, found ||| f.tag.flag, ?_, hst2, hlt, ?_, ?_⟩
        · simp only [lboard_text, List.length_append, List.length_cons] at hfuel hf ⊢
          rw [rc_parse_lboard_loop, hf]
          simp only [at_cons_zero, at_cons_succ, ne_eq, not_true_eq_false, or_self, if_false,
            List.drop_succ_cons, List.drop_zero]
          exact rc_parse_lboard_loop_fuel env buffer scratch L funcs_ndx fuel _ st2 _ more
            (by omega) (by omega)
        · intro t
          rw [hbits t]
          simp only [List.mem_cons, List.map_cons, List.map_nil, List.mem_singleton,
            List.not_mem_nil, or_false]
          exact or_comm
        · intro hpro
          exact rc_parse_lboard_field_progress env buffer scratch L funcs_ndx st st2 found _ f _ _
            hf (fun h => hpro (by simp [h]))
      | cons g gs =>
        obtain ⟨st2, hf, hst2⟩ := rc_parse_lboard_field_ok env buffer scratch L funcs_ndx st found
          f (':' :: ':' :: (lboard_text (g :: gs) ++ ':' :: ':' :: more)) (Or.inr ⟨_, rfl⟩)
          (hok f (List.mem_cons_self _ _)) hf0 hret hm hp hsz hal
        have hnd := List.nodup_cons.mp hnodup
        obtain ⟨st3, found3, h3, hret3, hlt3, hbits3, hpro3⟩ :=
          ih (f.tag :: seen) fuel st2 (found ||| f.tag.flag) more (by simp)
          (by
            simp only [lboard_text, List.length_append, List.length_cons] at hfuel ⊢
            omega)
          hst2 hlt hbits
          (by
            intro f2 hf2 hmem
            rcases List.mem_cons.mp hmem with h | h
            · have hm2 : f2.tag ∈ List.map (fun f => f.tag) (g :: gs) :=
                List.mem_map_of_mem (fun f => f.tag) hf2
              rw [h] at hm2
              exact hnd.1 hm2
            · exact hnew f2 (List.mem_cons_of_mem _ hf2) h)
          hnd.2 (fun f2 hf2 => hok f2 (List.mem_cons_of_mem _ hf2))
        refine ⟨st3, found3, ?_, hret3, hlt3, ?_, ?_⟩
        · rw [← h3]
          simp only [lboard_text, List.append_assoc, List.cons_append] at hf ⊢
          rw [rc_parse_lboard_loop, hf]
          simp only [at_cons_zero, at_cons_succ, ne_eq, not_true_eq_false, or_self, if_false,
            List.drop_succ_cons, List.drop_zero]
        · intro t
          rw [hbits3 t]
          simp only [List.mem_cons, List.map_cons]
          tauto
        · intro hpro
          have h1 := rc_parse_lboard_field_progress env buffer scratch L funcs_ndx st st2 found _ f
            _ _ hf (fun h => hpro (by simp [h]))
          have h2 := hpro3 (fun h => hpro (List.mem_cons_of_mem _ h))
          exact ⟨h2.1.trans h1.1, h2.2.trans h1.2⟩


/-- A text at whose start the tag tests of `rc_parse_lboard_internal` recognise a
tag begins with a tag followed by a colon. -/
theorem rc_lboard_tag_at_starts (s : List Char) (t : lboard_tag)
    (h : rc_lboard_tag_at s = some t) : lboard_starts_with_tag s = true := by
  have hlen := rc_lboard_tag_at_length s t h
  match s, hlen with
  | c0 :: c1 :: c2 :: c3 :: r, _ =>
    simp only [rc_lboard_tag_at, at_cons_zero, at_cons_succ] at h
    split_ifs at h with h1 h2 h3 h4 h5
    · obtain ⟨rfl | rfl, rfl | rfl, rfl | rfl, rfl⟩ := h1 <;> rfl
    · obtain ⟨rfl | rfl, rfl | rfl, rfl | rfl, rfl⟩ := h2 <;> rfl
    · obtain ⟨rfl | rfl, rfl | rfl, rfl | rfl, rfl⟩ := h3 <;> rfl
    · obtain ⟨rfl | rfl, rfl | rfl, rfl | rfl, rfl⟩ := h4 <;> rfl
    · obtain ⟨rfl | rfl, rfl | rfl, rfl | rfl, rfl⟩ := h5 <;> rfl

/-- On a text that does not begin with a tag followed by a colon, all five tag
tests fail. -/
theorem rc_lboard_tag_at_none (s : List Char) (h : lboard_starts_with_tag s = false) :
    rc_lboard_tag_at s = none := by
  rcases ht : rc_lboard_tag_at s with _ | t
  · rfl
  · rw [rc_lboard_tag_at_starts s t ht] at h
    exact absurd h (by decide)


/-- The text of a definition with one more field at its end. -/
theorem lboard_text_concat (fields : List lboard_field) (f : lboard_field) (h : fields ≠ []) :
    lboard_text (fields ++ [f]) = lboard_text fields ++ ':' :: ':' :: f.text := by
  induction fields with
  | nil => exact absurd rfl h
  | cons g gs ih =>
    cases gs with
    | nil => rfl
    | cons g2 gs2 =>
      have h2 := ih (by simp)
      show g.text ++ ':' :: ':' :: lboard_text (g2 :: gs2 ++ [f]) = _
      rw [h2]
      simp only [lboard_text, List.append_assoc, List.cons_append]

/-- The loop of `rc_parse_lboard_internal` on the fields before some further
text, from the entry of the function. -/
theorem rc_parse_lboard_internal_through (env : rc_env) (self : rc_lboard_t) (ret : Int)
    (buffer scratch L : Nat) (funcs_ndx : Int)
    (hm : rc_alloc_measures env) (hp : rc_alloc_places env)
    (hsz : 0 ≤ env.sizeof_value) (hal : 0 < env.alignof_value)
    (fields : List lboard_field) (more : List Char) (hret : 0 ≤ ret)
    (hnodup : (fields.map (fun f => f.tag)).Nodup)
    (hok : ∀ f ∈ fields, lboard_body_ok env buffer scratch L funcs_ndx f) :
    ∃ st2 found2,
      rc_parse_lboard_internal env self ret buffer scratch (lboard_text_then fields more) L
          funcs_ndx
        = rc_parse_lboard_loop env buffer scratch L funcs_ndx (more.length + 1) st2 found2 more ∧
      0 ≤ st2.ret ∧ found2 < 32 ∧
      (∀ t, found2 &&& t.flag ≠ 0 ↔ t ∈ fields.map (fun f => f.tag)) ∧
      (lboard_tag.PRO ∉ fields.map (fun f => f.tag) →
        st2.self.progress = none ∧ st2.progress_ptr = 0) := by
  cases fields with
  | nil =>
    exact ⟨_, 0, rfl, hret, by decide, fun t => by simp, fun _ => ⟨rfl, rfl⟩⟩
  | cons f fs =>
    obtain ⟨st2, found2, h, h1, h2, h3, h4⟩ := rc_parse_lboard_loop_through env buffer scratch L
      funcs_ndx hm hp hsz hal (f :: fs) [] _
      { self := { self with progress := none }, progress_ptr := 0, ret := ret } 0 more
      (by simp) (Nat.lt_succ_self _) hret (by decide) (fun t => by simp)
      (fun _ _ => List.not_mem_nil _) hnodup hok
    exact ⟨st2, found2, h, h1, h2, fun t => by simpa using h3 t, h4⟩

/-- With all bits of `found` below 32, `found` is complete exactly when the bits
of the four required tags are set. -/
theorem lboard_found_complete_iff (found : Nat) (h : found < 32) :
    found &&& RC_LBOARD_COMPLETE = RC_LBOARD_COMPLETE ↔
      (found &&& RC_LBOARD_START ≠ 0 ∧ found &&& RC_LBOARD_CANCEL ≠ 0 ∧
        found &&& RC_LBOARD_SUBMIT ≠ 0 ∧ found &&& RC_LBOARD_VALUE ≠ 0) := by
  revert found
  decide

/-- The end of `rc_parse_lboard_internal` when `found` holds the bits of the tags
of a definition: `*ret` becomes the MISSING code of the first required tag that is
absent, and stays as it is when none is; the progress value is not touched. -/
theorem rc_parse_lboard_finish_ret (st : rc_lboard_parse) (found : Nat)
    (tags : List lboard_tag) (hlt : found < 32)
    (hbits : ∀ t : lboard_tag, found &&& t.flag ≠ 0 ↔ t ∈ tags) :
    (rc_parse_lboard_finish st found).ret = (lboard_missing tags).getD st.ret ∧
    (rc_parse_lboard_finish st found).self.progress = st.self.progress ∧
    (rc_parse_lboard_finish st found).progress_ptr = st.progress_ptr := by
  have e1 := hbits .STA
  have e2 := hbits .CAN
  have e3 := hbits .SUB
  have e4 := hbits .VAL
  have ec := lboard_found_complete_iff found hlt
  simp only [lboard_tag.flag] at e1 e2 e3 e4
  rw [e1, e2, e3, e4] at ec
  have d1 : found &&& RC_LBOARD_START = 0 ↔ lboard_tag.STA ∉ tags := by
    rw [← e1]; exact not_not.symm
  have d2 : found &&& RC_LBOARD_CANCEL = 0 ↔ lboard_tag.CAN ∉ tags := by
    rw [← e2]; exact not_not.symm
  have d3 : found &&& RC_LBOARD_SUBMIT = 0 ↔ lboard_tag.SUB ∉ tags := by
    rw [← e3]; exact not_not.symm
  have d4 : found &&& RC_LBOARD_VALUE = 0 ↔ lboard_tag.VAL ∉ tags := by
    rw [← e4]; exact not_not.symm
  simp only [rc_parse_lboard_finish, lboard_missing, ne_eq, ec, d1, d2, d3, d4]
  by_cases m1 : lboard_tag.STA ∈ tags <;> by_cases m2 : lboard_tag.CAN ∈ tags <;>
    by_cases m3 : lboard_tag.SUB ∈ tags <;> by_cases m4 : lboard_tag.VAL ∈ tags <;>
    simp [m1, m2, m3, m4]

/-- The last round of the loop: a field at the end of the text, whose tag has not
been seen and whose body parses in full, leads to the end of the function. -/
theorem rc_parse_lboard_loop_last (env : rc_env) (buffer scratch L : Nat) (funcs_ndx : Int)
    (hm : rc_alloc_measures env) (hp : rc_alloc_places env)
    (hsz : 0 ≤ env.sizeof_value) (hal : 0 < env.alignof_value)
    (fuel : Nat) (st : rc_lboard_parse) (found : Nat) (f : lboard_field)
    (hok : lboard_body_ok env buffer scratch L funcs_ndx f)
    (hfound : found &&& f.tag.flag = 0) (hret : 0 ≤ st.ret) :
    ∃ st2, rc_parse_lboard_loop env buffer scratch L funcs_ndx (fuel + 1) st found f.text
        = some (rc_parse_lboard_finish st2 (found ||| f.tag.flag)) ∧ 0 ≤ st2.ret ∧
      (f.tag ≠ .PRO → st2.self.progress = st.self.progress ∧ st2.progress_ptr = st.progress_ptr) := by
  obtain ⟨st2, hf, hst2⟩ := rc_parse_lboard_field_ok env buffer scratch L funcs_ndx st found
    f [] (Or.inl rfl) hok hfound hret hm hp hsz hal
  refine ⟨st2, ?_, hst2, fun hpro => rc_parse_lboard_field_progress env buffer scratch L funcs_ndx
    st st2 found _ f _ _ hf hpro⟩
  rw [List.append_nil] at hf
  rw [rc_parse_lboard_loop, hf]
  simp [at_nil]


/-- The text of a definition is the text of its fields but the last, going on
with the last field. -/
theorem lboard_text_then_last (fields : List lboard_field) (f : lboard_field) :
    lboard_text (fields ++ [f]) = lboard_text_then fields f.text := by
  cases fields with
  | nil => rfl
  | cons g gs => exact lboard_text_concat (g :: gs) f (by simp)

/-- The function `rc_parse_lboard_internal` on a definition made of fields with
distinct tags whose bodies parse in full: the loop ends after the last field, and
the end of the function is reached with the bits of exactly these tags. -/
theorem rc_parse_lboard_internal_end (env : rc_env) (self : rc_lboard_t) (ret : Int)
    (buffer scratch L : Nat) (funcs_ndx : Int)
    (hm : rc_alloc_measures env) (hp : rc_alloc_places env)
    (hsz : 0 ≤ env.sizeof_value) (hal : 0 < env.alignof_value)
    (fields : List lboard_field) (hne : fields ≠ []) (hret : 0 ≤ ret)
    (hnodup : (fields.map (fun f => f.tag)).Nodup)
    (hok : ∀ f ∈ fields, lboard_body_ok env buffer scratch L funcs_ndx f) :
    ∃ st2 found2,
      rc_parse_lboard_internal env self ret buffer scratch (lboard_text fields) L funcs_ndx
        = some (rc_parse_lboard_finish st2 found2) ∧
      0 ≤ st2.ret ∧ found2 < 32 ∧
      (∀ t, found2 &&& t.flag ≠ 0 ↔ t ∈ fields.map (fun f => f.tag)) ∧
      (lboard_tag.PRO ∉ fields.map (fun f => f.tag) →
        st2.self.progress = none ∧ st2.progress_ptr = 0) := by
  rcases List.eq_nil_or_concat fields with h | ⟨init, last, h⟩
  · exact absurd h hne
  · rw [List.concat_eq_append] at h
    subst h
    rw [List.map_append, List.nodup_append] at hnodup
    obtain ⟨st2, found2, h, h1, h2, h3, h4⟩ := rc_parse_lboard_internal_through env self ret buffer
      scratch L funcs_ndx hm hp hsz hal init last.text hret hnodup.1
      (fun f hf => hok f (List.mem_append_left _ hf))
    have hnew : found2 &&& last.tag.flag = 0 := by
      by_contra hc
      exact hnodup.2.2 ((h3 _).mp hc) (by simp)
    obtain ⟨st3, h5, h6, h7⟩ := rc_parse_lboard_loop_last env buffer scratch L funcs_ndx hm hp hsz
      hal last.text.length st2 found2 last (hok last (by simp)) hnew h1
    refine ⟨st3, found2 ||| last.tag.flag, ?_, h6, (lboard_found_step found2 h2 last.tag
      last.tag).1, ?_, ?_⟩
    · rw [lboard_text_then_last, h, h5]
    · intro t
      rw [lboard_found_iff found2 h2 last.tag t, h3 t]
      simp
    · intro hpro
      simp only [List.map_append, List.map_cons, List.map_nil, List.mem_append,
        List.mem_singleton, not_or] at hpro
      have h8 := h7 (fun h => hpro.2 h.symm)
      have h9 := h4 hpro.1
      exact ⟨h8.1.trans h9.1, h8.2.trans h9.2⟩

/-- C11, amended by "with at least one field".  Take a definition of at least one
field, the fields joined by `::`, with distinct tags and bodies that the trigger
and value parsers accept in full.  Then `rc_parse_lboard_internal` returns; when
one of STA, CAN, SUB, VAL is absent, `*ret` is the MISSING code of the first
absent one in the order start, cancel, submit, value; when PRO is absent the
progress pointer stays null, and `*ret` is negative only for an absent required
field. -/
theorem rc_parse_lboard_internal_missing (env : rc_env) (self : rc_lboard_t) (ret : Int)
    (buffer scratch : Nat) (L : Nat) (funcs_ndx : Int) (fields : List lboard_field)
    (hret : 0 ≤ ret) (hm : rc_alloc_measures env) (hp : rc_alloc_places env)
    (hsz : 0 ≤ env.sizeof_value) (hal : 0 < env.alignof_value)
    (hne : fields ≠ [])
    (hnodup : (fields.map (fun f => f.tag)).Nodup)
    (hok : ∀ f ∈ fields, lboard_body_ok env buffer scratch L funcs_ndx f) :
    ∃ r, rc_parse_lboard_internal env self ret buffer scratch (lboard_text fields) L funcs_ndx
        = some r ∧
      (∀ code, lboard_missing (fields.map (fun f => f.tag)) = some code → r.ret = code) ∧
      (lboard_tag.PRO ∉ fields.map (fun f => f.tag) →
        r.self.progress = none ∧ r.progress_ptr = 0 ∧
        (lboard_missing (fields.map (fun f => f.tag)) = none → 0 ≤ r.ret)) := by
  obtain ⟨st2, found2, h, h1, h2, h3, h4⟩ := rc_parse_lboard_internal_end env self ret buffer
    scratch L funcs_ndx hm hp hsz hal fields hne hret hnodup hok
  obtain ⟨f1, f2, f3⟩ := rc_parse_lboard_finish_ret st2 found2 _ h2 h3
  refine ⟨_, h, ?_, ?_⟩
  · intro code hcode
    rw [f1, hcode]
    rfl
  · intro hpro
    obtain ⟨h5, h6⟩ := h4 hpro
    refine ⟨f2.trans h5, f3.trans h6, ?_⟩
    intro hnone
    rw [f1, hnone]
    exact h1

/-- C13.  After any fields with distinct tags whose bodies parse in full, each
followed by `::` (also after no field at all, at the start of the definition), a
text that does not begin with one of the five tags, in either case, followed by
`:` makes `rc_parse_lboard_internal` return with `RC_INVALID_LBOARD_FIELD`.  The
empty text is the case of no field and nothing after; a definition that ends with
`::` is the case of nothing after the last separator; the tags of the fields are
not restricted, so the four required ones may all have been parsed. -/
theorem rc_parse_lboard_internal_invalid_field (env : rc_env) (self : rc_lboard_t) (ret : Int)
    (buffer scratch : Nat) (L : Nat) (funcs_ndx : Int) (fields : List lboard_field)
    (rest : List Char)
    (hret : 0 ≤ ret) (hm : rc_alloc_measures env) (hp : rc_alloc_places env)
    (hsz : 0 ≤ env.sizeof_value) (hal : 0 < env.alignof_value)
    (hnodup : (fields.map (fun f => f.tag)).Nodup)
    (hok : ∀ f ∈ fields, lboard_body_ok env buffer scratch L funcs_ndx f)
    (hrest : lboard_starts_with_tag rest = false) :
    ∃ r, rc_parse_lboard_internal env self ret buffer scratch (lboard_text_then fields rest) L
        funcs_ndx = some r ∧ r.ret = RC_INVALID_LBOARD_FIELD := by
  obtain ⟨st2, found2, h, _⟩ := rc_parse_lboard_internal_through env self ret buffer
    scratch L funcs_ndx hm hp hsz hal fields rest hret hnodup hok
  refine ⟨{ st2 with ret := RC_INVALID_LBOARD_FIELD }, ?_, rfl⟩
  rw [h, rc_parse_lboard_loop, rc_parse_lboard_field_eq, rc_lboard_tag_at_none rest hrest]
  rfl

/-- A round of the loop at a tag that has been seen: the function returns with the
DUPLICATED code of the tag and with the node as it was. -/
theorem rc_parse_lboard_field_duplicated (env : rc_env) (buffer scratch L : Nat)
    (funcs_ndx : Int) (st : rc_lboard_parse) (found : Nat) (f : lboard_field) (rest : List Char)
    (hfound : found &&& f.tag.flag ≠ 0) :
    rc_parse_lboard_field env buffer scratch L funcs_ndx st found (f.text ++ rest)
      = .error { st with ret := f.tag.duplicated } := by
  rw [rc_parse_lboard_field_eq, rc_lboard_tag_at_text]
  obtain ⟨tag, u1, u2, u3, body⟩ := f
  cases tag <;> simp only [lboard_tag.flag] at hfound <;>
    simp only [rc_parse_lboard_branch, hfound, ne_eq, not_false_eq_true, if_true,
      lboard_tag.duplicated]

/-- C12.  Let a definition consist of fields with distinct tags whose bodies
parse in full, then `::` and a field `dup` whose tag is among the earlier ones,
with any body.  The round of the loop that meets a tag already seen returns with
the DUPLICATED code of that tag and leaves the node as it was, whatever the body
is (the sub-parser is not run on it); `rc_parse_lboard_internal` ends with that
code; and `rc_parse_lboard` returns the null pointer. -/
theorem rc_parse_lboard_duplicated (env : rc_env) (slot self : rc_lboard_t) (ret : Int)
    (buffer scratch : Nat) (L : Nat) (funcs_ndx : Int) (fields : List lboard_field)
    (dup : lboard_field)
    (hret : 0 ≤ ret) (hm : rc_alloc_measures env) (hp : rc_alloc_places env)
    (hsz : 0 ≤ env.sizeof_value) (hal : 0 < env.alignof_value)
    (hszl : 0 ≤ env.sizeof_lboard) (hall : 0 < env.alignof_lboard)
    (hnodup : (fields.map (fun f => f.tag)).Nodup)
    (hok : ∀ scratch, ∀ f ∈ fields, lboard_body_ok env buffer scratch L funcs_ndx f)
    (hdup : dup.tag ∈ fields.map (fun f => f.tag)) :
    (∀ (st : rc_lboard_parse) (found : Nat), found &&& dup.tag.flag ≠ 0 →
      rc_parse_lboard_field env buffer scratch L funcs_ndx st found dup.text
        = .error { st with ret := dup.tag.duplicated }) ∧
    (∃ r, rc_parse_lboard_internal env self ret buffer scratch (lboard_text (fields ++ [dup])) L
        funcs_ndx = some r ∧ r.ret = dup.tag.duplicated) ∧
    (∃ p, rc_parse_lboard env slot scratch buffer (lboard_text (fields ++ [dup])) L funcs_ndx
        = some p ∧ p.result = 0 ∧ p.parse.ret = dup.tag.duplicated) := by
  have hrun : ∀ (self : rc_lboard_t) (ret : Int) (scratch : Nat), 0 ≤ ret →
      ∃ r, rc_parse_lboard_internal env self ret buffer scratch (lboard_text (fields ++ [dup])) L
        funcs_ndx = some r ∧ r.ret = dup.tag.duplicated := by
    intro self ret scratch hret
    obtain ⟨st2, found2, h, _, _, h3, _⟩ := rc_parse_lboard_internal_through env self ret buffer
      scratch L funcs_ndx hm hp hsz hal fields dup.text hret hnodup (hok scratch)
    refine ⟨{ st2 with ret := dup.tag.duplicated }, ?_, rfl⟩
    have hd := rc_parse_lboard_field_duplicated env buffer scratch L funcs_ndx st2 found2 dup []
      ((h3 _).mpr hdup)
    rw [List.append_nil] at hd
    rw [lboard_text_then_last, h, rc_parse_lboard_loop, hd]
  refine ⟨?_, hrun self ret scratch hret, ?_⟩
  · intro st found hfound
    have hd := rc_parse_lboard_field_duplicated env buffer scratch L funcs_ndx st found dup []
      hfound
    rw [List.append_nil] at hd
    exact hd
  · obtain ⟨r, hr, hr2⟩ := hrun slot
      (env.rc_alloc buffer 0 env.sizeof_lboard env.alignof_lboard scratch).2 0
      (rc_alloc_offset_le env hm hp buffer scratch 0 _ _ (le_refl 0) hszl hall)
    have hneg : dup.tag.duplicated < 0 := by cases dup.tag <;> decide
    refine ⟨rc_lboard_placed.mk
      (if r.ret ≥ 0 then (env.rc_alloc buffer 0 env.sizeof_lboard env.alignof_lboard scratch).1
        else 0)
      (env.rc_alloc buffer 0 env.sizeof_lboard env.alignof_lboard scratch).1 r, ?_, ?_, hr2⟩
    · simp only [rc_parse_lboard, hr, Option.map_some']
    · simp only [hr2, ge_iff_le, not_le.mpr hneg, if_false]

/-- The bodies of the sample fields parse in full in the sample environment. -/
theorem sample_fields_ok (buffer scratch L : Nat) (funcs_ndx : Int) :
    ∀ f ∈ sample_fields, lboard_body_ok sample_env buffer scratch L funcs_ndx f := by
  intro f hf
  refine sample_body_ok buffer scratch L funcs_ndx f ?_
  simp only [sample_fields] at hf
  fin_cases hf <;> decide

/-- C11 as stated fails on the empty definition: no field is present, so every
field present parses and STA is absent, yet `rc_parse_lboard_internal` ends with
`RC_INVALID_LBOARD_FIELD` and not with `RC_MISSING_START`. -/
theorem rc_parse_lboard_internal_missing_empty :
    (rc_parse_lboard_internal sample_env sample_slot 0 1000 0 (lboard_text []) 0 0).map
        (fun r => r.ret) = some RC_INVALID_LBOARD_FIELD ∧
      lboard_missing (([] : List lboard_field).map (fun f => f.tag)) = some RC_MISSING_START ∧
      RC_INVALID_LBOARD_FIELD ≠ RC_MISSING_START := by
  decide

/-- C11, instantiated: the definition `STA:0=1::cAn:3=3` lacks SUB and VAL and is
refused with `RC_MISSING_SUBMIT`; the progress pointer is null. -/
theorem rc_parse_lboard_internal_missing_witness :
    (rc_parse_lboard_internal sample_env sample_slot 64 1000 0
      (lboard_text (sample_fields.drop 3)) 0 0).map
        (fun r => (r.ret, r.self.progress, r.progress_ptr)) = some (RC_MISSING_SUBMIT, none, 0) := by
  obtain ⟨r, h1, h2, h3⟩ := rc_parse_lboard_internal_missing sample_env sample_slot 64
    1000 0 0 0 (sample_fields.drop 3) (by decide) sample_alloc_measures sample_alloc_places
    (by decide) (by decide) (by decide) (by decide)
    (fun f hf => sample_fields_ok 1000 0 0 0 f (List.mem_of_mem_drop hf))
  rw [h1]
  simp [h2 RC_MISSING_SUBMIT (by decide), (h3 (by decide)).1, (h3 (by decide)).2.1]

/-- C12, instantiated: `val:7::Sub:2=2::PRO:9::STA:0=1::cAn:3=3::sta:??` is refused
with `RC_DUPLICATED_START` and `rc_parse_lboard` returns the null pointer. -/
theorem rc_parse_lboard_duplicated_witness :
    ∃ p, rc_parse_lboard sample_env sample_slot 0 1000 (lboard_text (sample_fields ++ [sample_dup]))
        0 0 = some p ∧ p.result = 0 ∧ p.parse.ret = RC_DUPLICATED_START :=
  (rc_parse_lboard_duplicated sample_env sample_slot sample_slot 0 1000 0 0 0 sample_fields
    sample_dup (by decide) sample_alloc_measures sample_alloc_places (by decide) (by decide)
    (by decide) (by decide) (by decide) (fun scratch => sample_fields_ok 1000 scratch 0 0)
    (by decide)).2.2

/-- C13, instantiated: `val:7::Sub:2=2::PRO:9::STA:0=1::cAn:3=3::`, a complete
definition that ends with a separator, is refused with `RC_INVALID_LBOARD_FIELD`. -/
theorem rc_parse_lboard_internal_invalid_field_witness :
    ∃ r, rc_parse_lboard_internal sample_env sample_slot 64 1000 0
        (lboard_text_then sample_fields []) 0 0 = some r ∧ r.ret = RC_INVALID_LBOARD_FIELD :=
  rc_parse_lboard_internal_invalid_field sample_env sample_slot 64 1000 0 0 0 sample_fields []
    (by decide) sample_alloc_measures sample_alloc_places (by decide) (by decide) (by decide)
    (sample_fields_ok 1000 0 0 0) (by decide)

/-! ## Theorems: `cheevos_patch_address` and `cheevos_peek` -/

/-- Subtraction stored in an `unsigned` is the difference when nothing wraps. -/
theorem usub_of_le (a b : Nat) (hb : b ≤ a) (ha : a < UINT_MOD) : usub a b = a - b := by
  unfold usub
  have hb2 : b % UINT_MOD = b := Nat.mod_eq_of_lt (lt_of_le_of_lt hb ha)
  rw [hb2]
  have h : a + UINT_MOD - b = (a - b) + UINT_MOD := by omega
  rw [h, Nat.add_mod_right]
  exact Nat.mod_eq_of_lt (lt_of_le_of_lt (Nat.sub_le a b) ha)

/-- C14.  In every memory environment, on the NES every address from 0x0800 to
0x1FFF resolves as the address with the mask 0x07FF applied, and on the Game Boy
Color every address from 0xE000 to 0xFDFF resolves as the address 0x2000 below. -/
theorem cheevos_patch_address_mirror (host : cheevos_host) (a : Nat) :
    (0x0800 ≤ a → a ≤ 0x1FFF →
      cheevos_patch_address host a RC_CONSOLE_NINTENDO =
        cheevos_patch_address host (a &&& 0x07FF) RC_CONSOLE_NINTENDO) ∧
    (0xE000 ≤ a → a ≤ 0xFDFF →
      cheevos_patch_address host a RC_CONSOLE_GAMEBOY_COLOR =
        cheevos_patch_address host (a - 0x2000) RC_CONSOLE_GAMEBOY_COLOR) := by
  constructor
  · intro h1 h2
    have h3 : a &&& 0x07FF ≤ 0x07FF := Nat.and_le_right
    have c1 : a ≥ 0x0800 ∧ a < 0x2000 := ⟨h1, by omega⟩
    have c2 : ¬ (a &&& 0x07FF ≥ 0x0800 ∧ a &&& 0x07FF < 0x2000) := by omega
    simp only [cheevos_patch_address, if_true, c1, c2, if_false, and_self]
  · intro h1 h2
    have hu : usub a 0x2000 = a - 0x2000 :=
      usub_of_le a 0x2000 (by omega) (by simp only [UINT_MOD]; omega)
    have c1 : a ≥ 0xe000 ∧ a ≤ 0xfdff := ⟨h1, h2⟩
    have c2 : ¬ (a - 0x2000 ≥ 0xe000 ∧ a - 0x2000 ≤ 0xfdff) := by omega
    have hne : ¬ (RC_CONSOLE_GAMEBOY_COLOR = RC_CONSOLE_NINTENDO) := by decide
    simp only [cheevos_patch_address, hne, if_true, c1, c2, if_false, and_self, hu]

/-- C14, instantiated: on the NES the address 0x0900 resolves exactly as 0x0100. -/
theorem cheevos_patch_address_mirror_witness :
    cheevos_patch_address sample_regions 0x0900 RC_CONSOLE_NINTENDO =
      cheevos_patch_address sample_regions 0x0100 RC_CONSOLE_NINTENDO :=
  (cheevos_patch_address_mirror sample_regions 0x0900).1 (by decide) (by decide)

/-- The descriptor loop of `cheevos_patch_address` passes over descriptors that do
not match. -/
theorem cheevos_patch_address_scan_skip (bits address : Nat)
    (pre rest : List rarch_memory_descriptor_t)
    (hpre : ∀ e ∈ pre, (e.start ^^^ address) &&& e.select ≠ 0) :
    cheevos_patch_address_scan bits address (pre ++ rest) =
      cheevos_patch_address_scan bits address rest := by
  induction pre with
  | nil => rfl
  | cons e es ih =>
    have h1 := hpre e (List.mem_cons_self _ _)
    simp only [List.cons_append, cheevos_patch_address_scan, h1, if_false]
    exact ih (fun e2 he2 => hpre e2 (List.mem_cons_of_mem _ he2))

/-- Without mask bits `cheevos_var_reduce` returns the address as it is. -/
theorem cheevos_var_reduce_zero (bits addr : Nat) : cheevos_var_reduce bits addr 0 = addr := rfl

/-- On a console without address remapping and with a descriptor table,
`cheevos_patch_address` is the descriptor loop on the address as given. -/
theorem cheevos_patch_address_plain (host : cheevos_host) (address : Nat) (console : Int)
    (hconsole : cheevos_console_plain console) (htable : host.descriptors ≠ []) :
    cheevos_patch_address host address console =
      if (cheevos_patch_address_scan host.size_bits address host.descriptors).1 = 0 then 0
      else (cheevos_patch_address_scan host.size_bits address host.descriptors).1 +
        (cheevos_patch_address_scan host.size_bits address host.descriptors).2 := by
  obtain ⟨h1, h2, h3, h4, h5⟩ := hconsole
  have hlen : host.descriptors.length ≠ 0 := fun h => htable (List.length_eq_zero.mp h)
  simp only [cheevos_patch_address, h1, h2, h3, h4, h5, if_false, hlen, ne_eq,
    not_false_eq_true, if_true]

/-- C15, amended by the null pointer of a descriptor and by the width of
`address`.  With a descriptor table and a console without address remapping,
`cheevos_patch_address` stops at the first descriptor `d` of the table with
`((d.start XOR address) AND d.select) = 0`.  When `d.ptr` is null the result is
null.  When `d.ptr` is not null, `d` has no disconnect bits, its disconnect mask
keeps every bit of the `size_t` difference `address - d.start`, that difference
is below `d.len`, and `d.offset` plus the difference is below 2^32, the result is
`d.ptr + d.offset + (address - d.start)`.  When no descriptor matches, the result
is null. -/
theorem cheevos_patch_address_descriptor (host : cheevos_host) (address : Nat) (console : Int)
    (hconsole : cheevos_console_plain console) (htable : host.descriptors ≠ []) :
    (∀ (pre post : List rarch_memory_descriptor_t) (d : rarch_memory_descriptor_t),
      host.descriptors = pre ++ d :: post →
      (∀ e ∈ pre, (e.start ^^^ address) &&& e.select ≠ 0) →
      (d.start ^^^ address) &&& d.select = 0 →
      (d.ptr = 0 → cheevos_patch_address host address console = 0) ∧
      (d.ptr ≠ 0 → d.disconnect = 0 →
        size_sub host.size_bits address d.start &&& d.disconnect_mask
          = size_sub host.size_bits address d.start →
        size_sub host.size_bits address d.start < d.len →
        d.offset + size_sub host.size_bits address d.start < 2 ^ 32 →
        cheevos_patch_address host address console =
          d.ptr + d.offset + size_sub host.size_bits address d.start)) ∧
    ((∀ e ∈ host.descriptors, (e.start ^^^ address) &&& e.select ≠ 0) →
      cheevos_patch_address host address console = 0) := by
  rw [cheevos_patch_address_plain host address console hconsole htable]
  constructor
  · intro pre post d hdesc hpre hd
    rw [hdesc, cheevos_patch_address_scan_skip _ _ pre _ hpre]
    constructor
    · intro hptr
      simp only [cheevos_patch_address_scan, hd, if_true, hptr]
    · intro hptr hdis hmask hlen hsum
      have hv : size_sub host.size_bits address d.start < UINT_MOD := by
        simp only [UINT_MOD]; omega
      simp only [cheevos_patch_address_scan, hd, if_true, hdis, cheevos_var_reduce_zero, hmask,
        Nat.mod_eq_of_lt hv, ge_iff_le, not_le.mpr hlen, if_false, hptr, uadd]
      rw [Nat.mod_eq_of_lt (by simp only [UINT_MOD]; omega)]
      omega
  · intro hnone
    have h := cheevos_patch_address_scan_skip host.size_bits address host.descriptors [] hnone
    rw [List.append_nil] at h
    rw [h]
    rfl

/-- With an empty descriptor table and no mirror adjustment, `cheevos_patch_address`
is the region loop on the address as given. -/
theorem cheevos_patch_address_fallback (host : cheevos_host) (address : Nat) (console : Int)
    (htable : host.descriptors = [])
    (hnes : ¬ (console = RC_CONSOLE_NINTENDO ∧ 0x0800 ≤ address ∧ address < 0x2000))
    (hgbc : ¬ (console = RC_CONSOLE_GAMEBOY_COLOR ∧ 0xE000 ≤ address ∧ address ≤ 0xFDFF)) :
    cheevos_patch_address host address console =
      if (cheevos_patch_address_probe host console 0
          [.RETRO_MEMORY_SYSTEM_RAM, .RETRO_MEMORY_SAVE_RAM, .RETRO_MEMORY_VIDEO_RAM,
            .RETRO_MEMORY_RTC] address).1 = 0 then 0
      else (cheevos_patch_address_probe host console 0
          [.RETRO_MEMORY_SYSTEM_RAM, .RETRO_MEMORY_SAVE_RAM, .RETRO_MEMORY_VIDEO_RAM,
            .RETRO_MEMORY_RTC] address).1 +
        (cheevos_patch_address_probe host console 0
          [.RETRO_MEMORY_SYSTEM_RAM, .RETRO_MEMORY_SAVE_RAM, .RETRO_MEMORY_VIDEO_RAM,
            .RETRO_MEMORY_RTC] address).2 := by
  have e : (if console = RC_CONSOLE_NINTENDO then
        if address ≥ 0x0800 ∧ address < 0x2000 then address &&& 0x07ff else address
      else if console = RC_CONSOLE_GAMEBOY_COLOR then
        if address ≥ 0xe000 ∧ address ≤ 0xfdff then usub address 0x2000 else address
      else address) = address := by
    by_cases h1 : console = RC_CONSOLE_NINTENDO
    · have h2 : ¬ (address ≥ 0x0800 ∧ address < 0x2000) := fun h => hnes ⟨h1, h⟩
      simp only [h1, if_true, h2, if_false]
    · by_cases h3 : console = RC_CONSOLE_GAMEBOY_COLOR
      · have h4 : ¬ (address ≥ 0xe000 ∧ address ≤ 0xfdff) := fun h => hgbc ⟨h3, h⟩
        have hne : ¬ (RC_CONSOLE_GAMEBOY_COLOR = RC_CONSOLE_NINTENDO) := by decide
        simp only [h3, hne, if_false, if_true, h4]
      · simp only [h1, h3, if_false]
  simp only [cheevos_patch_address, e, htable, List.length_nil, ne_eq, not_true_eq_false,
    if_false]

/-- C17, amended by the echo range of the Game Boy Color.  With an empty
descriptor table and an address `a` below 2^32: for a console other than NES, `a`
outside 0xE000..0xFDFF when the console is the Game Boy Color, and non-null
region pointers, the result is the pointer of the first of system RAM, save RAM,
video RAM and RTC for which `a` minus the sizes of the regions before it is below
its size, plus that remainder, and the result is null exactly when `a` is at
least the sum of the four sizes; on NES an address `a ≥ 0x6000` that misses system
RAM resolves to save RAM at offset `a - 0x6000` when that offset is below the size
of save RAM (and save RAM is there). -/
theorem cheevos_patch_address_regions (host : cheevos_host) (a : Nat) (console : Int)
    (htable : host.descriptors = []) (ha : a < 2 ^ 32) :
    (console ≠ RC_CONSOLE_NINTENDO →
      ¬ (console = RC_CONSOLE_GAMEBOY_COLOR ∧ 0xE000 ≤ a ∧ a ≤ 0xFDFF) →
      (∀ id, (host.core_get_memory id).data ≠ 0) →
      (a < (host.core_get_memory .RETRO_MEMORY_SYSTEM_RAM).size →
        cheevos_patch_address host a console =
          (host.core_get_memory .RETRO_MEMORY_SYSTEM_RAM).data + a) ∧
      ((host.core_get_memory .RETRO_MEMORY_SYSTEM_RAM).size ≤ a →
        a - (host.core_get_memory .RETRO_MEMORY_SYSTEM_RAM).size
          < (host.core_get_memory .RETRO_MEMORY_SAVE_RAM).size →
        cheevos_patch_address host a console =
          (host.core_get_memory .RETRO_MEMORY_SAVE_RAM).data +
            (a - (host.core_get_memory .RETRO_MEMORY_SYSTEM_RAM).size)) ∧
      ((host.core_get_memory .RETRO_MEMORY_SYSTEM_RAM).size
          + (host.core_get_memory .RETRO_MEMORY_SAVE_RAM).size ≤ a →
        a - ((host.core_get_memory .RETRO_MEMORY_SYSTEM_RAM).size
            + (host.core_get_memory .RETRO_MEMORY_SAVE_RAM).size)
          < (host.core_get_memory .RETRO_MEMORY_VIDEO_RAM).size →
        cheevos_patch_address host a console =
          (host.core_get_memory .RETRO_MEMORY_VIDEO_RAM).data +
            (a - ((host.core_get_memory .RETRO_MEMORY_SYSTEM_RAM).size
              + (host.core_get_memory .RETRO_MEMORY_SAVE_RAM).size))) ∧
      ((host.core_get_memory .RETRO_MEMORY_SYSTEM_RAM).size
          + (host.core_get_memory .RETRO_MEMORY_SAVE_RAM).size
          + (host.core_get_memory .RETRO_MEMORY_VIDEO_RAM).size ≤ a →
        a - ((host.core_get_memory .RETRO_MEMORY_SYSTEM_RAM).size
            + (host.core_get_memory .RETRO_MEMORY_SAVE_RAM).size
            + (host.core_get_memory .RETRO_MEMORY_VIDEO_RAM).size)
          < (host.core_get_memory .RETRO_MEMORY_RTC).size →
        cheevos_patch_address host a console =
          (host.core_get_memory .RETRO_MEMORY_RTC).data +
            (a - ((host.core_get_memory .RETRO_MEMORY_SYSTEM_RAM).size
              + (host.core_get_memory .RETRO_MEMORY_SAVE_RAM).size
              + (host.core_get_memory .RETRO_MEMORY_VIDEO_RAM).size))) ∧
      (cheevos_patch_address host a console = 0 ↔
        (host.core_get_memory .RETRO_MEMORY_SYSTEM_RAM).size
          + (host.core_get_memory .RETRO_MEMORY_SAVE_RAM).size
          + (host.core_get_memory .RETRO_MEMORY_VIDEO_RAM).size
          + (host.core_get_memory .RETRO_MEMORY_RTC).size ≤ a)) ∧
    (console = RC_CONSOLE_NINTENDO → 0x6000 ≤ a →
      (host.core_get_memory .RETRO_MEMORY_SYSTEM_RAM).size ≤ a →
      a - 0x6000 < (host.core_get_memory .RETRO_MEMORY_SAVE_RAM).size →
      (host.core_get_memory .RETRO_MEMORY_SAVE_RAM).data ≠ 0 →
      cheevos_patch_address host a console =
        (host.core_get_memory .RETRO_MEMORY_SAVE_RAM).data + (a - 0x6000)) := by
  have hmod : a < UINT_MOD := ha
  constructor
  · intro hnes hgbc hptr
    rw [cheevos_patch_address_fallback host a console htable (fun h => hnes h.1) hgbc]
    have d0 := hptr .RETRO_MEMORY_SYSTEM_RAM
    have d1 := hptr .RETRO_MEMORY_SAVE_RAM
    have d2 := hptr .RETRO_MEMORY_VIDEO_RAM
    have d3 := hptr .RETRO_MEMORY_RTC
    simp only [cheevos_patch_address_probe, hnes, and_false, if_false]
    generalize host.core_get_memory .RETRO_MEMORY_SYSTEM_RAM = m0 at *
    generalize host.core_get_memory .RETRO_MEMORY_SAVE_RAM = m1 at *
    generalize host.core_get_memory .RETRO_MEMORY_VIDEO_RAM = m2 at *
    generalize host.core_get_memory .RETRO_MEMORY_RTC = m3 at *
    by_cases c0 : a < m0.size
    · simp only [c0, if_true, d0, if_false]
      refine ⟨fun _ => ?_, fun _ _ => ?_, fun _ _ => ?_, fun _ _ => ?_, fun _ => ?_, fun _ => ?_⟩ <;>
        first | trivial | omega
    · have u0 := usub_of_le a m0.size (by omega) hmod
      simp only [c0, if_false, u0]
      by_cases c1 : a - m0.size < m1.size
      · simp only [c1, if_true, d1, if_false]
        refine ⟨fun _ => ?_, fun _ _ => ?_, fun _ _ => ?_, fun _ _ => ?_, fun _ => ?_, fun _ => ?_⟩ <;>
        first | trivial | omega
      · have u1 := usub_of_le (a - m0.size) m1.size (by omega) (by omega)
        simp only [c1, if_false, u1]
        by_cases c2 : a - m0.size - m1.size < m2.size
        · simp only [c2, if_true, d2, if_false]
          refine ⟨fun _ => ?_, fun _ _ => ?_, fun _ _ => ?_, fun _ _ => ?_, fun _ => ?_, fun _ => ?_⟩ <;>
        first | trivial | omega
        · have u2 := usub_of_le (a - m0.size - m1.size) m2.size (by omega) (by omega)
          simp only [c2, if_false, u2]
          by_cases c3 : a - m0.size - m1.size - m2.size < m3.size
          · simp only [c3, if_true, d3, if_false]
            refine ⟨fun _ => ?_, fun _ _ => ?_, fun _ _ => ?_, fun _ _ => ?_, fun _ => ?_, fun _ => ?_⟩ <;>
        first | trivial | omega
          · simp only [c3, if_false, if_true]
            refine ⟨fun _ => ?_, fun _ _ => ?_, fun _ _ => ?_, fun _ _ => ?_, fun _ => ?_, fun _ => ?_⟩ <;>
        first | trivial | omega
  · intro hnes h6 hsys hsave hptr
    have hmirror : ¬ (console = RC_CONSOLE_NINTENDO ∧ 0x0800 ≤ a ∧ a < 0x2000) := by omega
    have hgbc : ¬ (console = RC_CONSOLE_GAMEBOY_COLOR ∧ 0xE000 ≤ a ∧ a ≤ 0xFDFF) := by
      rw [hnes]
      exact fun h => absurd h.1 (by decide)
    rw [cheevos_patch_address_fallback host a console htable hmirror hgbc]
    have u0 := usub_of_le a 0x6000 h6 hmod
    simp only [cheevos_patch_address_probe, hnes, and_self, if_true, not_lt.mpr hsys, if_false,
      u0, hsave, hptr]


/-- The bytes put together by `cheevos_peek` are the little-endian number: the
shifted bytes have no bit in common. -/
theorem cheevos_peek_compose (b0 b1 b2 b3 : Nat) (h0 : b0 < 256) (h1 : b1 < 256)
    (h2 : b2 < 256) (_h3 : b3 < 256) :
    ((0 ||| ((b2 <<< 16) ||| (b3 <<< 24))) ||| (b1 <<< 8)) ||| b0 =
      b0 + 256 * b1 + 65536 * b2 + 16777216 * b3 ∧
    (0 ||| (b1 <<< 8)) ||| b0 = b0 + 256 * b1 := by
  have e3 : b3 <<< 24 = 2 ^ 24 * b3 := by rw [Nat.shiftLeft_eq, Nat.mul_comm]
  have e2 : b2 <<< 16 = 2 ^ 16 * b2 := by rw [Nat.shiftLeft_eq, Nat.mul_comm]
  have e1 : b1 <<< 8 = 2 ^ 8 * b1 := by rw [Nat.shiftLeft_eq, Nat.mul_comm]
  have s1 : 2 ^ 8 * b1 ||| b0 = 2 ^ 8 * b1 + b0 :=
    (Nat.mul_add_lt_is_or (by omega : b0 < 2 ^ 8) b1).symm
  have s2 : 2 ^ 24 * b3 ||| 2 ^ 16 * b2 = 2 ^ 24 * b3 + 2 ^ 16 * b2 := by
    have h := (Nat.mul_add_lt_is_or (by omega : 2 ^ 16 * b2 < 2 ^ 24) b3).symm
    exact h
  have s3 : 2 ^ 16 * (2 ^ 8 * b3 + b2) ||| (2 ^ 8 * b1 + b0) =
      2 ^ 16 * (2 ^ 8 * b3 + b2) + (2 ^ 8 * b1 + b0) :=
    (Nat.mul_add_lt_is_or (by omega : 2 ^ 8 * b1 + b0 < 2 ^ 16) _).symm
  constructor
  · rw [Nat.zero_or, e1, e2, e3, Nat.or_assoc, s1, Nat.or_comm (2 ^ 16 * b2), s2]
    have e4 : 2 ^ 24 * b3 + 2 ^ 16 * b2 = 2 ^ 16 * (2 ^ 8 * b3 + b2) := by omega
    rw [e4, s3]
    omega
  · rw [Nat.zero_or, e1, s1]
    omega

/-- C20.  When the address is mapped, that is `cheevos_fixup_find` returns a
location `data` other than null, `cheevos_peek` returns the byte at `data` for
`num_bytes = 1`, that byte plus 256 times the next for `num_bytes = 2`, and the
four bytes from `data` on with the weights 1, 256, 65536 and 16777216 for
`num_bytes = 4`. -/
theorem cheevos_peek_little_endian (host : cheevos_host) (mem : Nat → Nat) (realloc_ok : Bool)
    (locals : cheevos_locals_t) (address data : Nat)
    (hdata : (cheevos_fixup_find host realloc_ok locals.fixups address
      (int_of_unsigned locals.console_id)).location = data)
    (hmapped : data ≠ 0) :
    (cheevos_peek host mem realloc_ok locals address 1).1 = some (mem data % 256) ∧
    (cheevos_peek host mem realloc_ok locals address 2).1 =
      some (mem data % 256 + 256 * (mem (data + 1) % 256)) ∧
    (cheevos_peek host mem realloc_ok locals address 4).1 =
      some (mem data % 256 + 256 * (mem (data + 1) % 256) + 65536 * (mem (data + 2) % 256)
        + 16777216 * (mem (data + 3) % 256)) := by
  have hc := cheevos_peek_compose (mem data % 256) (mem (data + 1) % 256)
    (mem (data + 2) % 256) (mem (data + 3) % 256) (Nat.mod_lt _ (by decide))
    (Nat.mod_lt _ (by decide)) (Nat.mod_lt _ (by decide)) (Nat.mod_lt _ (by decide))
  refine ⟨?_, ?_, ?_⟩
  · simp [cheevos_peek, hdata, cheevos_read, hmapped]
  · have h2 := hc.2
    rw [Nat.zero_or] at h2
    simp only [cheevos_peek, hdata, cheevos_read, hmapped, if_false]
    simp [h2]
  · have h1 := hc.1
    rw [Nat.zero_or] at h1
    simp only [cheevos_peek, hdata, cheevos_read, hmapped, if_false]
    simp [h1]

/-- When `cheevos_fixup_find` returns the null pointer and `num_bytes` is 1, 2 or
4, `cheevos_peek` reads through the null pointer. -/
theorem cheevos_peek_null (host : cheevos_host) (mem : Nat → Nat) (realloc_ok : Bool)
    (locals : cheevos_locals_t) (address num_bytes : Nat)
    (hnull : (cheevos_fixup_find host realloc_ok locals.fixups address
      (int_of_unsigned locals.console_id)).location = 0)
    (hn : num_bytes = 1 ∨ num_bytes = 2 ∨ num_bytes = 4) :
    (cheevos_peek host mem realloc_ok locals address num_bytes).1 = none := by
  rcases hn with rfl | rfl | rfl <;> simp [cheevos_peek, hnull, cheevos_read]

/-- C18 fails on the code: with a core that exposes no memory, `cheevos_fixup_find`
returns the null pointer for the address 0, and `cheevos_peek` for 1, 2 and 4
bytes reads through it instead of returning 0. -/
theorem cheevos_peek_null_dereference :
    (cheevos_fixup_find sample_no_memory true cheevos_fixup_init 0 0).location = 0 ∧
    (cheevos_peek sample_no_memory sample_mem true
      { console_id := 0, fixups := cheevos_fixup_init } 0 1).1 = none ∧
    (cheevos_peek sample_no_memory sample_mem true
      { console_id := 0, fixups := cheevos_fixup_init } 0 2).1 = none ∧
    (cheevos_peek sample_no_memory sample_mem true
      { console_id := 0, fixups := cheevos_fixup_init } 0 4).1 = none := by
  decide

/-- C15, instantiated: with the single descriptor of the specification at the
host address 0x500000, the address 0x1234 resolves to 0x500000 + 0x1234. -/
theorem cheevos_patch_address_descriptor_witness :
    cheevos_patch_address sample_host 0x1234 0 = 0x500000 + 0x1234 :=
  ((cheevos_patch_address_descriptor sample_host 0x1234 0 (by decide) (by decide)).1 [] []
    { ptr := 0x500000, offset := 0, start := 0, select := 0xFF0000, disconnect := 0,
      len := 0x10000, disconnect_mask := 2 ^ 64 - 1 } rfl (fun _ h => absurd h (List.not_mem_nil _))
    (by decide)).2 (by decide) rfl (by decide) (by decide) (by decide)

/-- C15 as stated fails twice.  The descriptor `sample_null` matches the address
0x1234, has no disconnect bits, keeps every bit of the difference, and the
difference is below its length, but its `ptr` is null: the result is null and not
`d.ptr + d.offset + (address - d.start)`.  The descriptor `sample_far` does the
same for the address 1, but its offset is 2^32 - 1: the sum wraps in the
`unsigned` address and the result is `d.ptr`. -/
theorem cheevos_patch_address_descriptor_fails :
    (cheevos_console_plain 0 ∧
      (sample_null.start ^^^ 0x1234) &&& sample_null.select = 0 ∧
      sample_null.disconnect = 0 ∧
      size_sub 64 0x1234 sample_null.start &&& sample_null.disconnect_mask
        = size_sub 64 0x1234 sample_null.start ∧
      size_sub 64 0x1234 sample_null.start < sample_null.len ∧
      cheevos_patch_address sample_unmapped 0x1234 0 = 0 ∧
      sample_null.ptr + sample_null.offset + size_sub 64 0x1234 sample_null.start = 0x1334) ∧
    ((sample_far.start ^^^ 0x0001) &&& sample_far.select = 0 ∧
      sample_far.disconnect = 0 ∧
      size_sub 64 0x0001 sample_far.start &&& sample_far.disconnect_mask
        = size_sub 64 0x0001 sample_far.start ∧
      size_sub 64 0x0001 sample_far.start < sample_far.len ∧
      cheevos_patch_address sample_wrapped 0x0001 0 = 0x500000 ∧
      sample_far.ptr + sample_far.offset + size_sub 64 0x0001 sample_far.start
        = 0x500000 + 0x100000000) := by
  decide

/-- C17, instantiated: without descriptor table, the address 0x0900 misses the
0x800 bytes of system RAM and resolves to save RAM at offset 0x100; on the NES
the address 0x6010 resolves to save RAM at offset 0x10. -/
theorem cheevos_patch_address_regions_witness :
    cheevos_patch_address sample_regions 0x0900 0 = 0x8000 + (0x0900 - 0x0800) ∧
    cheevos_patch_address sample_regions 0x6010 RC_CONSOLE_NINTENDO = 0x8000 + (0x6010 - 0x6000) :=
  ⟨((cheevos_patch_address_regions sample_regions 0x0900 0 rfl (by decide)).1 (by decide)
      (by decide) (fun id => by cases id <;> decide)).2.1 (by decide) (by decide),
    (cheevos_patch_address_regions sample_regions 0x6010 RC_CONSOLE_NINTENDO rfl (by decide)).2
      rfl (by decide) (by decide) (by decide) (by decide)⟩

/-- C17 as stated fails on the Game Boy Color: without descriptor table and with
0x10000 bytes of system RAM, the address 0xE000 lies in system RAM, so C17 as
stated gives system RAM at offset 0xE000; `cheevos_patch_address` takes 0x2000 off the
address first and returns system RAM at offset 0xC000. -/
theorem cheevos_patch_address_regions_echo :
    sample_gbc.descriptors = [] ∧ RC_CONSOLE_GAMEBOY_COLOR ≠ RC_CONSOLE_NINTENDO ∧
    (sample_gbc.core_get_memory .RETRO_MEMORY_SYSTEM_RAM).data ≠ 0 ∧
    (sample_gbc.core_get_memory .RETRO_MEMORY_SAVE_RAM).data ≠ 0 ∧
    (sample_gbc.core_get_memory .RETRO_MEMORY_VIDEO_RAM).data ≠ 0 ∧
    (sample_gbc.core_get_memory .RETRO_MEMORY_RTC).data ≠ 0 ∧
    0xE000 < (sample_gbc.core_get_memory .RETRO_MEMORY_SYSTEM_RAM).size ∧
    cheevos_patch_address sample_gbc 0xE000 RC_CONSOLE_GAMEBOY_COLOR = 0x100000 + 0xC000 ∧
    cheevos_patch_address sample_gbc 0xE000 RC_CONSOLE_GAMEBOY_COLOR ≠
      (sample_gbc.core_get_memory .RETRO_MEMORY_SYSTEM_RAM).data + 0xE000 := by
  decide

/-- C20, instantiated: the descriptor of the specification maps the address
0x1234 to 0x501234, and a read of four bytes puts the bytes from there on
together, least significant first. -/
theorem cheevos_peek_little_endian_witness :
    (cheevos_peek sample_host sample_mem true { console_id := 0, fixups := cheevos_fixup_init }
      0x1234 4).1 =
    some (sample_mem 0x501234 % 256 + 256 * (sample_mem (0x501234 + 1) % 256)
      + 65536 * (sample_mem (0x501234 + 2) % 256)
      + 16777216 * (sample_mem (0x501234 + 3) % 256)) :=
  (cheevos_peek_little_endian sample_host sample_mem true
    { console_id := 0, fixups := cheevos_fixup_init } 0x1234 0x501234 (by decide)
    (by decide)).2.2

/-! ## Theorems: `cheevos_fixup_find` -/

/-- The sign of `cheevos_cmpaddr` is the order of the two addresses. -/
theorem cheevos_cmpaddr_sign (f1 f2 : cheevos_fixup_t) :
    (cheevos_cmpaddr f1 f2 < 0 ↔ f1.address < f2.address) ∧
    (cheevos_cmpaddr f1 f2 > 0 ↔ f1.address > f2.address) ∧
    (cheevos_cmpaddr f1 f2 ≤ 0 ↔ f1.address ≤ f2.address) := by
  unfold cheevos_cmpaddr
  split_ifs with h1 h2
  · exact ⟨⟨fun _ => h1, fun _ => by decide⟩, ⟨fun h => absurd h (by decide), fun h => by omega⟩,
      ⟨fun _ => by omega, fun _ => by decide⟩⟩
  · exact ⟨⟨fun h => absurd h (by decide), fun h => by omega⟩, ⟨fun _ => h2, fun _ => by decide⟩,
      ⟨fun h => absurd h (by decide), fun h => by omega⟩⟩
  · exact ⟨⟨fun h => absurd h (by decide), fun h => by omega⟩,
      ⟨fun h => absurd h (by decide), fun h => by omega⟩, ⟨fun _ => by omega, fun _ => by decide⟩⟩

/-- An entry returned by the binary search is an entry of the array with the
address of the key. -/
theorem bsearch_loop_sound (key : cheevos_fixup_t) (base : List cheevos_fixup_t) (fuel : Nat) :
    ∀ (l u : Nat) (p : cheevos_fixup_t),
      bsearch_loop cheevos_cmpaddr key base fuel l u = some p →
      p ∈ base ∧ p.address = key.address := by
  induction fuel with
  | zero => intro l u p h; simp [bsearch_loop] at h
  | succ fuel ih =>
    intro l u p h
    rw [bsearch_loop] at h
    split_ifs at h with hlu
    simp only [] at h
    rcases hget : base[(l + u) / 2]? with _ | q
    · rw [hget] at h; simp at h
    · rw [hget] at h
      simp only [] at h
      have hs := cheevos_cmpaddr_sign key q
      split_ifs at h with h1 h2
      · exact ih _ _ _ h
      · exact ih _ _ _ h
      · simp only [Option.some.injEq] at h
        subst h
        refine ⟨List.getElem?_mem hget, ?_⟩
        have n1 := mt hs.1.mpr h1
        have n2 := mt hs.2.1.mpr h2
        omega

/-- On an array in strictly ascending order of addresses, the binary search
between `l` and `u` returns the entry with the address of the key, when its index
lies between `l` and `u`. -/
theorem bsearch_loop_complete (key : cheevos_fixup_t) (base : List cheevos_fixup_t)
    (hs : base.Pairwise (fun e1 e2 => e1.address < e2.address))
    (i : Nat) (hi : i < base.length) (hkey : base[i].address = key.address) (fuel : Nat) :
    ∀ (l u : Nat), l ≤ i → i < u → u ≤ base.length → u - l < fuel →
      bsearch_loop cheevos_cmpaddr key base fuel l u = some base[i] := by
  have hget := List.pairwise_iff_getElem.mp hs
  induction fuel with
  | zero => intro l u _ _ _ h; exact absurd h (Nat.not_lt_zero _)
  | succ fuel ih =>
    intro l u hl hu hlen hfuel
    have hlu : l < u := by omega
    have hidx : (l + u) / 2 < base.length := by omega
    have hsign := cheevos_cmpaddr_sign key base[(l + u) / 2]
    rw [bsearch_loop]
    simp only [hlu, if_true, List.getElem?_eq_getElem hidx]
    by_cases h1 : cheevos_cmpaddr key base[(l + u) / 2] < 0
    · simp only [h1, if_true]
      have h2 := hsign.1.mp h1
      have h3 : i < (l + u) / 2 := by
        by_contra hc
        rcases Nat.eq_or_lt_of_le (not_lt.mp hc) with h | h
        · simp only [h] at h2; omega
        · have := hget _ _ hidx hi h
          omega
      exact ih l ((l + u) / 2) hl h3 (by omega) (by omega)
    · by_cases h4 : cheevos_cmpaddr key base[(l + u) / 2] > 0
      · simp only [h1, if_false, h4, if_true]
        have h2 := hsign.2.1.mp h4
        have h3 : (l + u) / 2 < i := by
          by_contra hc
          rcases Nat.eq_or_lt_of_le (not_lt.mp hc) with h | h
          · simp only [← h] at h2; omega
          · have := hget _ _ hi hidx h
            omega
        exact ih ((l + u) / 2 + 1) u (by omega) hu hlen (by omega)
      · simp only [h1, if_false, h4]
        have n1 := mt hsign.1.mpr h1
        have n2 := mt hsign.2.1.mpr h4
        have h3 : (l + u) / 2 = i := by
          rcases Nat.lt_trichotomy ((l + u) / 2) i with h | h | h
          · have := hget _ _ hidx hi h
            omega
          · exact h
          · have := hget _ _ hi hidx h
            omega
        simp only [h3]


/-- The binary search of `bsearch` finds an entry with the address of the key if
the array, in strictly ascending order of addresses, has one, and what it returns
is always such an entry. -/
theorem bsearch_spec (key : cheevos_fixup_t) (base : List cheevos_fixup_t) :
    (∀ p, bsearch cheevos_cmpaddr key base = some p → p ∈ base ∧ p.address = key.address) ∧
    (base.Pairwise (fun e1 e2 => e1.address < e2.address) →
      ∀ e ∈ base, e.address = key.address → bsearch cheevos_cmpaddr key base = some e) := by
  constructor
  · intro p h
    exact bsearch_loop_sound key base _ _ _ p h
  · intro hs e he hkey
    obtain ⟨i, hi, rfl⟩ := List.mem_iff_getElem.mp he
    exact bsearch_loop_complete key base hs i hi hkey _ 0 base.length (Nat.zero_le _) hi
      (le_refl _) (by omega)

/-- The model of `qsort` with `cheevos_cmpaddr` permutes the array, and puts an
array without repeated addresses in strictly ascending order of addresses. -/
theorem qsort_cmpaddr (base : List cheevos_fixup_t) :
    (qsort cheevos_cmpaddr base).Perm base ∧
    ((base.map (fun e => e.address)).Nodup →
      (qsort cheevos_cmpaddr base).Pairwise (fun e1 e2 => e1.address < e2.address)) := by
  have hperm : (qsort cheevos_cmpaddr base).Perm base := List.perm_insertionSort _ base
  refine ⟨hperm, fun hnd => ?_⟩
  haveI : IsTotal cheevos_fixup_t (fun a b => cheevos_cmpaddr a b ≤ 0) :=
    ⟨fun a b => by
      simp only [(cheevos_cmpaddr_sign a b).2.2, (cheevos_cmpaddr_sign b a).2.2]
      exact Nat.le_total _ _⟩
  haveI : IsTrans cheevos_fixup_t (fun a b => cheevos_cmpaddr a b ≤ 0) :=
    ⟨fun a b c => by
      simp only [(cheevos_cmpaddr_sign a b).2.2, (cheevos_cmpaddr_sign b c).2.2,
        (cheevos_cmpaddr_sign a c).2.2]
      exact Nat.le_trans⟩
  have hsorted : (qsort cheevos_cmpaddr base).Pairwise (fun a b => cheevos_cmpaddr a b ≤ 0) :=
    List.sorted_insertionSort _ base
  have hnd2 : ((qsort cheevos_cmpaddr base).map (fun e => e.address)).Nodup :=
    (hperm.map _).nodup_iff.mpr hnd
  have hne : (qsort cheevos_cmpaddr base).Pairwise (fun e1 e2 => e1.address ≠ e2.address) := by
    rw [List.Nodup, List.pairwise_map] at hnd2
    exact hnd2
  refine (hsorted.and hne).imp ?_
  intro a b h
  have := (cheevos_cmpaddr_sign a b).2.2.mp h.1
  have := h.2
  omega

/-- The lazy sort of `cheevos_fixup_find` on a well-formed cache: the entries are
permuted, put in strictly ascending order, and the capacity stays. -/
theorem cheevos_fixup_sort_ok (fixups : cheevos_fixups_t) :
    (cheevos_fixup_sort fixups).elements.Perm fixups.elements ∧
    (cheevos_fixup_sort fixups).capacity = fixups.capacity ∧
    (cheevos_fixup_sort fixups).dirty = false ∧
    (cheevos_fixups_ok fixups →
      (cheevos_fixup_sort fixups).elements.Pairwise (fun e1 e2 => e1.address < e2.address)) := by
  unfold cheevos_fixup_sort
  by_cases hd : fixups.dirty = true
  · simp only [hd, if_true, true_and]
    exact ⟨(qsort_cmpaddr _).1, fun h => (qsort_cmpaddr _).2 h.1⟩
  · have hf : fixups.dirty = false := by simpa using hd
    rw [if_neg hd]
    exact ⟨List.Perm.refl _, rfl, hf, fun h => h.2 hf⟩


/-- Growing the array changes neither the entries nor the dirty mark. -/
theorem cheevos_fixup_grow_keeps (realloc_ok : Bool) (fixups grown : cheevos_fixups_t)
    (h : cheevos_fixup_grow realloc_ok fixups = some grown) :
    grown.elements = fixups.elements ∧ grown.dirty = fixups.dirty := by
  unfold cheevos_fixup_grow at h
  split_ifs at h <;> simp only [Option.some.injEq, reduceCtorEq] at h <;> subst h <;>
    exact ⟨rfl, rfl⟩

/-- A call of `cheevos_fixup_find` for an address that a well-formed cache holds
returns the cached location from line 96 and leaves the sorted cache. -/
theorem cheevos_fixup_find_hit (host : cheevos_host) (realloc_ok : Bool)
    (fixups : cheevos_fixups_t) (address : Nat) (console : Int)
    (hok : cheevos_fixups_ok fixups) (e : cheevos_fixup_t) (he : e ∈ fixups.elements)
    (ha : e.address = address) :
    cheevos_fixup_find host realloc_ok fixups address console =
      { location := e.location, fixups := cheevos_fixup_sort fixups, exit := .cached } := by
  obtain ⟨hperm, _, _, hsorted⟩ := cheevos_fixup_sort_ok fixups
  have hb := (bsearch_spec { address := address, location := 0 }
    (cheevos_fixup_sort fixups).elements).2 (hsorted hok) e (hperm.mem_iff.mpr he) ha
  simp only [cheevos_fixup_find, hb]

/-- A call of `cheevos_fixup_find` keeps the entries of the cache. -/
theorem cheevos_fixup_find_keeps (host : cheevos_host) (realloc_ok : Bool)
    (fixups : cheevos_fixups_t) (address : Nat) (console : Int) (e : cheevos_fixup_t)
    (he : e ∈ fixups.elements) :
    e ∈ (cheevos_fixup_find host realloc_ok fixups address console).fixups.elements := by
  have hperm := (cheevos_fixup_sort_ok fixups).1
  have he2 := hperm.mem_iff.mpr he
  simp only [cheevos_fixup_find]
  rcases bsearch cheevos_cmpaddr { address := address, location := 0 }
    (cheevos_fixup_sort fixups).elements with _ | p
  · rcases hg : cheevos_fixup_grow realloc_ok (cheevos_fixup_sort fixups) with _ | g
    · exact he2
    · simp only [(cheevos_fixup_grow_keeps _ _ _ hg).1]
      exact List.mem_append_left _ he2
  · exact he2

/-- A call of `cheevos_fixup_find` on a well-formed cache leaves a well-formed
cache. -/
theorem cheevos_fixup_find_ok (host : cheevos_host) (realloc_ok : Bool)
    (fixups : cheevos_fixups_t) (address : Nat) (console : Int)
    (hok : cheevos_fixups_ok fixups) :
    cheevos_fixups_ok (cheevos_fixup_find host realloc_ok fixups address console).fixups := by
  obtain ⟨hperm, _, hdirty, hsorted⟩ := cheevos_fixup_sort_ok fixups
  have hsok : cheevos_fixups_ok (cheevos_fixup_sort fixups) :=
    ⟨(hperm.map _).nodup_iff.mpr hok.1, fun _ => hsorted hok⟩
  simp only [cheevos_fixup_find]
  rcases hb : bsearch cheevos_cmpaddr { address := address, location := 0 }
    (cheevos_fixup_sort fixups).elements with _ | p
  · rcases hg : cheevos_fixup_grow realloc_ok (cheevos_fixup_sort fixups) with _ | g
    · exact hsok
    · have hnew : address ∉ (cheevos_fixup_sort fixups).elements.map (fun e => e.address) := by
        intro hmem
        obtain ⟨e, he, hea⟩ := List.mem_map.mp hmem
        have := (bsearch_spec { address := address, location := 0 }
          (cheevos_fixup_sort fixups).elements).2 (hsorted hok) e he hea
        rw [hb] at this
        exact absurd this (by simp)
      refine ⟨?_, fun h => absurd h (by simp)⟩
      simp only [(cheevos_fixup_grow_keeps _ _ _ hg).1, List.map_append, List.map_cons,
        List.map_nil]
      exact List.Nodup.append hsok.1 (List.nodup_singleton _)
        (by simpa [List.Disjoint] using hnew)
  · exact hsok

/-- A call of `cheevos_fixup_find` that does not end at line 107 leaves the
address in the cache, with the location it returns. -/
theorem cheevos_fixup_find_recorded (host : cheevos_host) (realloc_ok : Bool)
    (fixups : cheevos_fixups_t) (address : Nat) (console : Int)
    (h : (cheevos_fixup_find host realloc_ok fixups address console).exit ≠ .failed) :
    ∃ e ∈ (cheevos_fixup_find host realloc_ok fixups address console).fixups.elements,
      e.address = address ∧
      e.location = (cheevos_fixup_find host realloc_ok fixups address console).location := by
  simp only [cheevos_fixup_find] at h ⊢
  rcases hb : bsearch cheevos_cmpaddr { address := address, location := 0 }
    (cheevos_fixup_sort fixups).elements with _ | p
  · rw [hb] at h
    rcases hg : cheevos_fixup_grow realloc_ok (cheevos_fixup_sort fixups) with _ | g
    · rw [hg] at h
      exact absurd rfl h
    · exact ⟨_, List.mem_append_right _ (List.mem_singleton.mpr rfl), rfl, rfl⟩
  · have hs := (bsearch_spec { address := address, location := 0 }
      (cheevos_fixup_sort fixups).elements).1 p hb
    exact ⟨p, hs.1, hs.2, rfl⟩

/-- A sequence of calls of `cheevos_fixup_find` keeps the cache well formed and
keeps its entries. -/
theorem cheevos_fixup_run_ok (calls : List cheevos_find_call) :
    ∀ fixups : cheevos_fixups_t,
      (cheevos_fixups_ok fixups → cheevos_fixups_ok (cheevos_fixup_run fixups calls)) ∧
      (∀ e ∈ fixups.elements, e ∈ (cheevos_fixup_run fixups calls).elements) := by
  induction calls with
  | nil => intro fixups; exact ⟨fun h => h, fun _ h => h⟩
  | cons c cs ih =>
    intro fixups
    have h := ih (cheevos_fixup_find c.host c.realloc_ok fixups c.address c.console).fixups
    exact ⟨fun hok => h.1 (cheevos_fixup_find_ok _ _ _ _ _ hok),
      fun e he => h.2 e (cheevos_fixup_find_keeps _ _ _ _ _ e he)⟩

/-- The empty cache is well formed. -/
theorem cheevos_fixup_init_ok : cheevos_fixups_ok cheevos_fixup_init :=
  ⟨List.nodup_nil, fun _ => List.Pairwise.nil⟩

/-- C16.  Start from the empty cache and make any calls of `cheevos_fixup_find`;
let a call `first` for an address end otherwise than by the failure of `realloc`;
make any further calls, for any addresses, in any memory environment, with or
without memory for the array.  Then a call `later` for the same address returns
the location that `first` returned, ends at line 96, the path that does not call
`cheevos_patch_address`, and leaves `count` as it was. -/
theorem cheevos_fixup_find_cached (before between : List cheevos_find_call)
    (first later : cheevos_find_call) (ha : later.address = first.address) :
    let r1 := cheevos_fixup_find first.host first.realloc_ok
      (cheevos_fixup_run cheevos_fixup_init before) first.address first.console
    let s2 := cheevos_fixup_run r1.fixups between
    let r2 := cheevos_fixup_find later.host later.realloc_ok s2 later.address later.console
    r1.exit ≠ .failed →
      r2.location = r1.location ∧ r2.exit = .cached ∧ r2.fixups.count = s2.count := by
  intro r1 s2 r2 hfirst
  have h0 := ((cheevos_fixup_run_ok before) cheevos_fixup_init).1 cheevos_fixup_init_ok
  have h1 : cheevos_fixups_ok r1.fixups :=
    cheevos_fixup_find_ok first.host first.realloc_ok _ first.address first.console h0
  obtain ⟨e, he, hea, hel⟩ := cheevos_fixup_find_recorded _ _ _ _ _ hfirst
  have h2 := (cheevos_fixup_run_ok between) r1.fixups
  have hit : r2 = _ := cheevos_fixup_find_hit later.host later.realloc_ok s2 later.address
    later.console (h2.1 h1) e (h2.2 e he) (hea.trans ha.symm)
  rw [hit]
  exact ⟨hel, rfl, (cheevos_fixup_sort_ok s2).1.length_eq⟩

/-- C19.  A call of `cheevos_fixup_find` that ends because `realloc` gave no block
returns the null pointer; `count` and `capacity` are as before the call; the
entries of the cache are those before the call, up to their order; and when the
cache was built by calls of `cheevos_fixup_find` from the empty cache, the address
is not among them. -/
theorem cheevos_fixup_find_no_memory (host : cheevos_host) (realloc_ok : Bool)
    (fixups : cheevos_fixups_t) (address : Nat) (console : Int)
    (hfail : (cheevos_fixup_find host realloc_ok fixups address console).exit = .failed) :
    (cheevos_fixup_find host realloc_ok fixups address console).location = 0 ∧
    (cheevos_fixup_find host realloc_ok fixups address console).fixups.count = fixups.count ∧
    (cheevos_fixup_find host realloc_ok fixups address console).fixups.capacity
      = fixups.capacity ∧
    (cheevos_fixup_find host realloc_ok fixups address console).fixups.elements.Perm
      fixups.elements ∧
    ((∃ calls, fixups = cheevos_fixup_run cheevos_fixup_init calls) →
      ∀ e ∈ (cheevos_fixup_find host realloc_ok fixups address console).fixups.elements,
        e.address ≠ address) := by
  obtain ⟨hperm, hcap, _, hsorted⟩ := cheevos_fixup_sort_ok fixups
  simp only [cheevos_fixup_find] at hfail ⊢
  rcases hb : bsearch cheevos_cmpaddr { address := address, location := 0 }
    (cheevos_fixup_sort fixups).elements with _ | p
  · rw [hb] at hfail
    rcases hg : cheevos_fixup_grow realloc_ok (cheevos_fixup_sort fixups) with _ | g
    · refine ⟨rfl, hperm.length_eq, hcap, hperm, ?_⟩
      rintro ⟨calls, rfl⟩ e he hea
      have hok := ((cheevos_fixup_run_ok calls) cheevos_fixup_init).1 cheevos_fixup_init_ok
      have := (bsearch_spec { address := address, location := 0 }
        (cheevos_fixup_sort (cheevos_fixup_run cheevos_fixup_init calls)).elements).2
        (hsorted hok) e he hea
      rw [hb] at this
      exact absurd this (by simp)
    · rw [hg] at hfail
      exact absurd hfail (by simp)
  · rw [hb] at hfail
    exact absurd hfail (by simp)

/-- C16, instantiated: the address 0x1234 is resolved through the descriptor of
the specification; three calls for other addresses follow; then a call for
0x1234, made when the core exposes no memory and `realloc` gives no block, still
returns 0x500000 + 0x1234 from the cache. -/
theorem cheevos_fixup_find_cached_witness :
    (cheevos_fixup_find sample_no_memory false
      (cheevos_fixup_run (cheevos_fixup_find sample_host true cheevos_fixup_init 0x1234 0).fixups
        sample_calls) 0x1234 0).location = 0x500000 + 0x1234 ∧
    (cheevos_fixup_find sample_no_memory false
      (cheevos_fixup_run (cheevos_fixup_find sample_host true cheevos_fixup_init 0x1234 0).fixups
        sample_calls) 0x1234 0).exit = .cached := by
  have h := cheevos_fixup_find_cached [] sample_calls
    { host := sample_host, realloc_ok := true, address := 0x1234, console := 0 }
    { host := sample_no_memory, realloc_ok := false, address := 0x1234, console := 0 } rfl
    (by decide)
  exact ⟨h.1.trans (by decide), h.2.1⟩

/-- C19, instantiated: the first call on an empty cache, when `realloc` gives no
block, returns the null pointer and leaves the cache empty, without capacity. -/
theorem cheevos_fixup_find_no_memory_witness :
    (cheevos_fixup_find sample_host false cheevos_fixup_init 0x1234 0).location = 0 ∧
    (cheevos_fixup_find sample_host false cheevos_fixup_init 0x1234 0).fixups.count = 0 ∧
    (cheevos_fixup_find sample_host false cheevos_fixup_init 0x1234 0).fixups.capacity = 0 := by
  have h := cheevos_fixup_find_no_memory sample_host false cheevos_fixup_init 0x1234 0
    (by decide)
  exact ⟨h.1, h.2.1, h.2.2.1⟩

/-! ## Theorems: `rc_reset_lboard` and the flags of `rc_evaluate_lboard` -/

/-- C21.  Whatever the leaderboard holds before, `rc_reset_lboard` sets `started`
and `submitted` to 0, resets the start, submit and cancel triggers, and leaves the
value and the progress as they are. -/
theorem rc_reset_lboard_effect (env : rc_env) (self : rc_lboard_t) :
    (rc_reset_lboard env self).started = 0 ∧
    (rc_reset_lboard env self).submitted = 0 ∧
    (rc_reset_lboard env self).start = env.rc_reset_trigger self.start ∧
    (rc_reset_lboard env self).submit = env.rc_reset_trigger self.submit ∧
    (rc_reset_lboard env self).cancel = env.rc_reset_trigger self.cancel ∧
    (rc_reset_lboard env self).value = self.value ∧
    (rc_reset_lboard env self).progress = self.progress :=
  ⟨rfl, rfl, rfl, rfl, rfl, rfl, rfl⟩

/-- C22.  On a leaderboard that is started and not submitted, `rc_evaluate_lboard`
gives cancel priority over submit: if cancel tests true the call returns
CANCELED, whether or not submit tests true; otherwise, if submit tests true it
returns TRIGGERED; in both cases `started` is cleared and `submitted` set.  If
neither tests true the call returns ACTIVE and leaves both flags as they are. -/
theorem rc_evaluate_lboard_cancel_priority (env : rc_env) (self : rc_lboard_t)
    (peek : rc_peek_t) (L : Nat) (hstarted : self.started ≠ 0) (hsubmitted : self.submitted = 0) :
    ((env.rc_test_trigger self.cancel peek L).1 ≠ 0 →
      (rc_evaluate_lboard env self peek L).action = RC_LBOARD_CANCELED ∧
      (rc_evaluate_lboard env self peek L).self.started = 0 ∧
      (rc_evaluate_lboard env self peek L).self.submitted = 1) ∧
    ((env.rc_test_trigger self.cancel peek L).1 = 0 →
      (env.rc_test_trigger self.submit peek L).1 ≠ 0 →
      (rc_evaluate_lboard env self peek L).action = RC_LBOARD_TRIGGERED ∧
      (rc_evaluate_lboard env self peek L).self.started = 0 ∧
      (rc_evaluate_lboard env self peek L).self.submitted = 1) ∧
    ((env.rc_test_trigger self.cancel peek L).1 = 0 →
      (env.rc_test_trigger self.submit peek L).1 = 0 →
      (rc_evaluate_lboard env self peek L).action = RC_LBOARD_ACTIVE ∧
      (rc_evaluate_lboard env self peek L).self.started = self.started ∧
      (rc_evaluate_lboard env self peek L).self.submitted = self.submitted) := by
  have ha := rc_evaluate_lboard_action env self peek L
  have hb := rc_evaluate_lboard_started env self peek L
  have hc := rc_evaluate_lboard_submitted env self peek L
  simp only [hsubmitted, hstarted, ne_eq, not_true_eq_false, if_false] at ha hb hc
  refine ⟨fun h1 => ?_, fun h1 h2 => ?_, fun h1 h2 => ?_⟩
  · simp only [h1, not_false_eq_true, if_true] at ha hb hc
    exact ⟨ha, hb, hc⟩
  · simp only [h1, h2, not_true_eq_false, not_false_eq_true, if_true, if_false] at ha hb hc
    exact ⟨ha, hb, hc⟩
  · simp only [h1, h2, not_true_eq_false, if_false] at ha hb hc
    exact ⟨ha, hb, hc.trans hsubmitted.symm⟩

/-- The start trigger after a call is the start trigger as the test left it. -/
theorem rc_evaluate_lboard_start (env : rc_env) (self : rc_lboard_t) (peek : rc_peek_t)
    (L : Nat) :
    (rc_evaluate_lboard env self peek L).self.start = (env.rc_test_trigger self.start peek L).2 := by
  by_cases h1 : self.submitted = 0
  · by_cases h2 : self.started = 0
    · by_cases h3 : (env.rc_test_trigger self.start peek L).1 = 0
      · rcases hp : self.progress with _ | p <;>
          simp [rc_evaluate_lboard, hp, h1, h2, h3, RC_LBOARD_INACTIVE, RC_LBOARD_ACTIVE,
            RC_LBOARD_STARTED, RC_LBOARD_TRIGGERED, RC_LBOARD_CANCELED]
      · by_cases h4 : (env.rc_test_trigger self.cancel peek L).1 = 0
        · by_cases h5 : (env.rc_test_trigger self.submit peek L).1 = 0
          · by_cases h6 : (env.rc_test_trigger self.start peek L).2.requirement = none <;>
            by_cases h7 : (env.rc_test_trigger self.start peek L).2.alternative = [] <;>
            rcases hp : self.progress with _ | p <;>
              simp [rc_evaluate_lboard, hp, h1, h2, h3, h4, h5, h6, h7, RC_LBOARD_INACTIVE,
                RC_LBOARD_ACTIVE, RC_LBOARD_STARTED, RC_LBOARD_TRIGGERED, RC_LBOARD_CANCELED]
          · rcases hp : self.progress with _ | p <;>
              simp [rc_evaluate_lboard, hp, h1, h2, h3, h4, h5, RC_LBOARD_INACTIVE,
                RC_LBOARD_ACTIVE, RC_LBOARD_STARTED, RC_LBOARD_TRIGGERED, RC_LBOARD_CANCELED]
        · rcases hp : self.progress with _ | p <;>
            simp [rc_evaluate_lboard, hp, h1, h2, h3, h4, RC_LBOARD_INACTIVE, RC_LBOARD_ACTIVE,
              RC_LBOARD_STARTED, RC_LBOARD_TRIGGERED, RC_LBOARD_CANCELED]
    · by_cases h4 : (env.rc_test_trigger self.cancel peek L).1 = 0 <;>
      by_cases h5 : (env.rc_test_trigger self.submit peek L).1 = 0 <;>
      rcases hp : self.progress with _ | p <;>
        simp [rc_evaluate_lboard, hp, h1, h2, h4, h5, RC_LBOARD_INACTIVE, RC_LBOARD_ACTIVE,
          RC_LBOARD_STARTED, RC_LBOARD_TRIGGERED, RC_LBOARD_CANCELED]
  · by_cases h2 : self.started = 0 <;>
    by_cases h3 : (env.rc_test_trigger self.start peek L).1 = 0 <;>
    rcases hp : self.progress with _ | p <;>
      simp [rc_evaluate_lboard, hp, h1, h2, h3, RC_LBOARD_INACTIVE, RC_LBOARD_ACTIVE,
        RC_LBOARD_STARTED, RC_LBOARD_TRIGGERED, RC_LBOARD_CANCELED]


/-- A run of `rc_evaluate_lboard` calls on a leaderboard that is not started and
whose start trigger is bare: no call reports STARTED or ACTIVE, and the
leaderboard is not started and its start trigger bare at the end. -/
theorem rc_lboard_run_bare (env : rc_env) (hkeeps : rc_test_trigger_keeps_bare env)
    (frames : List (rc_peek_t × Nat)) :
    ∀ self : rc_lboard_t, self.started = 0 → self.start.requirement = none →
      self.start.alternative = [] →
      (∀ a ∈ rc_lboard_actions env self frames,
        a ≠ RC_LBOARD_STARTED ∧ a ≠ RC_LBOARD_ACTIVE) ∧
      (rc_lboard_after env self frames).started = 0 := by
  induction frames with
  | nil => intro self h1 _ _; exact ⟨fun a ha => absurd ha (List.not_mem_nil a), h1⟩
  | cons f frames ih =>
    intro self h1 h2 h3
    have hk := hkeeps self.start f.1 f.2 h2 h3
    have ha := rc_evaluate_lboard_action env self f.1 f.2
    have hb := rc_evaluate_lboard_started env self f.1 f.2
    have hs := rc_evaluate_lboard_start env self f.1 f.2
    simp only [h1, hk.1, hk.2, ne_eq, not_true_eq_false, or_self, if_false, if_true, ite_self]
      at ha hb
    have hrec := ih (rc_evaluate_lboard env self f.1 f.2).self hb (by rw [hs]; exact hk.1)
      (by rw [hs]; exact hk.2)
    simp only [rc_lboard_actions, rc_lboard_after, List.mem_cons]
    refine ⟨?_, hrec.2⟩
    rintro a (rfl | ha2)
    · rw [ha]
      split_ifs <;> decide
    · exact hrec.1 a ha2

/-- C23.  Let the test of a trigger leave a trigger without requirement and
without alternative as such.  From a state with both flags 0, a leaderboard whose
start trigger has neither a requirement nor an alternative is never started: no
run of `rc_evaluate_lboard` calls returns STARTED or ACTIVE, whatever the triggers
yield, and `started` is 0 after every run.  A call in which start and submit test
true and cancel tests false still returns TRIGGERED. -/
theorem rc_evaluate_lboard_never_started (env : rc_env)
    (hkeeps : rc_test_trigger_keeps_bare env) (self : rc_lboard_t)
    (hstarted : self.started = 0) (hsubmitted : self.submitted = 0)
    (hreq : self.start.requirement = none) (halt : self.start.alternative = []) :
    (∀ frames : List (rc_peek_t × Nat),
      (∀ a ∈ rc_lboard_actions env self frames,
        a ≠ RC_LBOARD_STARTED ∧ a ≠ RC_LBOARD_ACTIVE) ∧
      (rc_lboard_after env self frames).started = 0) ∧
    (∀ (peek : rc_peek_t) (L : Nat),
      (env.rc_test_trigger self.start peek L).1 ≠ 0 →
      (env.rc_test_trigger self.submit peek L).1 ≠ 0 →
      (env.rc_test_trigger self.cancel peek L).1 = 0 →
      (rc_evaluate_lboard env self peek L).action = RC_LBOARD_TRIGGERED) := by
  refine ⟨fun frames => rc_lboard_run_bare env hkeeps frames self hstarted hreq halt, ?_⟩
  intro peek L h1 h2 h3
  rw [rc_evaluate_lboard_action]
  simp only [hsubmitted, hstarted, h1, h2, h3, ne_eq, not_true_eq_false, not_false_eq_true,
    and_self, if_true, if_false]

/-- C27.  In every state that calls of `rc_evaluate_lboard` and `rc_reset_lboard`
reach from a freshly parsed or reset leaderboard, `started` and `submitted` are
never both set; and while `submitted` is set every call of `rc_evaluate_lboard`
returns RC_LBOARD_INACTIVE with the value 0. -/
theorem rc_lboard_submitted_inactive (env : rc_env) (self : rc_lboard_t)
    (h : rc_lboard_reachable env self) :
    ¬ (self.started ≠ 0 ∧ self.submitted ≠ 0) ∧
    (self.submitted ≠ 0 → ∀ (peek : rc_peek_t) (L : Nat),
      (rc_evaluate_lboard env self peek L).action = RC_LBOARD_INACTIVE ∧
      (rc_evaluate_lboard env self peek L).value = 0) := by
  have hflags := rc_lboard_reachable_flags env self h
  refine ⟨fun hb => ?_, fun hsub peek L => ?_⟩
  · rcases hflags with h1 | h1
    · exact hb.1 h1
    · exact hb.2 h1
  · have h1 : self.started = 0 := by
      rcases hflags with h1 | h1
      · exact h1
      · exact absurd h1 hsub
    rw [rc_evaluate_lboard_action, rc_evaluate_lboard_stored]
    simp only [hsub, h1, ne_eq, not_false_eq_true, not_true_eq_false, if_true, if_false,
      and_self]

/-- The sample environment tests a trigger without changing it. -/
theorem sample_keeps_bare : rc_test_trigger_keeps_bare sample_env :=
  fun _ _ _ h1 h2 => ⟨h1, h2⟩

/-- C22, instantiated: on a started sample leaderboard with cancel and submit both
true the call returns CANCELED, clears `started` and sets `submitted`. -/
theorem rc_evaluate_lboard_cancel_priority_witness :
    (rc_evaluate_lboard sample_env (sample_lboard 1 0) (sample_peek [0, 1, 1]) 0).action
      = RC_LBOARD_CANCELED ∧
    (rc_evaluate_lboard sample_env (sample_lboard 1 0) (sample_peek [0, 1, 1]) 0).self.started
      = 0 ∧
    (rc_evaluate_lboard sample_env (sample_lboard 1 0) (sample_peek [0, 1, 1]) 0).self.submitted
      = 1 :=
  (rc_evaluate_lboard_cancel_priority sample_env (sample_lboard 1 0) (sample_peek [0, 1, 1]) 0
    (by decide) (by decide)).1 (by decide)

/-- C23, instantiated: the sample leaderboard with a bare start trigger goes
through three frames without STARTED or ACTIVE, and returns TRIGGERED in a call
where start and submit are true and cancel is false. -/
theorem rc_evaluate_lboard_never_started_witness :
    (∀ a ∈ rc_lboard_actions sample_env sample_bare_lboard
        [(sample_peek [1, 0, 0], 0), (sample_peek [1, 0, 1], 0), (sample_peek [0, 0, 0], 0)],
      a ≠ RC_LBOARD_STARTED ∧ a ≠ RC_LBOARD_ACTIVE) ∧
    (rc_evaluate_lboard sample_env sample_bare_lboard (sample_peek [1, 0, 1]) 0).action
      = RC_LBOARD_TRIGGERED :=
  ⟨((rc_evaluate_lboard_never_started sample_env sample_keeps_bare sample_bare_lboard rfl rfl
      rfl rfl).1 _).1,
    (rc_evaluate_lboard_never_started sample_env sample_keeps_bare sample_bare_lboard rfl rfl
      rfl rfl).2 (sample_peek [1, 0, 1]) 0 (by decide) (by decide) (by decide)⟩

/-- C27, instantiated: the sample leaderboard submits in its first frame (start
and submit true); the next call returns INACTIVE with the value 0. -/
theorem rc_lboard_submitted_inactive_witness :
    (rc_evaluate_lboard sample_env
      (rc_evaluate_lboard sample_env (sample_lboard 0 0) (sample_peek [1, 0, 1, 7, 9]) 0).self
      (sample_peek [1, 0, 1, 7, 9]) 0).action = RC_LBOARD_INACTIVE ∧
    (rc_evaluate_lboard sample_env
      (rc_evaluate_lboard sample_env (sample_lboard 0 0) (sample_peek [1, 0, 1, 7, 9]) 0).self
      (sample_peek [1, 0, 1, 7, 9]) 0).value = 0 :=
  (rc_lboard_submitted_inactive sample_env _
    (rc_lboard_reachable.evaluate (sample_lboard 0 0) (sample_peek [1, 0, 1, 7, 9]) 0
      (rc_lboard_reachable.fresh _ rfl rfl))).2 (by decide) (sample_peek [1, 0, 1, 7, 9]) 0

/-! ## Theorems: `cheevos_var_highest_bit` -/

/-- One smearing step of `cheevos_var_highest_bit`: if the bit `i` of `x` is set
exactly when one of the `m` bits of `n` from `i` on is set, then the bit `i` of
`x | x >> m` is set exactly when one of the `2 m` bits of `n` from `i` on is. -/
theorem cheevos_var_smear (n m x : Nat)
    (h : ∀ i, x.testBit i = true ↔ ∃ j, i ≤ j ∧ j < i + m ∧ n.testBit j = true) :
    ∀ i, (x ||| (x >>> m)).testBit i = true ↔
      ∃ j, i ≤ j ∧ j < i + 2 * m ∧ n.testBit j = true := by
  intro i
  rw [Nat.testBit_or, Nat.testBit_shiftRight, Bool.or_eq_true, h i, h (m + i)]
  constructor
  · rintro (⟨j, h1, h2, h3⟩ | ⟨j, h1, h2, h3⟩)
    · exact ⟨j, h1, by omega, h3⟩
    · exact ⟨j, by omega, by omega, h3⟩
  · rintro ⟨j, h1, h2, h3⟩
    by_cases hj : j < i + m
    · exact Or.inl ⟨j, h1, hj, h3⟩
    · exact Or.inr ⟨j, by omega, by omega, h3⟩

/-- The value of `cheevos_var_highest_bit` on a number below 2^32 whose highest
set bit is the bit `k`. -/
theorem cheevos_var_highest_bit_eq (n k : Nat) (hk : n.testBit k = true)
    (htop : ∀ j, k < j → n.testBit j = false) (hlt : n < 2 ^ 32) :
    cheevos_var_highest_bit n = 2 ^ k := by
  have hk32 : k < 32 := by
    by_contra hc
    have h1 := Nat.testBit_implies_ge hk
    have h2 : 2 ^ 32 ≤ 2 ^ k := Nat.pow_le_pow_right (by decide) (not_lt.mp hc)
    omega
  have h0 : ∀ i, n.testBit i = true ↔ ∃ j, i ≤ j ∧ j < i + 1 ∧ n.testBit j = true := by
    intro i
    constructor
    · intro h; exact ⟨i, le_refl _, by omega, h⟩
    · rintro ⟨j, h1, h2, h3⟩
      have : j = i := by omega
      rw [← this]; exact h3
  have h1 := cheevos_var_smear n 1 n h0
  have h2 := cheevos_var_smear n 2 _ h1
  have h4 := cheevos_var_smear n 4 _ h2
  have h8 := cheevos_var_smear n 8 _ h4
  have h16 := cheevos_var_smear n 16 _ h8
  have key : ∀ s : Nat,
      (∀ i, s.testBit i = true ↔ ∃ j, i ≤ j ∧ j < i + 2 * 16 ∧ n.testBit j = true) →
      s ^^^ (s >>> 1) = 2 ^ k := by
    intro s hsmear
    have hs : s = 2 ^ (k + 1) - 1 := by
      apply Nat.eq_of_testBit_eq
      intro i
      rw [Nat.testBit_two_pow_sub_one]
      by_cases hi : i < k + 1
      · rw [decide_eq_true hi]
        exact (hsmear i).mpr ⟨k, by omega, by omega, hk⟩
      · rw [decide_eq_false hi, Bool.eq_false_iff]
        intro hc
        obtain ⟨j, hj1, _, hj3⟩ := (hsmear i).mp hc
        rw [htop j (by omega)] at hj3
        exact absurd hj3 (by decide)
    rw [hs]
    apply Nat.eq_of_testBit_eq
    intro i
    rw [Nat.testBit_xor, Nat.testBit_shiftRight, Nat.testBit_two_pow_sub_one,
      Nat.testBit_two_pow_sub_one, Nat.testBit_two_pow]
    by_cases h1 : i < k
    · simp [h1, show i < k + 1 by omega, show 1 + i < k + 1 by omega, show k ≠ i by omega]
    · by_cases h2 : i = k
      · subst h2
        simp
        omega
      · simp [h2, show ¬ i < k + 1 by omega, show ¬ 1 + i < k + 1 by omega,
          show k ≠ i by omega]
  exact key _ h16

/-- For a positive `n` of 32 bits, `cheevos_var_highest_bit n` is the power of
two at its highest set bit. -/
theorem cheevos_var_highest_bit_pow (n : Nat) (hpos : 0 < n) (hlt : n < 2 ^ 32) :
    ∃ k, cheevos_var_highest_bit n = 2 ^ k ∧ 2 ^ k ≤ n ∧ n < 2 ^ (k + 1) := by
  obtain ⟨k, hk, htop⟩ := Nat.exists_most_significant_bit (Nat.pos_iff_ne_zero.mp hpos)
  exact ⟨k, cheevos_var_highest_bit_eq n k hk htop hlt, Nat.testBit_implies_ge hk,
    Nat.lt_pow_two_of_testBit n (fun j hj => htop j (by omega))⟩

/-- C28.  For every `n` with `0 < n < 2^32`, `cheevos_var_highest_bit n` is the
power of two `2^k` with `2^k ≤ n < 2^(k+1)`, so that
`n - cheevos_var_highest_bit n < cheevos_var_highest_bit n`; and
`cheevos_var_highest_bit 0 = 0`. -/
theorem cheevos_var_highest_bit_spec :
    (∀ n, 0 < n → n < 2 ^ 32 →
      ∃ k, cheevos_var_highest_bit n = 2 ^ k ∧ 2 ^ k ≤ n ∧ n < 2 ^ (k + 1) ∧
        n - cheevos_var_highest_bit n < cheevos_var_highest_bit n) ∧
    cheevos_var_highest_bit 0 = 0 := by
  refine ⟨fun n hpos hlt => ?_, by decide⟩
  obtain ⟨k, h3, h1, h2⟩ := cheevos_var_highest_bit_pow n hpos hlt
  refine ⟨k, h3, h1, h2, ?_⟩
  rw [h3]
  rw [Nat.pow_succ] at h2
  omega

/-- C28, instantiated: the highest set bit of 0x12345 is 0x10000, and what
remains after taking it away is below it. -/
theorem cheevos_var_highest_bit_spec_witness :
    ∃ k, cheevos_var_highest_bit 0x12345 = 2 ^ k ∧ 2 ^ k ≤ 0x12345 ∧ 0x12345 < 2 ^ (k + 1) ∧
      0x12345 - cheevos_var_highest_bit 0x12345 < cheevos_var_highest_bit 0x12345 :=
  cheevos_var_highest_bit_spec.1 0x12345 (by decide) (by decide)

/-! ## Theorems: `cheevos_var_reduce` -/

/-- The bitwise and of two numbers, by their lowest bits and the rest. -/
theorem and_double (x y a b : Nat) (ha : a < 2) (hb : b < 2) :
    (2 * x + a) &&& (2 * y + b) = 2 * (x &&& y) + (a &&& b) := by
  have h := Nat.land_bit (decide (a = 1)) x (decide (b = 1)) y
  interval_cases a <;> interval_cases b <;> simpa [Nat.bit] using h

/-- The bitwise or of two numbers, by their lowest bits and the rest. -/
theorem or_double (x y a b : Nat) (ha : a < 2) (hb : b < 2) :
    (2 * x + a) ||| (2 * y + b) = 2 * (x ||| y) + (a ||| b) := by
  have h := Nat.lor_bit (decide (a = 1)) x (decide (b = 1)) y
  interval_cases a <;> interval_cases b <;> simpa [Nat.bit] using h


/-- On the mask 0 the loop of `cheevos_var_reduce` makes no round. -/
theorem cheevos_var_reduce_loop_zero (bits fuel addr : Nat) :
    cheevos_var_reduce_loop bits fuel addr 0 = addr := by
  cases fuel <;> simp [cheevos_var_reduce_loop]

/-- Deleting no position leaves the number as it is. -/
theorem cheevos_bits_delete_zero (n : Nat) : ∀ addr, cheevos_bits_delete n addr 0 = addr := by
  induction n with
  | zero => intro addr; rfl
  | succ n ih =>
    intro addr
    simp only [cheevos_bits_delete, Nat.zero_mod, Nat.zero_div, ih]
    simp
    omega

/-- Deleting bit positions never gives a greater number. -/
theorem cheevos_bits_delete_le (n : Nat) : ∀ addr mask, cheevos_bits_delete n addr mask ≤ addr := by
  induction n with
  | zero => intro addr mask; exact le_refl _
  | succ n ih =>
    intro addr mask
    simp only [cheevos_bits_delete]
    have h := ih (addr / 2) (mask / 2)
    split_ifs <;> omega

/-- Clearing the lowest set bit of a mask and shifting by one at most halves
it. -/
theorem cheevos_mask_step_le (m : Nat) : 2 * ((m &&& (m - 1)) >>> 1) ≤ m - 1 := by
  have h : m &&& (m - 1) ≤ m - 1 := Nat.and_le_right
  rw [Nat.shiftRight_eq_div_pow]
  omega

/-- The step of the mask on an odd mask: the lowest bit goes, the rest moves
down by one. -/
theorem cheevos_mask_step_odd (q : Nat) : ((2 * q + 1) &&& (2 * q + 1 - 1)) >>> 1 = q := by
  have h := and_double q q 1 0 (by omega) (by omega)
  simp only [Nat.add_sub_cancel, Nat.add_zero] at h ⊢
  rw [h, Nat.and_self, Nat.shiftRight_eq_div_pow]
  simp

/-- A number with its lowest set bit cleared is even. -/
theorem cheevos_and_pred_even (m : Nat) : (m &&& (m - 1)) % 2 = 0 := by
  rcases Nat.even_or_odd' m with ⟨r, rfl | rfl⟩
  · rcases Nat.eq_zero_or_pos r with rfl | hr
    · simp
    · have e : 2 * r - 1 = 2 * (r - 1) + 1 := by omega
      have h := and_double r (r - 1) 0 1 (by omega) (by omega)
      rw [e]
      simp only [Nat.add_zero] at h
      rw [h]
      simp
  · have h := and_double r r 1 0 (by omega) (by omega)
    simp only [Nat.add_sub_cancel, Nat.add_zero] at h ⊢
    rw [h]
    simp

/-- The step of the mask on twice a mask is twice the step on the mask. -/
theorem cheevos_mask_step_even (m : Nat) (hm : 0 < m) :
    ((2 * m) &&& (2 * m - 1)) >>> 1 = 2 * ((m &&& (m - 1)) >>> 1) := by
  have e : 2 * m - 1 = 2 * (m - 1) + 1 := by omega
  have h := and_double m (m - 1) 0 1 (by omega) (by omega)
  simp only [Nat.add_zero] at h
  have hev := cheevos_and_pred_even m
  rw [e, h]
  simp only [Nat.shiftRight_eq_div_pow, pow_one]
  have : (m &&& (m - 1)) % 2 = 0 := hev
  simp only [Nat.zero_and, Nat.add_zero]
  omega


/-- A number and its complement in a word share no bit. -/
theorem cheevos_and_not_self (V q : Nat) (hq : q < 2 ^ V) : q &&& (2 ^ V - 1 - q) = 0 := by
  have e : 2 ^ V - 1 - q = 2 ^ V - (q + 1) := by omega
  rw [e]
  apply Nat.eq_of_testBit_eq
  intro i
  rw [Nat.testBit_and, Nat.testBit_two_pow_sub_succ hq]
  cases q.testBit i <;> simp

/-- One round of the loop on an odd mask: the lowest bit of `addr` is dropped. -/
theorem cheevos_var_reduce_step_odd (W a q : Nat) (ha : a < 2 ^ W) (hq : 2 * q + 1 < 2 ^ W) :
    (a &&& ((2 * q + 1 - 1) &&& (2 ^ W - 1 - (2 * q + 1)))) |||
      ((a >>> 1) &&& (2 ^ W - 1 - ((2 * q + 1 - 1) &&& (2 ^ W - 1 - (2 * q + 1))))) = a / 2 := by
  obtain ⟨V, rfl⟩ : ∃ V, W = V + 1 := by
    cases W with
    | zero => simp at hq
    | succ V => exact ⟨V, rfl⟩
  have hqV : q < 2 ^ V := by rw [pow_succ] at hq; omega
  have e : 2 ^ (V + 1) - 1 - (2 * q + 1) = 2 * (2 ^ V - 1 - q) + 0 := by
    rw [pow_succ]; omega
  have h := and_double q (2 ^ V - 1 - q) 0 0 (by omega) (by omega)
  have t0 : (2 * q + 1 - 1) &&& (2 ^ (V + 1) - 1 - (2 * q + 1)) = 0 := by
    rw [e, Nat.add_sub_cancel]
    simp only [Nat.add_zero] at h ⊢
    rw [h, cheevos_and_not_self V q hqV]
    simp
  rw [t0, Nat.and_zero, Nat.zero_or, Nat.sub_zero, Nat.and_pow_two_sub_one_eq_mod,
    Nat.shiftRight_eq_div_pow, pow_one]
  apply Nat.mod_eq_of_lt
  omega

/-- One round of the loop on an even mask, against the round on half the mask
and half the address in a word one bit shorter: the lowest bit of `addr` stays
in place. -/
theorem cheevos_var_reduce_step_even (V a1 a0 m1 : Nat) (ha0 : a0 < 2) (hm : 0 < m1)
    (hm1 : m1 < 2 ^ V) :
    ((2 * a1 + a0) &&& ((2 * m1 - 1) &&& (2 ^ (V + 1) - 1 - 2 * m1))) |||
      (((2 * a1 + a0) >>> 1) &&&
        (2 ^ (V + 1) - 1 - ((2 * m1 - 1) &&& (2 ^ (V + 1) - 1 - 2 * m1)))) =
    2 * ((a1 &&& ((m1 - 1) &&& (2 ^ V - 1 - m1))) |||
      ((a1 >>> 1) &&& (2 ^ V - 1 - ((m1 - 1) &&& (2 ^ V - 1 - m1))))) + a0 := by
  have e1 : 2 * m1 - 1 = 2 * (m1 - 1) + 1 := by omega
  have e2 : 2 ^ (V + 1) - 1 - 2 * m1 = 2 * (2 ^ V - 1 - m1) + 1 := by
    rw [pow_succ]; omega
  have ht : (2 * m1 - 1) &&& (2 ^ (V + 1) - 1 - 2 * m1) =
      2 * ((m1 - 1) &&& (2 ^ V - 1 - m1)) + 1 := by
    rw [e1, e2, and_double _ _ 1 1 (by omega) (by omega)]
    rfl
  rw [ht]
  generalize htmp : (m1 - 1) &&& (2 ^ V - 1 - m1) = tmp
  have hle : tmp ≤ m1 - 1 := by rw [← htmp]; exact Nat.and_le_left
  have e3 : 2 ^ (V + 1) - 1 - (2 * tmp + 1) = 2 * (2 ^ V - 1 - tmp) + 0 := by
    rw [pow_succ]; omega
  have e4 : (2 * a1 + a0) >>> 1 = 2 * (a1 / 2) + a1 % 2 := by
    rw [Nat.shiftRight_eq_div_pow, pow_one]; omega
  have e5 : a0 &&& 1 = a0 := by interval_cases a0 <;> rfl
  have e6 : a1 >>> 1 = a1 / 2 := by rw [Nat.shiftRight_eq_div_pow, pow_one]
  rw [e3, e4, and_double a1 tmp a0 1 ha0 (by omega),
    and_double (a1 / 2) (2 ^ V - 1 - tmp) (a1 % 2) 0 (by omega) (by omega), e5, e6,
    Nat.and_zero, ← Nat.add_zero (2 * (a1 / 2 &&& 2 ^ V - 1 - tmp)),
    or_double _ _ a0 0 ha0 (by omega), Nat.or_zero]


/-- A round of the loop keeps `addr` within the word. -/
theorem cheevos_var_reduce_step_lt (W a tmp : Nat) (ha : a < 2 ^ W) :
    (a &&& tmp) ||| ((a >>> 1) &&& (2 ^ W - 1 - tmp)) < 2 ^ W := by
  apply Nat.or_lt_two_pow
  · exact lt_of_le_of_lt Nat.and_le_left ha
  · apply lt_of_le_of_lt Nat.and_le_left
    rw [Nat.shiftRight_eq_div_pow, pow_one]
    omega

/-- The loop on twice a mask, in a word one bit longer, keeps the lowest bit of
`addr` and works on the other bits as the loop on the mask does. -/
theorem cheevos_var_reduce_loop_even (V : Nat) :
    ∀ (m1 f f2 a1 a0 : Nat), a0 < 2 → m1 < 2 ^ V → 2 * m1 ≤ f → m1 ≤ f2 →
      cheevos_var_reduce_loop (V + 1) f (2 * a1 + a0) (2 * m1) =
        2 * cheevos_var_reduce_loop V f2 a1 m1 + a0 := by
  intro m1
  induction m1 using Nat.strong_induction_on with
  | _ m1 ih =>
    intro f f2 a1 a0 ha0 hm1 hf hf2
    rcases Nat.eq_zero_or_pos m1 with rfl | hpos
    · rw [Nat.mul_zero, cheevos_var_reduce_loop_zero, cheevos_var_reduce_loop_zero]
    · obtain ⟨f, rfl⟩ : ∃ g, f = g + 1 := ⟨f - 1, by omega⟩
      obtain ⟨f2, rfl⟩ : ∃ g, f2 = g + 1 := ⟨f2 - 1, by omega⟩
      have hne : 2 * m1 ≠ 0 := by omega
      have hne1 : m1 ≠ 0 := by omega
      have hs := cheevos_mask_step_le m1
      have hs2 := cheevos_mask_step_le (2 * m1)
      simp only [cheevos_var_reduce_loop, hne, hne1, ne_eq, not_false_eq_true, if_true]
      rw [cheevos_var_reduce_step_even V a1 a0 m1 ha0 hpos hm1,
        cheevos_mask_step_even m1 hpos]
      exact ih _ (by omega) _ _ _ _ ha0 (by omega) (by omega) (by omega)

/-- With a bound of at least `mask`, the loop of `cheevos_var_reduce` deletes
from an `addr` of `n` bits the positions set in a `mask` of `n` bits, in a word
of at least `n` bits. -/
theorem cheevos_var_reduce_loop_delete (n : Nat) :
    ∀ (W f a m : Nat), n ≤ W → a < 2 ^ n → m < 2 ^ n → m ≤ f →
      cheevos_var_reduce_loop W f a m = cheevos_bits_delete n a m := by
  induction n with
  | zero =>
    intro W f a m _ ha hm _
    have hm0 : m = 0 := by simpa using hm
    subst hm0
    rw [cheevos_var_reduce_loop_zero]
    rfl
  | succ n ih =>
    intro W f a m hW ha hm hf
    obtain ⟨V, rfl⟩ : ∃ V, W = V + 1 := ⟨W - 1, by omega⟩
    have hVn : n ≤ V := by omega
    have hpow : 2 ^ n ≤ 2 ^ V := Nat.pow_le_pow_right (by omega) hVn
    have hpow1 : 2 ^ (n + 1) ≤ 2 ^ (V + 1) := Nat.pow_le_pow_right (by omega) hW
    have ha2 : a / 2 < 2 ^ n := by rw [pow_succ] at ha; omega
    have hm2 : m / 2 < 2 ^ n := by rw [pow_succ] at hm; omega
    rcases Nat.mod_two_eq_zero_or_one m with h0 | h1
    · have em : m = 2 * (m / 2) := by omega
      have ea : a = 2 * (a / 2) + a % 2 := by omega
      have hd : cheevos_bits_delete (n + 1) a m =
          a % 2 + 2 * cheevos_bits_delete n (a / 2) (m / 2) := by
        simp [cheevos_bits_delete, h0]
      have hc := cheevos_var_reduce_loop_even V (m / 2) f (m / 2) (a / 2) (a % 2) (by omega)
        (by omega) (by omega) (le_refl _)
      rw [← em, ← ea] at hc
      rw [hd, ← ih V (m / 2) (a / 2) (m / 2) hVn ha2 hm2 (le_refl _), hc]
      omega
    · have em : m = 2 * (m / 2) + 1 := by omega
      obtain ⟨f, rfl⟩ : ∃ g, f = g + 1 := ⟨f - 1, by omega⟩
      have hd : cheevos_bits_delete (n + 1) a m = cheevos_bits_delete n (a / 2) (m / 2) := by
        simp [cheevos_bits_delete, h1]
      have hne : m ≠ 0 := by omega
      rw [hd, ← ih (V + 1) f (a / 2) (m / 2) (by omega) ha2 hm2 (by omega)]
      simp only [cheevos_var_reduce_loop, hne, ne_eq, not_false_eq_true, if_true]
      have h1 := cheevos_var_reduce_step_odd (V + 1) a (m / 2) (by omega) (by omega)
      have h2 := cheevos_mask_step_odd (m / 2)
      rw [← em] at h1 h2
      rw [h1, h2]


/-- The number of set bits, by the lowest bit and the rest. -/
theorem cheevos_digits_sum_step (m : Nat) :
    (Nat.digits 2 m).sum = m % 2 + (Nat.digits 2 (m / 2)).sum := by
  rcases Nat.eq_zero_or_pos m with rfl | hm
  · simp
  · obtain ⟨k, rfl⟩ : ∃ k, m = k + 1 := ⟨m - 1, by omega⟩
    rw [Nat.digits_add_two_add_one]
    simp

/-- Clearing the lowest set bit of a mask and shifting by one takes one from
the number of its set bits. -/
theorem cheevos_mask_step_digits (m : Nat) : 0 < m →
    (Nat.digits 2 ((m &&& (m - 1)) >>> 1)).sum + 1 = (Nat.digits 2 m).sum := by
  induction m using Nat.strong_induction_on with
  | _ m ih =>
    intro hm
    rcases Nat.mod_two_eq_zero_or_one m with h0 | h1
    · have em : m = 2 * (m / 2) := by omega
      have hpos : 0 < m / 2 := by omega
      have h := cheevos_mask_step_even (m / 2) hpos
      rw [← em] at h
      rw [h, cheevos_digits_sum_step (2 * _), cheevos_digits_sum_step m, h0,
        Nat.mul_mod_right, Nat.mul_div_cancel_left _ (by omega : 0 < 2), Nat.zero_add,
        Nat.zero_add]
      exact ih (m / 2) (by omega) hpos
    · have em : m = 2 * (m / 2) + 1 := by omega
      have h := cheevos_mask_step_odd (m / 2)
      rw [← em] at h
      rw [h, cheevos_digits_sum_step m, h1]
      omega

/-- With a bound of at least `mask`, the loop makes one round for every set bit
of `mask`. -/
theorem cheevos_var_reduce_rounds_eq (m : Nat) :
    ∀ f, m ≤ f → cheevos_var_reduce_rounds f m = some (Nat.digits 2 m).sum := by
  induction m using Nat.strong_induction_on with
  | _ m ih =>
    intro f hf
    rcases Nat.eq_zero_or_pos m with rfl | hm
    · cases f <;> simp [cheevos_var_reduce_rounds]
    · obtain ⟨f, rfl⟩ : ∃ g, f = g + 1 := ⟨f - 1, by omega⟩
      have hne : m ≠ 0 := by omega
      have hs := cheevos_mask_step_le m
      simp only [cheevos_var_reduce_rounds, hne, ne_eq, not_false_eq_true, if_true]
      rw [ih _ (by omega) f (by omega), Option.map_some', cheevos_mask_step_digits m hm]

/-- C25.  In a word of `bits` bits, for every `addr` and every `mask`: the loop
of `cheevos_var_reduce` ends after as many rounds as `mask` has set bits (the
sum of its binary digits), and a bound of `mask` rounds or more is never used
up; the result is `addr` with the bit positions set in `mask` deleted and the
remaining bits packed toward bit 0 (`cheevos_bits_delete`);
`cheevos_var_reduce addr 0 = addr`; and the result never exceeds `addr`. -/
theorem cheevos_var_reduce_deletes (bits addr mask : Nat) (haddr : addr < 2 ^ bits)
    (hmask : mask < 2 ^ bits) :
    cheevos_var_reduce_rounds mask mask = some (Nat.digits 2 mask).sum ∧
    (∀ fuel, mask ≤ fuel →
      cheevos_var_reduce_loop bits fuel addr mask = cheevos_var_reduce bits addr mask) ∧
    cheevos_var_reduce bits addr mask = cheevos_bits_delete bits addr mask ∧
    cheevos_var_reduce bits addr 0 = addr ∧
    cheevos_var_reduce bits addr mask ≤ addr := by
  have h : ∀ fuel, mask ≤ fuel →
      cheevos_var_reduce_loop bits fuel addr mask = cheevos_bits_delete bits addr mask :=
    fun fuel hf => cheevos_var_reduce_loop_delete bits bits fuel addr mask (le_refl _) haddr hmask hf
  have h0 : cheevos_var_reduce bits addr mask = cheevos_bits_delete bits addr mask :=
    h mask (le_refl _)
  refine ⟨cheevos_var_reduce_rounds_eq mask mask (le_refl _), fun fuel hf => ?_, h0, rfl, ?_⟩
  · rw [h0]; exact h fuel hf
  · rw [h0]; exact cheevos_bits_delete_le bits addr mask

/-- C25, instantiated on a 64-bit word: deleting the bits 2 and 4 of 0x36 takes
two rounds and gives 0xA. -/
theorem cheevos_var_reduce_deletes_witness :
    cheevos_var_reduce_rounds 0x14 0x14 = some 2 ∧
    cheevos_var_reduce 64 0x36 0x14 = 0xA ∧ cheevos_bits_delete 64 0x36 0x14 = 0xA :=
  have h := cheevos_var_reduce_deletes 64 0x36 0x14 (by norm_num) (by norm_num)
  have hd : cheevos_bits_delete 64 0x36 0x14 = 0xA := by norm_num [cheevos_bits_delete]
  ⟨by rw [h.1]; norm_num, by rw [h.2.2.1]; exact hd, hd⟩

/-! ## Theorems: the offset into a descriptor -/

/-- The bound on the offset rests on the disconnect mask.  With a mask that is
wider than the length (`sample_window`: length 0x10000, every bit kept) the
address 0x3000000 matches, its highest set bit 0x2000000 is taken away once, and
the 0x1000000 that remains is not below the length. -/
theorem cheevos_patch_address_reduced_exceeds :
    sample_host.descriptors = [sample_window] ∧
    sample_window.len ≠ 0 ∧
    (sample_window.start ^^^ 0x3000000) &&& sample_window.select = 0 ∧
    cheevos_patch_address_reduced 64 sample_window 0x3000000 = 0x1000000 ∧
    ¬ (cheevos_patch_address_reduced 64 sample_window 0x3000000 < sample_window.len) ∧
    cheevos_patch_address sample_host 0x3000000 0
      = sample_window.ptr + sample_window.offset + 0x1000000 := by
  decide

/-! ## Theorems: the fixup cache -/

/-- Lines 100 to 113 leave room for one more entry, as long as the entries are
then no more than 2^31. -/
theorem cheevos_fixup_grow_room (realloc_ok : Bool) (fixups grown : cheevos_fixups_t)
    (hg : cheevos_fixup_grow realloc_ok fixups = some grown)
    (h : fixups.elements.length ≤ 2 ^ 31 → fixups.elements.length ≤ fixups.capacity) :
    grown.elements.length + 1 ≤ 2 ^ 31 → grown.elements.length + 1 ≤ grown.capacity := by
  have he := (cheevos_fixup_grow_keeps realloc_ok fixups grown hg).1
  rw [he]
  intro hle
  unfold cheevos_fixup_grow at hg
  simp only [cheevos_fixups_t.count] at hg
  split_ifs at hg with h1 h2 h3 <;> simp only [Option.some.injEq, reduceCtorEq] at hg <;>
    subst hg <;> simp only [UINT_MOD] at * <;> omega

/-- A call of `cheevos_fixup_find` keeps room in the array for the entries in
use, as long as these are no more than 2^31. -/
theorem cheevos_fixup_find_room (host : cheevos_host) (realloc_ok : Bool)
    (fixups : cheevos_fixups_t) (address : Nat) (console : Int)
    (h : fixups.count ≤ 2 ^ 31 → fixups.count ≤ fixups.capacity) :
    (cheevos_fixup_find host realloc_ok fixups address console).fixups.count ≤ 2 ^ 31 →
      (cheevos_fixup_find host realloc_ok fixups address console).fixups.count ≤
        (cheevos_fixup_find host realloc_ok fixups address console).fixups.capacity := by
  obtain ⟨hperm, hcap, _, _⟩ := cheevos_fixup_sort_ok fixups
  have hlen : (cheevos_fixup_sort fixups).elements.length = fixups.elements.length :=
    hperm.length_eq
  simp only [cheevos_fixups_t.count] at h
  have hs : (cheevos_fixup_sort fixups).elements.length ≤ 2 ^ 31 →
      (cheevos_fixup_sort fixups).elements.length ≤ (cheevos_fixup_sort fixups).capacity := by
    rw [hlen, hcap]; exact h
  simp only [cheevos_fixup_find, cheevos_fixups_t.count]
  rcases bsearch cheevos_cmpaddr { address := address, location := 0 }
    (cheevos_fixup_sort fixups).elements with _ | p
  · rcases hg : cheevos_fixup_grow realloc_ok (cheevos_fixup_sort fixups) with _ | g
    · exact hs
    · simp only [List.length_append, List.length_singleton]
      exact cheevos_fixup_grow_room realloc_ok _ g hg hs
  · exact hs

/-- A sequence of calls of `cheevos_fixup_find` keeps room in the array for the
entries in use, as long as these are no more than 2^31. -/
theorem cheevos_fixup_run_room (calls : List cheevos_find_call) :
    ∀ fixups : cheevos_fixups_t,
      (fixups.count ≤ 2 ^ 31 → fixups.count ≤ fixups.capacity) →
      (cheevos_fixup_run fixups calls).count ≤ 2 ^ 31 →
      (cheevos_fixup_run fixups calls).count ≤ (cheevos_fixup_run fixups calls).capacity := by
  induction calls with
  | nil => intro fixups h; exact h
  | cons c cs ih =>
    intro fixups h
    exact ih _ (cheevos_fixup_find_room c.host c.realloc_ok fixups c.address c.console h)

/-- C26.  Every state of the fixup cache that is reached from
`cheevos_fixup_init` by a sequence of calls of `cheevos_fixup_find` (for any
addresses, in any memory environment, with or without memory for the array)
has room for its entries (`count ≤ capacity`, as long as the entries are no
more than 2^31: the capacity is an `unsigned` that is doubled), holds no
address twice, and unless it is marked dirty holds its entries in strictly
ascending order of their addresses. -/
theorem cheevos_fixup_run_invariant (calls : List cheevos_find_call) :
    ((cheevos_fixup_run cheevos_fixup_init calls).count ≤ 2 ^ 31 →
      (cheevos_fixup_run cheevos_fixup_init calls).count ≤
        (cheevos_fixup_run cheevos_fixup_init calls).capacity) ∧
    ((cheevos_fixup_run cheevos_fixup_init calls).elements.map (fun e => e.address)).Nodup ∧
    ((cheevos_fixup_run cheevos_fixup_init calls).dirty = false →
      (cheevos_fixup_run cheevos_fixup_init calls).elements.Pairwise
        (fun e1 e2 => e1.address < e2.address)) :=
  ⟨cheevos_fixup_run_room calls cheevos_fixup_init (fun _ => le_refl _),
    ((cheevos_fixup_run_ok calls cheevos_fixup_init).1 cheevos_fixup_init_ok).1,
    ((cheevos_fixup_run_ok calls cheevos_fixup_init).1 cheevos_fixup_init_ok).2⟩

/-- C26, instantiated: after the three calls of `sample_calls` the cache holds
three entries in an array of 16. -/
theorem cheevos_fixup_run_invariant_witness :
    (cheevos_fixup_run cheevos_fixup_init sample_calls).count = 3 ∧
    (cheevos_fixup_run cheevos_fixup_init sample_calls).capacity = 16 ∧
    (cheevos_fixup_run cheevos_fixup_init sample_calls).count ≤
      (cheevos_fixup_run cheevos_fixup_init sample_calls).capacity :=
  ⟨by decide, by decide, (cheevos_fixup_run_invariant sample_calls).1 (by decide)⟩

/-! ## Theorems: loading and testing the achievements -/

/-- A round of the loop of `cheevos_test_cheevo_set` passes by an achievement that
is not active in the mode. -/
theorem cheevos_test_cheevo_skip (cenv : cheevos_env) (peek : rc_peek_t) (mode : Int)
    (cheevo : cheevos_cheevo_t) (h : Int.land cheevo.active mode = 0) :
    cheevos_test_cheevo cenv peek mode cheevo =
      { cheevo := cheevo, tested := false, reset := false, awarded := false } := by
  simp only [cheevos_test_cheevo, h, if_true]

/-- A round of the loop of `cheevos_test_cheevo_set` on an achievement that is
active in the mode. -/
theorem cheevos_test_cheevo_active (cenv : cheevos_env) (peek : rc_peek_t) (mode : Int)
    (cheevo : cheevos_cheevo_t) (h : Int.land cheevo.active mode ≠ 0) :
    (cheevos_test_cheevo cenv peek mode cheevo).tested = true ∧
    ((cheevos_test_cheevo cenv peek mode cheevo).awarded = true ↔
      (cenv.rc.rc_test_trigger cheevo.trigger peek 0).1 ≠ 0 ∧ cheevo.last = 0) ∧
    ((cheevos_test_cheevo cenv peek mode cheevo).reset = true ↔ cheevo.last ≠ 0) ∧
    (cheevo.last ≠ 0 →
      (cheevos_test_cheevo cenv peek mode cheevo).cheevo.trigger =
        cenv.rc.rc_reset_trigger (cenv.rc.rc_test_trigger cheevo.trigger peek 0).2) ∧
    (cheevos_test_cheevo cenv peek mode cheevo).cheevo.last =
      (cenv.rc.rc_test_trigger cheevo.trigger peek 0).1 := by
  simp only [cheevos_test_cheevo, h, if_false, ne_eq, not_false_eq_true, if_true]
  by_cases hl : cheevo.last = 0
  · by_cases hv : (cenv.rc.rc_test_trigger cheevo.trigger peek 0).1 = 0
    · simp [hl, hv]
    · simp [hl, hv, cheevos_award]
  · simp [hl]


/-- The entries that the loop of `cheevos_parse` writes for a set of achievements:
one for each definition, in the order of the definitions, active in both modes
and with `last` set to 1. -/
theorem cheevos_parse_cheevos_entries (cenv : cheevos_env) :
    ∀ (defs : List cheevos_racheevo_t) (k : Nat) (r : List cheevos_cheevo_t),
      cheevos_parse_cheevos cenv k defs = some r →
      r.map (fun c => c.info) = defs ∧ ∀ c ∈ r, c.last = 1 := by
  intro defs
  induction defs with
  | nil =>
    intro k r h
    simp only [cheevos_parse_cheevos, Option.some.injEq] at h
    subst h
    exact ⟨rfl, fun c hc => absurd hc (List.not_mem_nil c)⟩
  | cons rac rest ih =>
    intro k r h
    simp only [cheevos_parse_cheevos] at h
    split_ifs at h with h1 h2
    rcases hr : cheevos_parse_cheevos cenv (k + 1) rest with _ | l
    · rw [hr] at h; simp at h
    · rw [hr] at h
      simp only [Option.map_some', Option.some.injEq] at h
      subst h
      obtain ⟨hi, hl⟩ := ih (k + 1) l hr
      refine ⟨by simp only [List.map_cons, hi], fun c hc => ?_⟩
      rcases List.mem_cons.mp hc with rfl | hc
      · rfl
      · exact hl c hc

/-- The size and the parse of a leaderboard definition end within their bounds of
rounds. -/
theorem rc_parse_lboard_ends (env : rc_env) (slot : rc_lboard_t) (scratch buffer : Nat)
    (memaddr : List Char) (L : Nat) (funcs_ndx : Int) :
    (∃ size, rc_lboard_size env slot scratch memaddr = some size) ∧
    (∃ placed, rc_parse_lboard env slot scratch buffer memaddr L funcs_ndx = some placed) := by
  constructor
  · obtain ⟨r, hr⟩ := rc_parse_lboard_loop_total env 0 scratch 0 0 (memaddr.length + 1)
      { self := { slot with progress := none }, progress_ptr := 0,
        ret := (env.rc_alloc 0 0 env.sizeof_lboard env.alignof_lboard scratch).2 } 0 memaddr
      (Nat.lt_succ_self _)
    exact ⟨r.ret, by simp only [rc_lboard_size, rc_parse_lboard_internal, hr, Option.map_some']⟩
  · obtain ⟨r, hr⟩ := rc_parse_lboard_loop_total env buffer 0 L funcs_ndx (memaddr.length + 1)
      { self := { slot with progress := none }, progress_ptr := 0,
        ret := (env.rc_alloc buffer 0 env.sizeof_lboard env.alignof_lboard scratch).2 } 0 memaddr
      (Nat.lt_succ_self _)
    simp only [rc_parse_lboard, rc_parse_lboard_internal, hr, Option.map_some']
    exact ⟨_, rfl⟩

/-- The loop of `cheevos_parse` over the leaderboards ends. -/
theorem cheevos_parse_lboards_ends (cenv : cheevos_env) :
    ∀ (defs : List cheevos_ralboard_t) (k : Nat),
      ∃ r, cheevos_parse_lboards cenv k defs = some r := by
  intro defs
  induction defs with
  | nil => intro k; exact ⟨some [], rfl⟩
  | cons info rest ih =>
    intro k
    obtain ⟨size, hsize⟩ := (rc_parse_lboard_ends cenv.rc cenv.scratch_slot cenv.scratch 0
      info.mem 0 0).1
    obtain ⟨placed, hplaced⟩ := (rc_parse_lboard_ends cenv.rc cheevos_cleared_lboard cenv.scratch
      (cenv.calloc k) info.mem 0 0).2
    obtain ⟨r, hr⟩ := ih (k + 1)
    simp only [cheevos_parse_lboards, hsize, hplaced, hr, Option.map_some']
    split_ifs <;> exact ⟨_, rfl⟩

/-- A call of `cheevos_parse` returns. -/
theorem cheevos_parse_ends (cenv : cheevos_env) (locals : cheevos_sets_t) (json : List Char) :
    ∃ r, cheevos_parse cenv locals json = some r := by
  obtain ⟨l, hl⟩ := cheevos_parse_lboards_ends cenv (cenv.cheevos_get_patchdata json).2.lboards
    (3 + (cenv.cheevos_get_patchdata json).2.core_count +
      (cenv.cheevos_get_patchdata json).2.unofficial_count)
  simp only [cheevos_parse, hl, Option.map_some']
  split_ifs
  · exact ⟨_, rfl⟩
  · exact ⟨_, rfl⟩
  · exact ⟨_, rfl⟩
  · rcases cheevos_parse_cheevos cenv 3 (cenv.cheevos_get_patchdata json).2.core with _ | c
    · exact ⟨_, rfl⟩
    · rcases cheevos_parse_cheevos cenv (3 + (cenv.cheevos_get_patchdata json).2.core_count)
        (cenv.cheevos_get_patchdata json).2.unofficial with _ | u
      · exact ⟨_, rfl⟩
      · exact ⟨_, rfl⟩

/-- When `cheevos_parse` leaves by line 400, `cheevos_locals` holds an entry for
every achievement definition of the patch data, in the order of the
definitions, and every entry has `last` set to 1. -/
theorem cheevos_parse_loaded (cenv : cheevos_env) (locals : cheevos_sets_t) (json : List Char)
    (r : cheevos_parsed) (h : cheevos_parse cenv locals json = some r)
    (hl : r.exit = .loaded) :
    r.locals.core.map (fun c => c.info) = (cenv.cheevos_get_patchdata json).2.core ∧
    r.locals.unofficial.map (fun c => c.info) = (cenv.cheevos_get_patchdata json).2.unofficial ∧
    ∀ c ∈ r.locals.core ++ r.locals.unofficial, c.last = 1 := by
  simp only [cheevos_parse] at h
  split_ifs at h
  · simp only [Option.some.injEq] at h; subst h; cases hl
  · simp only [Option.some.injEq] at h; subst h; cases hl
  · simp only [Option.some.injEq] at h; subst h; cases hl
  · rcases hc : cheevos_parse_cheevos cenv 3 (cenv.cheevos_get_patchdata json).2.core with _ | c
    · rw [hc] at h; simp only [Option.some.injEq] at h; subst h; cases hl
    · rcases hu : cheevos_parse_cheevos cenv (3 + (cenv.cheevos_get_patchdata json).2.core_count)
        (cenv.cheevos_get_patchdata json).2.unofficial with _ | u
      · rw [hc, hu] at h; simp only [Option.some.injEq] at h; subst h; cases hl
      · rw [hc, hu] at h
        simp only [Option.map_eq_some'] at h
        obtain ⟨l, _, rfl⟩ := h
        rcases l with _ | l
        · cases hl
        · refine ⟨(cheevos_parse_cheevos_entries cenv _ _ _ hc).1,
            (cheevos_parse_cheevos_entries cenv _ _ _ hu).1, fun x hx => ?_⟩
          rcases List.mem_append.mp hx with hx | hx
          · exact (cheevos_parse_cheevos_entries cenv _ _ _ hc).2 x hx
          · exact (cheevos_parse_cheevos_entries cenv _ _ _ hu).2 x hx

/-- The test of line 301 as the compiler reads it: `cheevos_parse` leaves by line
309 when the patch data was read, holds no core achievement, and holds both an
unofficial achievement and a leaderboard. -/
theorem cheevos_parse_nothing_iff (cenv : cheevos_env) (locals : cheevos_sets_t)
    (json : List Char) (r : cheevos_parsed) (h : cheevos_parse cenv locals json = some r) :
    r.exit = .nothing ↔
      (cenv.cheevos_get_patchdata json).1 = 0 ∧
      (cenv.cheevos_get_patchdata json).2.core_count = 0 ∧
      (cenv.cheevos_get_patchdata json).2.unofficial_count ≠ 0 ∧
      (cenv.cheevos_get_patchdata json).2.lboard_count ≠ 0 := by
  have hn : ∀ x : Nat, logical_not x = 0 ↔ x ≠ 0 := by
    intro x
    unfold logical_not
    split_ifs with hx <;> simp [hx]
  simp only [cheevos_parse, hn] at h
  split_ifs at h with h1 h2 h3
  · simp only [Option.some.injEq] at h; subst h
    simp only [reduceCtorEq, false_iff]
    exact fun hh => h1 hh.1
  · simp only [Option.some.injEq] at h; subst h
    simp only [true_iff]
    exact ⟨not_not.mp h1, h2⟩
  · simp only [Option.some.injEq] at h; subst h
    simp only [reduceCtorEq, false_iff]
    exact fun hh => h2 hh.2
  · have hne : r.exit ≠ .nothing := by
      rcases hc : cheevos_parse_cheevos cenv 3 (cenv.cheevos_get_patchdata json).2.core with _ | c
      · rw [hc] at h; simp only [Option.some.injEq] at h; subst h; exact fun hh => by cases hh
      · rcases hu : cheevos_parse_cheevos cenv (3 + (cenv.cheevos_get_patchdata json).2.core_count)
          (cenv.cheevos_get_patchdata json).2.unofficial with _ | u
        · rw [hc, hu] at h; simp only [Option.some.injEq] at h; subst h
          exact fun hh => by cases hh
        · rw [hc, hu] at h
          simp only [Option.map_eq_some'] at h
          obtain ⟨l, _, rfl⟩ := h
          rcases l with _ | l <;> exact fun hh => by cases hh
    simp only [hne, false_iff]
    exact fun hh => h2 hh.2

/-- After `cheevos_reset_game` every achievement has `last` set to 1. -/
theorem cheevos_reset_game_last (locals : cheevos_sets_t) :
    ∀ c ∈ (cheevos_reset_game locals).core ++ (cheevos_reset_game locals).unofficial,
      c.last = 1 := by
  intro c hc
  simp only [cheevos_reset_game, List.mem_append, List.mem_map] at hc
  rcases hc with ⟨x, _, rfl⟩ | ⟨x, _, rfl⟩ <;> rfl

/-- An achievement whose `last` is set is not awarded in the first frame in which
it is tested, however many frames pass it by before. -/
theorem cheevos_test_frames_first (cenv : cheevos_env) :
    ∀ (frames : List (Int × rc_peek_t)) (cheevo : cheevos_cheevo_t), cheevo.last ≠ 0 →
      ∀ (i : Nat) (r : cheevos_round), (cheevos_test_frames cenv cheevo frames)[i]? = some r →
        (∀ (j : Nat) (q : cheevos_round), j < i →
          (cheevos_test_frames cenv cheevo frames)[j]? = some q → q.tested = false) →
        r.awarded = false := by
  intro frames
  induction frames with
  | nil => intro cheevo _ i r h; simp [cheevos_test_frames] at h
  | cons frame rest ih =>
    intro cheevo hlast i r h hbefore
    simp only [cheevos_test_frames] at h hbefore
    by_cases hact : Int.land cheevo.active frame.1 = 0
    · rw [cheevos_test_cheevo_skip cenv frame.2 frame.1 cheevo hact] at h hbefore
      cases i with
      | zero =>
        simp only [List.getElem?_cons_zero, Option.some.injEq] at h
        subst h; rfl
      | succ i =>
        simp only [List.getElem?_cons_succ] at h
        refine ih cheevo hlast i r h (fun j q hj hq => ?_)
        exact hbefore (j + 1) q (by omega) (by simpa only [List.getElem?_cons_succ] using hq)
    · have ha := cheevos_test_cheevo_active cenv frame.2 frame.1 cheevo hact
      cases i with
      | zero =>
        simp only [List.getElem?_cons_zero, Option.some.injEq] at h
        subst h
        by_contra hc
        have := (ha.2.1.mp (by simpa using hc)).2
        exact hlast this
      | succ i =>
        have h0 := hbefore 0 (cheevos_test_cheevo cenv frame.2 frame.1 cheevo) (by omega)
          (by simp only [List.getElem?_cons_zero])
        rw [ha.1] at h0
        exact absurd h0 (by decide)


/-- C29.  (1) The rounds of `cheevos_test_cheevo_set` are the rounds of the loop
body on the achievements of the chosen set, in the mode of the frame.  (2) On
an achievement that is active in the mode, a round tests the trigger; it awards
the achievement if and only if the trigger tests true and `last` is 0; it
resets the trigger if and only if `last` is not 0, and then awards nothing; and
it leaves the result of the test in `last`.  (3) On an achievement that is not
active in the mode, a round tests, resets and awards nothing and leaves the
achievement as it is.  (4) `cheevos_parse` returns, and when it has loaded the
definitions (line 400) `cheevos_locals` holds one achievement for every
definition of the patch data, each with `last` set to 1; `cheevos_reset_game`
sets every `last` to 1 as well.  (5) An achievement whose `last` is 1 is not
awarded in the first frame in which it is tested, whatever its trigger yields
and however many frames pass it by before. -/
theorem cheevos_test_cheevo_set_rising_edge (cenv : cheevos_env) :
    (∀ (settings : Option settings_t) (paused : Bool) (peek : rc_peek_t)
        (locals : cheevos_sets_t) (official : Bool),
      (cheevos_test_cheevo_set cenv settings paused peek locals official).2 =
        (if official then locals.core else locals.unofficial).map
          (cheevos_test_cheevo cenv peek
            (if (settings.any (fun s => s.cheevos_hardcore_mode_enable) && !paused) = true
              then cenv.CHEEVOS_ACTIVE_HARDCORE else cenv.CHEEVOS_ACTIVE_SOFTCORE))) ∧
    (∀ (peek : rc_peek_t) (mode : Int) (cheevo : cheevos_cheevo_t),
      Int.land cheevo.active mode ≠ 0 →
        (cheevos_test_cheevo cenv peek mode cheevo).tested = true ∧
        ((cheevos_test_cheevo cenv peek mode cheevo).awarded = true ↔
          (cenv.rc.rc_test_trigger cheevo.trigger peek 0).1 ≠ 0 ∧ cheevo.last = 0) ∧
        ((cheevos_test_cheevo cenv peek mode cheevo).reset = true ↔ cheevo.last ≠ 0) ∧
        (cheevo.last ≠ 0 → (cheevos_test_cheevo cenv peek mode cheevo).awarded = false) ∧
        (cheevos_test_cheevo cenv peek mode cheevo).cheevo.last =
          (cenv.rc.rc_test_trigger cheevo.trigger peek 0).1) ∧
    (∀ (peek : rc_peek_t) (mode : Int) (cheevo : cheevos_cheevo_t),
      Int.land cheevo.active mode = 0 →
        cheevos_test_cheevo cenv peek mode cheevo =
          { cheevo := cheevo, tested := false, reset := false, awarded := false }) ∧
    (∀ (locals : cheevos_sets_t) (json : List Char),
      ∃ r, cheevos_parse cenv locals json = some r ∧
        (r.exit = .loaded →
          r.locals.core.map (fun c => c.info) = (cenv.cheevos_get_patchdata json).2.core ∧
          r.locals.unofficial.map (fun c => c.info) =
            (cenv.cheevos_get_patchdata json).2.unofficial ∧
          ∀ c ∈ r.locals.core ++ r.locals.unofficial, c.last = 1)) ∧
    (∀ locals : cheevos_sets_t,
      ∀ c ∈ (cheevos_reset_game locals).core ++ (cheevos_reset_game locals).unofficial,
        c.last = 1) ∧
    (∀ (frames : List (Int × rc_peek_t)) (cheevo : cheevos_cheevo_t), cheevo.last = 1 →
      ∀ (i : Nat) (r : cheevos_round), (cheevos_test_frames cenv cheevo frames)[i]? = some r →
        (∀ (j : Nat) (q : cheevos_round), j < i →
          (cheevos_test_frames cenv cheevo frames)[j]? = some q → q.tested = false) →
        r.awarded = false) := by
  refine ⟨?_, ?_, cheevos_test_cheevo_skip cenv, ?_, cheevos_reset_game_last, ?_⟩
  · intro settings paused peek locals official
    rcases settings with _ | s <;> cases paused <;> cases official <;>
      simp [cheevos_test_cheevo_set]
  · intro peek mode cheevo h
    obtain ⟨h1, h2, h3, _, h5⟩ := cheevos_test_cheevo_active cenv peek mode cheevo h
    refine ⟨h1, h2, h3, fun hl => ?_, h5⟩
    by_contra hc
    exact hl (h2.mp (by simpa using hc)).2
  · intro locals json
    obtain ⟨r, hr⟩ := cheevos_parse_ends cenv locals json
    exact ⟨r, hr, cheevos_parse_loaded cenv locals json r hr⟩
  · intro frames cheevo hlast
    exact cheevos_test_frames_first cenv frames cheevo (by rw [hlast]; decide)

/-- C29, instantiated in the sample environment, in softcore mode, on an
achievement whose trigger reads address 0: with `last` 0 and the byte set the
achievement is awarded; with `last` 1 and the byte set the trigger is reset and
nothing is awarded. -/
theorem cheevos_test_cheevo_set_rising_edge_witness :
    ((cheevos_test_cheevo sample_cheevos_env (sample_peek [1]) 1 (sample_cheevo 0)).awarded = true ↔
      (sample_env.rc_test_trigger (sample_cheevo 0).trigger (sample_peek [1]) 0).1 ≠ 0 ∧
        (sample_cheevo 0).last = 0) ∧
    (cheevos_test_cheevo sample_cheevos_env (sample_peek [1]) 1 (sample_cheevo 0)).awarded = true ∧
    (cheevos_test_cheevo sample_cheevos_env (sample_peek [1]) 1 (sample_cheevo 1)).awarded = false :=
  ⟨((cheevos_test_cheevo_set_rising_edge sample_cheevos_env).2.1 (sample_peek [1]) 1
      (sample_cheevo 0) (by decide)).2.1,
    by decide,
    ((cheevos_test_cheevo_set_rising_edge sample_cheevos_env).2.1 (sample_peek [1]) 1
      (sample_cheevo 1) (by decide)).2.2.2.1 (by decide)⟩

/-- C30 fails in both directions.  With patch data that holds nothing at all
(the JSON text without `c`, `u` or `l`) `cheevos_parse` does not leave by line
309: it goes on to `calloc`, and returns 0 from line 400 or, when `calloc` gives
no memory, -1 from line 410.  With patch data that holds no core achievement,
one unofficial achievement and one leaderboard it leaves by line 309 and loads
neither of the two definitions. -/
theorem cheevos_parse_shortcut_slip :
    ((sample_cheevos_env.cheevos_get_patchdata []).2.core_count = 0 ∧
      (sample_cheevos_env.cheevos_get_patchdata []).2.unofficial_count = 0 ∧
      (sample_cheevos_env.cheevos_get_patchdata []).2.lboard_count = 0 ∧
      cheevos_parse sample_cheevos_env cheevos_sets_none [] =
        some { ret := 0, exit := .loaded, locals := cheevos_sets_none } ∧
      cheevos_parse sample_cheevos_starved cheevos_sets_none [] =
        some { ret := -1, exit := .error, locals := cheevos_sets_none }) ∧
    ((sample_cheevos_env.cheevos_get_patchdata ['u', 'l']).2.core_count = 0 ∧
      (sample_cheevos_env.cheevos_get_patchdata ['u', 'l']).2.unofficial_count = 1 ∧
      (sample_cheevos_env.cheevos_get_patchdata ['u', 'l']).2.lboard_count = 1 ∧
      cheevos_parse sample_cheevos_env cheevos_sets_none ['u', 'l'] =
        some { ret := 0, exit := .nothing, locals := cheevos_sets_none }) := by
  decide

end RC
